import Mathlib

/-!
# Linear/linear relate engine of Boost.Geometry

A shallow embedding of
`include/boost/geometry/algorithms/detail/relate/linear_linear.hpp`
and a verification of its specification.

Conventions of the embedding.

* Points are an arbitrary type `P`; point equality, point-in-geometry, the
  boundary checker, turn generation, turn sorting, the base dimension and the
  interrupt policy of the matrix live in other headers and are taken as the
  fields of `collaborators`.
* A failed `BOOST_ASSERT` is the value `none`.
* `range::front` / `range::back` of an empty range and `sub_geometry::get`
  outside the geometry have no defined behaviour in the source; the embedding
  returns `default` (resp. the empty curve) there.
* Iterators into the turn vector are indices into a list.
-/

namespace relate

/-! ## Data model -/

/-- The three point sets of a geometry that index the matrix. -/
inductive field where
  | interior
  | boundary
  | exterior
  deriving DecidableEq, Repr

/-- Content of a matrix cell: `F` is the unset cell, `T` the wildcard and
`dim n` the digit character `'0' + n`. -/
inductive code where
  | F
  | T
  | dim (n : Nat)
  deriving DecidableEq, Repr

/-- Information content of a cell: unset, then wildcard, then the digits. -/
def code.rank : code → Nat
  | code.F => 0
  | code.T => 1
  | code.dim n => n + 2

/-- The relationship matrix together with its interrupt flag. -/
structure result where
  cells : field → field → code
  interrupt : Bool

/-- Segment identifier of the overlay module. -/
structure segment_identifier where
  source_index : Int
  multi_index : Int
  ring_index : Int
  segment_index : Int
  deriving DecidableEq, Repr

/-- Operation tags of a turn. -/
inductive operation_type where
  | operation_none
  | operation_union
  | operation_intersection
  | operation_blocked
  deriving DecidableEq, Repr

/-- Methods of a turn. -/
inductive method_type where
  | method_crosses
  | method_touch
  | method_touch_interior
  | method_equal
  | method_collinear
  | method_blocked
  deriving DecidableEq, Repr

/-- One side of a turn. -/
structure turn_operation where
  operation : operation_type
  seg_id : segment_identifier
  deriving DecidableEq, Repr

/-- An intersection event; `operations` is the two-element array of the source. -/
structure turn (P : Type) where
  point : P
  method : method_type
  operations : turn_operation × turn_operation

/-- Array access `operations[i]` for `i` in `{0, 1}`. -/
def turn.op {P : Type} (t : turn P) (i : Nat) : turn_operation :=
  if i = 0 then t.operations.1 else t.operations.2

/-- A linear geometry: one curve or a sequence of curves. -/
inductive geometry (P : Type) where
  | linestring (ls : List P)
  | multi_linestring (lss : List (List P))
  deriving DecidableEq

/-- Template argument of the boundary checker queries. -/
inductive boundary_query where
  | boundary_front
  | boundary_back
  | boundary_any
  deriving DecidableEq, Repr

/-- The collaborators of the engine, all defined outside `linear_linear.hpp`. -/
structure collaborators (P : Type) where
  /-- The function `detail::equals::equals_point_point`. -/
  equals_point_point : P → P → Bool
  /-- The function `detail::within::point_in_geometry`: positive inside, zero on the boundary, negative
  outside. -/
  point_in_geometry : P → geometry P → Int
  /-- The query `boundary_checker<G>(g).is_endpoint_boundary<Q>(pt)`. -/
  is_endpoint_boundary : geometry P → boundary_query → P → Bool
  /-- The query `boundary_checker<G>(g).is_boundary<Q>(pt, sid)`. -/
  is_boundary : geometry P → boundary_query → P → segment_identifier → Bool
  /-- The call `turns::get_turns<G1, G2>::apply`. -/
  get_turns : geometry P → geometry P → List (turn P)
  /-- The call `std::sort` with `turns::less_seg_dist_op<0,2,3,1,4,0,OpId>`. -/
  sort_less_seg_dist_op : Nat → List (turn P) → List (turn P)
  /-- The constant `result_dimension<G>::value`. -/
  result_dimension : geometry P → code
  /-- The test made after an update: every cell has reached its maximum. -/
  full : (field → field → code) → Bool

set_option linter.unusedSectionVars false

variable {P : Type} [Inhabited P]

/-- The helper `range::front`. -/
def range.front (ls : List P) : P := ls.headD default

/-- The helper `range::back`. -/
def range.back (ls : List P) : P := ls.getLastD default

/-- The helper `sub_geometry::get`: the curve component a segment identifier belongs to. -/
def sub_geometry.get (g : geometry P) (id : segment_identifier) : List P :=
  match g with
  | geometry.linestring ls => ls
  | geometry.multi_linestring lss => lss.getD id.multi_index.toNat []

/-! ## Relationship matrix (`result.hpp`) -/

/-- The default constructed matrix `FFFFFFFFF`. -/
def result.init : result :=
  { cells := fun _ _ => code.F, interrupt := false }

/-- Modelled from the spec: `set<F1, F2, V>(res)` of `result.hpp`, the
unconditional initializer of one cell. -/
def set (f1 f2 : field) (v : code) (res : result) : result :=
  { res with cells := fun a b => if a = f1 ∧ b = f2 then v else res.cells a b }

/-- Modelled from the spec: the upgrade of one cell by a digit; a cell holding
a higher digit is kept, an unset or wildcard cell takes the digit. -/
def code.upgrade (c : code) (d : Nat) : code :=
  match c with
  | code.F => code.dim d
  | code.T => code.dim d
  | code.dim n => if n < d then code.dim d else code.dim n

/-- Modelled from the spec: `update<F1, F2, D, Transpose>(res)` of
`result.hpp`. The digit `D` upgrades cell `(F1, F2)`, or `(F2, F1)` when
transposed, and the interrupt flag is raised when the matrix is full. -/
def update (full : (field → field → code) → Bool) (f1 f2 : field) (d : Nat)
    (transpose : Bool) (res : result) : result :=
  let r := if transpose then f2 else f1
  let s := if transpose then f1 else f2
  let cells := fun a b => if a = r ∧ b = s then (res.cells a b).upgrade d else res.cells a b
  { cells := cells, interrupt := res.interrupt || full cells }

/-! ## Curve classifier -/

/-- Kinds of a curve component. -/
inductive linestring_kind where
  | linestring_exterior
  | linestring_point
  | linestring_closed
  | linestring_open
  deriving DecidableEq, Repr

/-- The loop of `check_linestring_kind` over the points strictly between the
first and the last one. -/
def check_linestring_kind.loop (eq : P → P → Bool) (front : P) : List P → linestring_kind
  | [] => linestring_kind.linestring_point
  | p :: ps =>
    if !eq front p then linestring_kind.linestring_closed
    else check_linestring_kind.loop eq front ps

/-- The function `check_linestring_kind`. -/
def check_linestring_kind (eq : P → P → Bool) (ls : List P) : linestring_kind :=
  let count := ls.length
  if count = 0 then linestring_kind.linestring_exterior
  else if count = 1 then linestring_kind.linestring_point
  else
    let equal_fb := eq (range.front ls) (range.back ls)
    if equal_fb then
      check_linestring_kind.loop eq (range.front ls) ls.tail.dropLast
    else linestring_kind.linestring_open

/-! ## Disjoint-component scanner -/

/-- The specialisation of `for_each_disjoint_linestring_if` for `linestring_tag`;
`pred` carries its own state and the matrix in `σ`. -/
def for_each_disjoint_linestring_if.apply_linestring {σ : Type} (turns : List (turn P))
    (geometry : List P) (pred : σ → List P → σ × Bool) (s : σ) : σ × Bool :=
  if !turns.isEmpty then (s, false)
  else ((pred s geometry).1, true)

/-- First loop of the `multi_linestring_tag` specialisation: marks the
components that own a turn. -/
def for_each_disjoint_linestring_if.mark (OpId : Nat) (count : Nat) :
    List (turn P) → List Bool → Option (List Bool)
  | [], detected_intersections => some detected_intersections
  | it :: rest, detected_intersections =>
    let multi_index := (it.op OpId).seg_id.multi_index
    if ¬ (multi_index ≥ 0) then none
    else
      let index := multi_index.toNat
      if ¬ (index < count) then none
      else for_each_disjoint_linestring_if.mark OpId count rest (detected_intersections.set index true)

/-- Second loop of the `multi_linestring_tag` specialisation; `i` is the
distance of the iterator from `detected_intersections.begin()`. -/
def for_each_disjoint_linestring_if.scan {σ : Type} (geometry : List (List P))
    (pred : σ → List P → σ × Bool) : List Bool → Nat → σ → Bool → σ × Bool
  | [], _, s, found => (s, found)
  | d :: ds, i, s, found =>
    if d = false then
      let r := pred s (geometry.getD i [])
      if !r.2 then (r.1, true)
      else for_each_disjoint_linestring_if.scan geometry pred ds (i + 1) r.1 true
    else for_each_disjoint_linestring_if.scan geometry pred ds (i + 1) s found

/-- The specialisation of `for_each_disjoint_linestring_if` for
`multi_linestring_tag`. -/
def for_each_disjoint_linestring_if.apply_multi {σ : Type} (OpId : Nat) (turns : List (turn P))
    (geometry : List (List P)) (pred : σ → List P → σ × Bool) (s : σ) : Option (σ × Bool) :=
  if turns.isEmpty then none
  else
    let count := geometry.length
    match for_each_disjoint_linestring_if.mark OpId count turns (List.replicate count false) with
    | none => none
    | some detected_intersections =>
      some (for_each_disjoint_linestring_if.scan geometry pred detected_intersections 0 s false)

/-- Tag dispatch of `for_each_disjoint_linestring_if<OpId, Geometry>::apply`. -/
def for_each_disjoint_linestring_if.apply {σ : Type} (OpId : Nat) (turns : List (turn P))
    (g : geometry P) (pred : σ → List P → σ × Bool) (s : σ) : Option (σ × Bool) :=
  match g with
  | geometry.linestring ls =>
    some (for_each_disjoint_linestring_if.apply_linestring turns ls pred s)
  | geometry.multi_linestring lss =>
    for_each_disjoint_linestring_if.apply_multi OpId turns lss pred s

/-- Data members of `disjoint_linestring_pred` other than the references. -/
structure disjoint_linestring_pred where
  m_detected_mask_point : Nat
  m_detected_open_boundary : Bool
  deriving DecidableEq, Repr

/-- Constructor of `disjoint_linestring_pred`. -/
def disjoint_linestring_pred.init : disjoint_linestring_pred :=
  { m_detected_mask_point := 0, m_detected_open_boundary := false }

/-- The call operator of `disjoint_linestring_pred<OpId, BoundaryChecker, OtherGeometry>`. -/
def disjoint_linestring_pred.call (c : collaborators P) (OpId : Nat)
    (boundary_checker other_geometry : geometry P)
    (s : disjoint_linestring_pred × result) (linestring : List P) :
    (disjoint_linestring_pred × result) × Bool :=
  let transpose_result := OpId != 0
  let self := s.1
  let res := s.2
  let lk := check_linestring_kind c.equals_point_point linestring
  let s1 : disjoint_linestring_pred × result :=
    if lk = linestring_kind.linestring_point then
      if self.m_detected_mask_point ≠ 7 then
        let pig := c.point_in_geometry (range.front linestring) other_geometry
        if pig > 0 then
          ({ self with m_detected_mask_point := self.m_detected_mask_point ||| 1 },
            update c.full field.interior field.interior 0 transpose_result res)
        else if pig = 0 then
          ({ self with m_detected_mask_point := self.m_detected_mask_point ||| 2 },
            update c.full field.interior field.boundary 0 transpose_result res)
        else
          ({ self with m_detected_mask_point := self.m_detected_mask_point ||| 4 },
            update c.full field.interior field.exterior 0 transpose_result res)
      else (self, res)
    else if lk = linestring_kind.linestring_open ∨ lk = linestring_kind.linestring_closed then
      if !self.m_detected_open_boundary then
        let res1 := update c.full field.interior field.exterior 1 transpose_result res
        if c.is_endpoint_boundary boundary_checker boundary_query.boundary_front
              (range.front linestring)
            || c.is_endpoint_boundary boundary_checker boundary_query.boundary_back
              (range.back linestring) then
          ({ self with m_detected_open_boundary := true },
            update c.full field.boundary field.exterior 0 transpose_result res1)
        else (self, res1)
      else (self, res)
    else (self, res)
  let all_detected := s1.1.m_detected_mask_point = 7 ∧ s1.1.m_detected_open_boundary = true
  (s1, decide (¬ all_detected) && !s1.2.interrupt)

/-! ## Watchers -/

/-- The class `point_identifier` built by its two-argument constructor. -/
structure point_identifier (P : Type) where
  seg_id : segment_identifier
  point : P

/-- The predicate `same_ranges(sid_ptr)(sid)`. -/
def same_ranges (sid_ptr sid : segment_identifier) : Bool :=
  decide (sid.multi_index = sid_ptr.multi_index) && decide (sid.ring_index = sid_ptr.ring_index)

/-- The class `segment_watcher`; `none` is the null pointer. -/
structure segment_watcher where
  m_seg_id_ptr : Option segment_identifier
  deriving DecidableEq, Repr

/-- Constructor of `segment_watcher`. -/
def segment_watcher.init : segment_watcher := { m_seg_id_ptr := none }

/-- The member `segment_watcher::update`. -/
def segment_watcher.update (self : segment_watcher) (seg_id : segment_identifier) :
    Bool × segment_watcher :=
  let result :=
    match self.m_seg_id_ptr with
    | none => true
    | some p => !same_ranges p seg_id
  (result, { m_seg_id_ptr := some seg_id })

/-- The class `exit_watcher`; `exit_id = none` is the default constructed
`point_identifier` with null pointers. -/
structure exit_watcher (P : Type) where
  exit_operation : operation_type
  exit_id : Option (point_identifier P)
  other_entry_points : List (point_identifier P)

/-- Constructor of `exit_watcher`. -/
def exit_watcher.init : exit_watcher P :=
  { exit_operation := operation_type.operation_none, exit_id := none, other_entry_points := [] }

/-- The member `exit_watcher::enter`. -/
def exit_watcher.enter (self : exit_watcher P) (point : P) (other_id : segment_identifier) :
    Bool × exit_watcher P :=
  let result := self.other_entry_points.isEmpty
  (result, { self with
    other_entry_points := self.other_entry_points ++ [{ seg_id := other_id, point := point }] })

/-- The call `std::find_if(first, last, same_ranges(other_id))` as the index of the
first match, or the length of the list when there is none. -/
def find_if (other_id : segment_identifier) : List (point_identifier P) → Nat
  | [] => 0
  | e :: es => if same_ranges other_id e.seg_id then 0 else find_if other_id es + 1

/-- The member `exit_watcher::exit`. -/
def exit_watcher.exit (self : exit_watcher P) (point : P) (other_id : segment_identifier)
    (exit_op : operation_type) : Bool × exit_watcher P :=
  if self.other_entry_points.isEmpty then (true, self)
  else
    let entry_it := find_if other_id self.other_entry_points
    if entry_it ≠ self.other_entry_points.length then
      (false, { exit_operation := exit_op,
                exit_id := some { seg_id := other_id, point := point },
                other_entry_points := self.other_entry_points.eraseIdx entry_it })
    else (false, self)

/-- The member `exit_watcher::get_exit_operation`. -/
def exit_watcher.get_exit_operation (self : exit_watcher P) : operation_type :=
  self.exit_operation

/-- The member `exit_watcher::get_exit_point`; both assertions of the source
(on the operation and on the stored pointer) are checked. -/
def exit_watcher.get_exit_point (self : exit_watcher P) : Option P :=
  if self.exit_operation = operation_type.operation_none then none
  else
    match self.exit_id with
    | none => none
    | some pid => some pid.point

/-- The member `exit_watcher::reset_detected_exit`. -/
def exit_watcher.reset_detected_exit (self : exit_watcher P) : exit_watcher P :=
  { self with exit_operation := operation_type.operation_none }

/-! ## Turn-scan state machine -/

/-- Data members of `turns_analyser<OpId, TurnPoint>`. -/
structure turns_analyser (P : Type) where
  m_exit_watcher : exit_watcher P
  m_seg_watcher : segment_watcher
  m_last_union : Bool

/-- Constructor of `turns_analyser`. -/
def turns_analyser.init : turns_analyser P :=
  { m_exit_watcher := exit_watcher.init, m_seg_watcher := segment_watcher.init,
    m_last_union := false }

/-- The expression initialising `other_b` (lines 514-517, 563-566 and 611-614):
the turn point is on the boundary of the other geometry. -/
def turns_analyser.other_b (c : collaborators P) (other_geometry : geometry P)
    (point : P) (other_operation : operation_type) (other_id : segment_identifier) : Bool :=
  if other_operation = operation_type.operation_blocked then
    c.is_endpoint_boundary other_geometry boundary_query.boundary_back point
  else c.is_boundary other_geometry boundary_query.boundary_any point other_id

open field operation_type boundary_query in
/-- Lines 461-481 of `turns_analyser::apply`, "handle possible exit": returns
the exit watcher, the matrix and `fake_enter_detected`. -/
def turns_analyser.handle_possible_exit (c : collaborators P) (transpose_result : Bool)
    (m_exit_watcher : exit_watcher P) (res : result) (point : P) (op : operation_type) :
    Option (exit_watcher P × result × Bool) :=
  if m_exit_watcher.get_exit_operation = operation_union then
    -- real exit point - may be multiple
    match m_exit_watcher.get_exit_point with
    | none => none
    | some exit_point =>
      if !c.equals_point_point point exit_point then
        some (m_exit_watcher.reset_detected_exit,
          update c.full interior exterior 1 transpose_result res, false)
      -- fake exit point, reset state
      else if op = operation_intersection then
        some (m_exit_watcher.reset_detected_exit, res, true)
      else some (m_exit_watcher, res, false)
  else some (m_exit_watcher, res, false)

open field operation_type boundary_query in
/-- Lines 483-498 of `turns_analyser::apply`: the boundary on the last point of
the previous range; `prev` is the element before `it` in the turn vector. -/
def turns_analyser.check_previous_range (c : collaborators P) (OpId : Nat)
    (transpose_result : Bool) (turns : List (turn P)) (it : Nat) (geometry : geometry P)
    (first_in_range fake_enter_detected m_last_union : Bool) (res : result) : Option result :=
  if first_in_range && !fake_enter_detected && m_last_union then
    if it = 0 then none
    else
      match turns[it - 1]? with
      | none => none
      | some prev =>
        let prev_seg_id := (prev.op OpId).seg_id
        -- if there is a boundary on the last point
        if c.is_endpoint_boundary geometry boundary_back
            (range.back (sub_geometry.get geometry prev_seg_id)) then
          some (update c.full boundary exterior 0 transpose_result res)
        else some res
  else some res

open field operation_type boundary_query in
/-- Lines 504-548 of `turns_analyser::apply`, the branch of
`operation_intersection` (i/i, i/x, i/u). -/
def turns_analyser.on_intersection (c : collaborators P) (transpose_result : Bool)
    (geometry : geometry P) (other_geometry : relate.geometry P)
    (point : P) (seg_id other_id : segment_identifier) (other_operation : operation_type)
    (first_in_range fake_enter_detected : Bool) (m_exit_watcher : exit_watcher P)
    (res : result) : exit_watcher P × result :=
  let e := m_exit_watcher.enter point other_id
  let was_outside := e.1
  -- interiors overlaps
  let res1 := update c.full interior interior 1 transpose_result res
  -- going inside on boundary point
  if c.is_boundary geometry boundary_front point seg_id then
    let other_b := turns_analyser.other_b c other_geometry point other_operation other_id
    -- it's also the boundary of the other geometry
    if other_b then (e.2, update c.full boundary boundary 0 transpose_result res1)
    else (e.2, update c.full boundary interior 0 transpose_result res1)
  -- going inside on non-boundary point
  else
    -- if we didn't enter in the past, we were outside
    if was_outside && !fake_enter_detected then
      let res2 := update c.full interior exterior 1 transpose_result res1
      -- if it's the first IP then the first point is outside
      if first_in_range then
        -- if there is a boundary on the first point
        if c.is_endpoint_boundary geometry boundary_front
            (range.front (sub_geometry.get geometry seg_id)) then
          (e.2, update c.full boundary exterior 0 transpose_result res2)
        else (e.2, res2)
      else (e.2, res2)
    else (e.2, res1)

open field operation_type boundary_query in
/-- Lines 550-653 of `turns_analyser::apply`, the branch of `operation_union`
and `operation_blocked` (u/i, u/u, u/x, x/i, x/u, x/x). -/
def turns_analyser.on_union_or_blocked (c : collaborators P) (transpose_result : Bool)
    (geometry : geometry P) (other_geometry : relate.geometry P)
    (point : P) (method : method_type) (op : operation_type)
    (seg_id other_id : segment_identifier) (other_operation : operation_type)
    (first_in_range : Bool) (m_exit_watcher : exit_watcher P)
    (res : result) : exit_watcher P × result :=
  let op_blocked := decide (op = operation_blocked)
  let x := m_exit_watcher.exit point other_id op
  let was_outside := x.1
  -- we're inside, possibly going out right now
  if !was_outside then
    if op_blocked then
      -- check if this is indeed the boundary point
      if c.is_endpoint_boundary geometry boundary_back point then
        let other_b := turns_analyser.other_b c other_geometry point other_operation other_id
        -- it's also the boundary of the other geometry
        if other_b then (x.2, update c.full boundary boundary 0 transpose_result res)
        else (x.2, update c.full boundary interior 0 transpose_result res)
      else (x.2, res)
    else (x.2, res)
  -- we're outside
  else
    let res1 := update c.full interior exterior 1 transpose_result res
    -- boundaries don't overlap - just an optimization
    if method = method_type.method_crosses then
      let res2 := update c.full interior interior 0 transpose_result res1
      -- it's the first point in range
      if first_in_range then
        -- if there is a boundary on the first point
        if c.is_endpoint_boundary geometry boundary_front
            (range.front (sub_geometry.get geometry seg_id)) then
          (x.2, update c.full boundary exterior 0 transpose_result res2)
        else (x.2, res2)
      else (x.2, res2)
    -- method other than crosses, check more conditions
    else
      let this_b :=
        if op_blocked then c.is_endpoint_boundary geometry boundary_back point
        else c.is_boundary geometry boundary_front point seg_id
      -- if current IP is on boundary of the geometry
      if this_b then
        let other_b := turns_analyser.other_b c other_geometry point other_operation other_id
        -- it's also the boundary of the other geometry
        let res2 :=
          if other_b then update c.full boundary boundary 0 transpose_result res1
          else update c.full boundary interior 0 transpose_result res1
        -- first IP on the last segment point - this means that the first point is outside
        if first_in_range && op_blocked then
          -- if there is a boundary on the first point
          if c.is_endpoint_boundary geometry boundary_front
              (range.front (sub_geometry.get geometry seg_id)) then
            (x.2, update c.full boundary exterior 0 transpose_result res2)
          else (x.2, res2)
        else (x.2, res2)
      -- boundaries don't overlap
      else
        let res2 := update c.full interior interior 0 transpose_result res1
        if first_in_range then
          -- if there is a boundary on the first point
          if c.is_endpoint_boundary geometry boundary_front
              (range.front (sub_geometry.get geometry seg_id)) then
            (x.2, update c.full boundary exterior 0 transpose_result res2)
          else (x.2, res2)
        else (x.2, res2)

open field operation_type boundary_query in
/-- Lines 656-680 of `turns_analyser::apply`, the call with `it == last`. -/
def turns_analyser.at_last (c : collaborators P) (OpId : Nat) (transpose_result : Bool)
    (self : turns_analyser P) (res : result) (turns : List (turn P))
    (geometry : geometry P) : Option result :=
  -- here, the possible exit is the real one
  if self.m_exit_watcher.get_exit_operation = operation_union || self.m_last_union then
    -- for sure
    let res1 := update c.full interior exterior 1 transpose_result res
    if turns.isEmpty then none
    else
      match turns[turns.length - 1]? with
      | none => none
      | some prev =>
        let prev_seg_id := (prev.op OpId).seg_id
        -- if there is a boundary on the last point
        if c.is_endpoint_boundary geometry boundary_back
            (range.back (sub_geometry.get geometry prev_seg_id)) then
          some (update c.full boundary exterior 0 transpose_result res1)
        else some res1
  else some res

open field operation_type boundary_query in
/-- The member `turns_analyser<OpId, TurnPoint>::apply`. The iterator `it` is an
index into `turns` and `it == last` is an index without an element. The
boundary checkers of the source are built from `geometry` and `other_geometry`.
The blocks of the body are the definitions above, in source order. -/
def turns_analyser.apply (c : collaborators P) (OpId : Nat) (self : turns_analyser P)
    (res : result) (turns : List (turn P)) (it : Nat) (geometry : geometry P)
    (other_geometry : relate.geometry P) : Option (turns_analyser P × result) :=
  let op_id := OpId
  let other_op_id := (OpId + 1) % 2
  let transpose_result := OpId != 0
  match turns[it]? with
  | some t =>
    let op := (t.op op_id).operation
    if op ≠ operation_union ∧ op ≠ operation_intersection ∧ op ≠ operation_blocked then
      some (self, res)
    else
      let seg_id := (t.op op_id).seg_id
      let other_id := (t.op other_op_id).seg_id
      let sw := self.m_seg_watcher.update seg_id
      let first_in_range := sw.1
      match turns_analyser.handle_possible_exit c transpose_result self.m_exit_watcher res
          t.point op with
      | none => none
      | some (ew, res1, fake_enter_detected) =>
        match turns_analyser.check_previous_range c OpId transpose_result turns it geometry
            first_in_range fake_enter_detected self.m_last_union res1 with
        | none => none
        | some res2 =>
          -- reset state
          let m_last_union := decide (op = operation_union)
          if op = operation_intersection then
            let r := turns_analyser.on_intersection c transpose_result geometry other_geometry
              t.point seg_id other_id (t.op other_op_id).operation first_in_range
              fake_enter_detected ew res2
            some ({ m_exit_watcher := r.1, m_seg_watcher := sw.2, m_last_union := m_last_union },
              r.2)
          else if op = operation_union ∨ op = operation_blocked then
            let r := turns_analyser.on_union_or_blocked c transpose_result geometry
              other_geometry t.point t.method op seg_id other_id (t.op other_op_id).operation
              first_in_range ew res2
            some ({ m_exit_watcher := r.1, m_seg_watcher := sw.2, m_last_union := m_last_union },
              r.2)
          else
            some ({ m_exit_watcher := ew, m_seg_watcher := sw.2, m_last_union := m_last_union },
              res2)
  -- it == last
  | none =>
    match turns_analyser.at_last c OpId transpose_result self res turns geometry with
    | none => none
    | some res1 => some (self, res1)

/-- The loop of `analyse_each_turn`: `n` turns are left and `it` is the
current iterator; after the last turn the analyser is called with `it == last`. -/
def analyse_each_turn.loop (c : collaborators P) (OpId : Nat) (turns : List (turn P))
    (geometry : relate.geometry P)
    (other_geometry : relate.geometry P) :
    Nat → Nat → turns_analyser P → result → Option (turns_analyser P × result)
  | 0, it, analyser, res =>
    turns_analyser.apply c OpId analyser res turns it geometry other_geometry
  | n + 1, it, analyser, res =>
    match turns_analyser.apply c OpId analyser res turns it geometry other_geometry with
    | none => none
    | some (analyser1, res1) =>
      if res1.interrupt then some (analyser1, res1)
      else analyse_each_turn.loop c OpId turns geometry other_geometry n (it + 1) analyser1 res1

/-- The function `analyse_each_turn`. -/
def analyse_each_turn (c : collaborators P) (OpId : Nat) (res : result)
    (analyser : turns_analyser P) (turns : List (turn P))
    (geometry : relate.geometry P)
    (other_geometry : relate.geometry P) : Option (turns_analyser P × result) :=
  if turns.isEmpty then some (analyser, res)
  else analyse_each_turn.loop c OpId turns geometry other_geometry turns.length 0 analyser res

/-! ## The relate entry point -/

/-- The function `linear_linear<Geometry1, Geometry2>::apply`. -/
def linear_linear.apply (c : collaborators P) (geometry1 geometry2 : geometry P) :
    Option result :=
  let res := result.init
  let res := set field.exterior field.exterior (c.result_dimension geometry1) res
  -- get and analyse turns
  let turns := c.get_turns geometry1 geometry2
  match for_each_disjoint_linestring_if.apply 0 turns geometry1
      (disjoint_linestring_pred.call c 0 geometry1 geometry2)
      (disjoint_linestring_pred.init, res) with
  | none => none
  | some r1 =>
    let res := r1.1.2
    if res.interrupt then some res
    else
      match for_each_disjoint_linestring_if.apply 1 turns geometry2
          (disjoint_linestring_pred.call c 1 geometry2 geometry1)
          (disjoint_linestring_pred.init, res) with
      | none => none
      | some r2 =>
        let res := r2.1.2
        if res.interrupt then some res
        else if turns.isEmpty then some res
        else
          let turns := c.sort_less_seg_dist_op 0 turns
          match analyse_each_turn c 0 res turns_analyser.init turns geometry1 geometry2 with
          | none => none
          | some r3 =>
            let res := r3.2
            if res.interrupt then some res
            else
              let turns := c.sort_less_seg_dist_op 1 turns
              match analyse_each_turn c 1 res turns_analyser.init turns geometry2 geometry1 with
              | none => none
              | some r4 => some r4.2

/-! ## Definitions used to state the properties -/

/-- The transposed matrix. -/
def result.transpose (r : result) : result :=
  { cells := fun a b => r.cells b a, interrupt := r.interrupt }

/-- A turn with its two sides exchanged, as produced for the exchanged geometries. -/
def turn.swap (t : turn P) : turn P :=
  { point := t.point, method := t.method, operations := (t.operations.2, t.operations.1) }

/-- End points of the curves of a geometry. -/
def geometry.endpoints : geometry P → List P
  | geometry.linestring ls => [range.front ls, range.back ls]
  | geometry.multi_linestring lss => lss.flatMap fun ls => [range.front ls, range.back ls]

/-- Vertices of a geometry. -/
def geometry.vertices : geometry P → List P
  | geometry.linestring ls => ls
  | geometry.multi_linestring lss => lss.flatMap fun ls => ls

/-- Template arguments `(F1, F2, D)` of the updates in `turns_analyser::apply`. -/
def analyser_writes : List (field × field × Nat) :=
  [(field.interior, field.exterior, 1), (field.boundary, field.exterior, 0),
   (field.interior, field.interior, 1), (field.interior, field.interior, 0),
   (field.boundary, field.boundary, 0), (field.boundary, field.interior, 0)]

/-- Template arguments `(F1, F2, D)` of the updates in `disjoint_linestring_pred`. -/
def scanner_writes : List (field × field × Nat) :=
  [(field.interior, field.interior, 0), (field.interior, field.boundary, 0),
   (field.interior, field.exterior, 0), (field.interior, field.exterior, 1),
   (field.boundary, field.exterior, 0)]

/-- Row, column and digit of every update the engine can make, the updates of
direction 1 transposed. -/
def engine_writes : List (field × field × Nat) :=
  [(field.interior, field.interior, 0), (field.interior, field.interior, 1),
   (field.interior, field.boundary, 0), (field.interior, field.exterior, 0),
   (field.interior, field.exterior, 1), (field.boundary, field.interior, 0),
   (field.boundary, field.boundary, 0), (field.boundary, field.exterior, 0),
   (field.exterior, field.interior, 0), (field.exterior, field.interior, 1),
   (field.exterior, field.boundary, 0)]

/-- An interrupt test for the examples: no update of the engine can change a
cell. -/
def example_full (m : field → field → code) : Bool :=
  decide (∀ u ∈ engine_writes, (m u.1 u.2.1).upgrade u.2.2 = m u.1 u.2.1)

/-- Collaborators over integer points for the closed examples: a point is a
boundary point when it is an end point of an odd number of curves, it is inside
a geometry when it is another vertex of it, the turn lists are given, sorting
keeps the given order and `full` is the given interrupt policy. -/
def example_collaborators
    (get_turns : geometry (Int × Int) → geometry (Int × Int) → List (turn (Int × Int)))
    (full : (field → field → code) → Bool) : collaborators (Int × Int) :=
  { equals_point_point := fun a b => decide (a = b)
    point_in_geometry := fun p g =>
      if (g.endpoints.count p) % 2 = 1 then 0
      else if p ∈ g.vertices then 1 else -1
    is_endpoint_boundary := fun g _ p => decide ((g.endpoints.count p) % 2 = 1)
    is_boundary := fun g _ p _ => decide ((g.endpoints.count p) % 2 = 1)
    get_turns := get_turns
    sort_less_seg_dist_op := fun _ l => l
    result_dimension := fun _ => code.dim 1
    full := full }

/-- A transversal crossing at `(1, 0)`. -/
def crossing_turn : turn (Int × Int) :=
  { point := (1, 0), method := method_type.method_crosses,
    operations := (⟨operation_type.operation_union, ⟨0, -1, -1, 0⟩⟩,
                   ⟨operation_type.operation_union, ⟨1, -1, -1, 0⟩⟩) }

/-- The last point `(1, 0)` of the first curve touches the interior of the second. -/
def touch_turn : turn (Int × Int) :=
  { point := (1, 0), method := method_type.method_touch_interior,
    operations := (⟨operation_type.operation_blocked, ⟨0, -1, -1, 0⟩⟩,
                   ⟨operation_type.operation_union, ⟨1, -1, -1, 0⟩⟩) }

/-- Two equal curves from `(0, 0)` to `(1, 0)`: the turn at the first point. -/
def equal_front_turn : turn (Int × Int) :=
  { point := (0, 0), method := method_type.method_equal,
    operations := (⟨operation_type.operation_intersection, ⟨0, -1, -1, 0⟩⟩,
                   ⟨operation_type.operation_intersection, ⟨1, -1, -1, 0⟩⟩) }

/-- Two equal curves from `(0, 0)` to `(1, 0)`: the turn at the last point. -/
def equal_back_turn : turn (Int × Int) :=
  { point := (1, 0), method := method_type.method_equal,
    operations := (⟨operation_type.operation_blocked, ⟨0, -1, -1, 0⟩⟩,
                   ⟨operation_type.operation_blocked, ⟨1, -1, -1, 0⟩⟩) }

/-- Turns of `saturating_a` and `saturating_b`, in the order of direction 0. -/
def saturating_turns : List (turn (Int × Int)) :=
  [{ point := (0, 0), method := method_type.method_touch,
     operations := (⟨operation_type.operation_blocked, ⟨0, 1, -1, 0⟩⟩,
                    ⟨operation_type.operation_union, ⟨1, 0, -1, 0⟩⟩) },
   { point := (2, 0), method := method_type.method_touch_interior,
     operations := (⟨operation_type.operation_intersection, ⟨0, 1, -1, 0⟩⟩,
                    ⟨operation_type.operation_union, ⟨1, 0, -1, 1⟩⟩) }]

/-- A point and a segment; with `saturating_b` and `saturating_turns` the
matrix is full after the second turn of direction 0. -/
def saturating_a : geometry (Int × Int) :=
  geometry.multi_linestring [[(9, 9)], [(0, 0), (2, 0)]]

/-- Two curves, the second one away from `saturating_a`. -/
def saturating_b : geometry (Int × Int) :=
  geometry.multi_linestring [[(0, 0), (5, 5), (9, 9)], [(20, 20), (30, 30)]]

/-- Information order on matrices: every cell of `r'` holds at least the
information of the same cell of `r`. -/
def result.le (r r' : result) : Prop :=
  ∀ a b, (r.cells a b).rank ≤ (r'.cells a b).rank

/-- What the analyser reads of a turn in direction `d`: the point, the method,
the operation of side `d` and the operation of the other side. -/
def turn.view (d : Nat) (t : turn P) : P × method_type × turn_operation × turn_operation :=
  (t.point, t.method, t.op d, t.op ((d + 1) % 2))

/-- The interrupt flag is raised only when no further update of the engine can
change any cell. -/
def interrupt_sound (full : (field → field → code) → Bool) : Prop :=
  ∀ m, full m = true → ∀ u ∈ engine_writes, (m u.1 u.2.1).upgrade u.2.2 = m u.1 u.2.1

/-- Two runs of a fallible computation correspond: both fail, or both return
values related by `Q`. -/
def corresponds {α : Type} (Q : α → α → Prop) : Option α → Option α → Prop
  | none, none => True
  | some x, some y => Q x y
  | _, _ => False

/-- The relation `R` between matrices is kept by the updates `W`, made with
transposition `tr1` on the left and `tr2` on the right. -/
def update_closed (full : (field → field → code) → Bool) (W : List (field × field × Nat))
    (tr1 tr2 : Bool) (R : result → result → Prop) : Prop :=
  ∀ u ∈ W, ∀ r r', R r r' →
    R (update full u.1 u.2.1 u.2.2 tr1 r) (update full u.1 u.2.1 u.2.2 tr2 r')

/-- The state in which no assertion of the analyser can fail at iterator `it`:
a union seen last implies an earlier turn, and a pending exit has its point. -/
def analyser_ready (st : turns_analyser P) (it : Nat) : Prop :=
  (st.m_last_union = true → 0 < it) ∧
  (st.m_exit_watcher.exit_operation ≠ operation_type.operation_none →
    st.m_exit_watcher.exit_id.isSome = true)

/-- No update of the engine changes a cell of the matrix. -/
def saturated (m : field → field → code) : Prop :=
  ∀ u ∈ engine_writes, (m u.1 u.2.1).upgrade u.2.2 = m u.1 u.2.1

/-- The state of the matrix while the scanner runs: no interrupt and at most
`'0'` in the cell of the two interiors. -/
def quiet (r : result) : Prop :=
  r.interrupt = false ∧ (r.cells field.interior field.interior).rank ≤ 2

/-! ## The engine without the interrupt short-circuits -/

/-- The call operator of `disjoint_linestring_pred` with the interrupt test
removed from its return value. -/
def disjoint_linestring_pred.call_no_interrupt (c : collaborators P) (OpId : Nat)
    (boundary_checker other_geometry : geometry P)
    (s : disjoint_linestring_pred × result) (linestring : List P) :
    (disjoint_linestring_pred × result) × Bool :=
  let r := disjoint_linestring_pred.call c OpId boundary_checker other_geometry s linestring
  let all_detected := r.1.1.m_detected_mask_point = 7 ∧ r.1.1.m_detected_open_boundary = true
  (r.1, decide (¬ all_detected))

/-- The loop of `analyse_each_turn` without the return on interrupt. -/
def analyse_each_turn.loop_no_interrupt (c : collaborators P) (OpId : Nat)
    (turns : List (turn P)) (geometry : geometry P) (other_geometry : relate.geometry P) :
    Nat → Nat → turns_analyser P → result → Option (turns_analyser P × result)
  | 0, it, analyser, res =>
    turns_analyser.apply c OpId analyser res turns it geometry other_geometry
  | n + 1, it, analyser, res =>
    match turns_analyser.apply c OpId analyser res turns it geometry other_geometry with
    | none => none
    | some (analyser1, res1) =>
      analyse_each_turn.loop_no_interrupt c OpId turns geometry other_geometry n (it + 1)
        analyser1 res1

/-- The function `analyse_each_turn` without the return on interrupt. -/
def analyse_each_turn_no_interrupt (c : collaborators P) (OpId : Nat) (res : result)
    (analyser : turns_analyser P) (turns : List (turn P))
    (geometry : geometry P) (other_geometry : relate.geometry P) :
    Option (turns_analyser P × result) :=
  if turns.isEmpty then some (analyser, res)
  else
    analyse_each_turn.loop_no_interrupt c OpId turns geometry other_geometry turns.length 0
      analyser res

/-- The function `linear_linear::apply` with every interrupt short-circuit
removed: the stop of the scanner on interrupt, the three `if (res.interrupt)
return res` and the return inside the loop of `analyse_each_turn`. -/
def linear_linear.apply_no_interrupt (c : collaborators P) (geometry1 geometry2 : geometry P) :
    Option result :=
  let res := result.init
  let res := set field.exterior field.exterior (c.result_dimension geometry1) res
  let turns := c.get_turns geometry1 geometry2
  match for_each_disjoint_linestring_if.apply 0 turns geometry1
      (disjoint_linestring_pred.call_no_interrupt c 0 geometry1 geometry2)
      (disjoint_linestring_pred.init, res) with
  | none => none
  | some r1 =>
    let res := r1.1.2
    match for_each_disjoint_linestring_if.apply 1 turns geometry2
        (disjoint_linestring_pred.call_no_interrupt c 1 geometry2 geometry1)
        (disjoint_linestring_pred.init, res) with
    | none => none
    | some r2 =>
      let res := r2.1.2
      if turns.isEmpty then some res
      else
        let turns := c.sort_less_seg_dist_op 0 turns
        match analyse_each_turn_no_interrupt c 0 res turns_analyser.init turns geometry1
            geometry2 with
        | none => none
        | some r3 =>
          let res := r3.2
          let turns := c.sort_less_seg_dist_op 1 turns
          match analyse_each_turn_no_interrupt c 1 res turns_analyser.init turns geometry2
              geometry1 with
          | none => none
          | some r4 => some r4.2

/-- One scanner pass of the engine without the stop on interrupt, as a
function of the matrix. -/
def scanner_pass (c : collaborators P) (d : Nat) (ts : List (turn P))
    (g : geometry P) (og : relate.geometry P) (res : result) : Option result :=
  (for_each_disjoint_linestring_if.apply d ts g
    (disjoint_linestring_pred.call_no_interrupt c d g og)
    (disjoint_linestring_pred.init, res)).map fun x => x.1.2

/-- One analyser pass of the engine without the return on interrupt, as a
function of the matrix. -/
def analyser_pass (c : collaborators P) (d : Nat) (ts : List (turn P))
    (g : geometry P) (og : relate.geometry P) (res : result) : Option result :=
  (analyse_each_turn_no_interrupt c d res turns_analyser.init ts g og).map fun x => x.2

/-- The cells a pass returns are the cells it was given joined with the cells
it returns from the empty matrix, and it fails on every matrix or on none. -/
def pass_joins (M : result → Option result) : Prop :=
  ∀ res, corresponds (fun r r0 => ∀ a b,
    (r.cells a b).rank = max (res.cells a b).rank (r0.cells a b).rank) (M res) (M result.init)

/-- The pass `M'` does on the transposed matrix what `M` does. -/
def pass_mirror (M' M : result → Option result) : Prop :=
  ∀ r, corresponds (fun x' x => x' = x.transpose) (M' r.transpose) (M r)

/-- The analyser reads the turn: its operation on side `d` is union,
intersection or blocked. -/
def turn.acted_on (d : Nat) (t : turn P) : Bool :=
  decide ((t.op d).operation = operation_type.operation_union) ||
  decide ((t.op d).operation = operation_type.operation_intersection) ||
  decide ((t.op d).operation = operation_type.operation_blocked)

/-- The latest turn of a list that is acted on in direction `d`. -/
def last_acted_on (d : Nat) (l : List (turn P)) : Option (turn P) :=
  (l.filter (turn.acted_on d)).getLast?

/-- The first `k` calls of the analyser in the loop of `analyse_each_turn`,
from iterator `it`, when no interrupt stops the loop: the analyser and the
matrix before the call at iterator `it + k`. -/
def analyse_each_turn.steps (c : collaborators P) (OpId : Nat) (turns : List (turn P))
    (geometry : geometry P) (other_geometry : relate.geometry P) :
    Nat → Nat → turns_analyser P → result → Option (turns_analyser P × result)
  | 0, _, analyser, res => some (analyser, res)
  | k + 1, it, analyser, res =>
    match turns_analyser.apply c OpId analyser res turns it geometry other_geometry with
    | none => none
    | some (analyser1, res1) =>
      analyse_each_turn.steps c OpId turns geometry other_geometry k (it + 1) analyser1 res1

/-- A turn without operation on either side, at `(5, 5)`. -/
def ignored_turn : turn (Int × Int) :=
  { point := (5, 5), method := method_type.method_touch,
    operations := (⟨operation_type.operation_none, ⟨0, -1, -1, 0⟩⟩,
                   ⟨operation_type.operation_none, ⟨1, -1, -1, 0⟩⟩) }

/-- The cell `(F1, F2)` as direction `transpose` sees it: the cell an
`update<F1, F2, D, transpose>` writes. -/
def result.cell (r : result) (transpose : Bool) (f1 f2 : field) : code :=
  r.cells (if transpose then f2 else f1) (if transpose then f1 else f2)

/-- What a scanner pass keeps from a fresh predicate on: once the boundary
fact is detected both cells are written, and `(I,E)` holds at most `'1'` when
it did at the start. -/
def scanner_inv (tr : Bool) (n : Nat) (s : disjoint_linestring_pred × result) : Prop :=
  (s.1.m_detected_open_boundary = true →
    3 ≤ (s.2.cell tr field.interior field.exterior).rank ∧
    2 ≤ (s.2.cell tr field.boundary field.exterior).rank) ∧
  (s.2.cell tr field.interior field.exterior).rank ≤ max n 3

/-- An analyser in which a union exit at `(0, 0)` is pending. -/
def pending_exit_analyser : turns_analyser (Int × Int) :=
  { m_exit_watcher :=
      { exit_operation := operation_type.operation_union,
        exit_id := some { seg_id := ⟨1, -1, -1, 0⟩, point := (0, 0) },
        other_entry_points := [] },
    m_seg_watcher := { m_seg_id_ptr := some ⟨0, -1, -1, 0⟩ },
    m_last_union := true }

/-- Turns of a curve along `re_entry_b` in the order of direction 0: it joins
the first component at `(0, 0)`, leaves it at `(1, 0)`, joins the second
component at the same point and ends with it at `(2, 0)`; `s` is the index of
the segment of the curve that starts at `(0, 0)`. -/
def re_entry_turns (s : Int) : List (turn (Int × Int)) :=
  [{ point := (0, 0), method := method_type.method_touch,
     operations := (⟨operation_type.operation_intersection, ⟨0, -1, -1, s⟩⟩,
                    ⟨operation_type.operation_intersection, ⟨1, 0, -1, 0⟩⟩) },
   { point := (1, 0), method := method_type.method_touch,
     operations := (⟨operation_type.operation_union, ⟨0, -1, -1, s⟩⟩,
                    ⟨operation_type.operation_blocked, ⟨1, 0, -1, 0⟩⟩) },
   { point := (1, 0), method := method_type.method_touch,
     operations := (⟨operation_type.operation_intersection, ⟨0, -1, -1, s + 1⟩⟩,
                    ⟨operation_type.operation_intersection, ⟨1, 1, -1, 0⟩⟩) },
   { point := (2, 0), method := method_type.method_equal,
     operations := (⟨operation_type.operation_blocked, ⟨0, -1, -1, s + 1⟩⟩,
                    ⟨operation_type.operation_blocked, ⟨1, 1, -1, 0⟩⟩) }]

/-- A curve that reaches `re_entry_b` from outside: `(0, 0)` is an inner
vertex of it. -/
def re_entry_a : geometry (Int × Int) :=
  geometry.linestring [(-1, 0), (0, 0), (1, 0), (2, 0)]

/-- A curve that starts on `re_entry_b`: `(0, 0)` is its first point. -/
def re_entry_a_front : geometry (Int × Int) :=
  geometry.linestring [(0, 0), (1, 0), (2, 0)]

/-- Two curves that share the end point `(1, 0)`. -/
def re_entry_b : geometry (Int × Int) :=
  geometry.multi_linestring [[(0, 0), (1, 0)], [(1, 0), (2, 0)]]

/-- The scan of direction `d` from the matrix `res` calls the analyser on a
turn whose operation on side `d` is intersection: such a turn stands at an
iterator `k`, and every earlier call of the loop of `analyse_each_turn`
returned with the interrupt flag down. -/
def processes_intersection (c : collaborators P) (d : Nat) (ts : List (turn P))
    (g og : geometry P) (res : result) : Prop :=
  ∃ k t, ts[k]? = some t ∧ (t.op d).operation = operation_type.operation_intersection ∧
    ∀ j, j < k → ∃ z,
      analyse_each_turn.steps c d ts g og (j + 1) 0 turns_analyser.init res = some z ∧
      z.2.interrupt = false

/-- Three curves: the first and the second share the point `(0, 0)`, so the
end-point boundaries are `(4, 0)`, `(0, 5)`, `(10, 0)` and `(11, 0)`. -/
def prev_a : geometry (Int × Int) :=
  geometry.multi_linestring [[(0, 0), (2, 0), (4, 0)], [(0, 5), (0, 0)], [(10, 0), (11, 0)]]

/-- Curves that cross the first curve of `prev_a` at `(2, 0)`, meet the second
at `(0, 3)` and run along the third. -/
def prev_b : geometry (Int × Int) :=
  geometry.multi_linestring [[(2, -1), (2, 1)], [(-1, 3), (1, 3)], [(10, 0), (11, 0)]]

/-- Turns of `prev_a` and `prev_b` in the order of direction 0: a crossing on
the first curve, a turn without operation on the second curve and the entry
at the first point of the third curve. -/
def prev_turns : List (turn (Int × Int)) :=
  [{ point := (2, 0), method := method_type.method_crosses,
     operations := (⟨operation_type.operation_union, ⟨0, 0, -1, 0⟩⟩,
                    ⟨operation_type.operation_union, ⟨1, 0, -1, 0⟩⟩) },
   { point := (0, 3), method := method_type.method_touch,
     operations := (⟨operation_type.operation_none, ⟨0, 1, -1, 0⟩⟩,
                    ⟨operation_type.operation_none, ⟨1, 1, -1, 0⟩⟩) },
   { point := (10, 0), method := method_type.method_equal,
     operations := (⟨operation_type.operation_intersection, ⟨0, 2, -1, 0⟩⟩,
                    ⟨operation_type.operation_intersection, ⟨1, 2, -1, 0⟩⟩) }]

/-- A curve that runs along `exit_b`, leaves it at `(1, 0)` and comes back to
end at `(1, 0)`. -/
def exit_a : geometry (Int × Int) :=
  geometry.linestring [(0, 0), (1, 0), (2, 0), (1, 0)]

/-- The segment from `(0, 0)` to `(1, 0)`. -/
def exit_b : geometry (Int × Int) :=
  geometry.linestring [(0, 0), (1, 0)]

/-- Turns of `exit_a` and `exit_b` in the order of direction 0: the entry at
`(0, 0)`, the exit at `(1, 0)` and the last point of `exit_a` at `(1, 0)`. -/
def exit_turns : List (turn (Int × Int)) :=
  [{ point := (0, 0), method := method_type.method_equal,
     operations := (⟨operation_type.operation_intersection, ⟨0, -1, -1, 0⟩⟩,
                    ⟨operation_type.operation_intersection, ⟨1, -1, -1, 0⟩⟩) },
   { point := (1, 0), method := method_type.method_touch,
     operations := (⟨operation_type.operation_union, ⟨0, -1, -1, 0⟩⟩,
                    ⟨operation_type.operation_blocked, ⟨1, -1, -1, 0⟩⟩) },
   { point := (1, 0), method := method_type.method_touch,
     operations := (⟨operation_type.operation_blocked, ⟨0, -1, -1, 2⟩⟩,
                    ⟨operation_type.operation_blocked, ⟨1, -1, -1, 0⟩⟩) }]

/-- The call operator of `disjoint_linestring_pred` with a record of its
updates: the state carries, next to the predicate and the matrix, the template
arguments `(F1, F2, D)` of every `update` made so far, in order. -/
def disjoint_linestring_pred.call_logged (c : collaborators P) (OpId : Nat)
    (boundary_checker other_geometry : geometry P)
    (s : (disjoint_linestring_pred × result) × List (field × field × Nat))
    (linestring : List P) :
    ((disjoint_linestring_pred × result) × List (field × field × Nat)) × Bool :=
  let transpose_result := OpId != 0
  let self := s.1.1
  let res := s.1.2
  let log := s.2
  let lk := check_linestring_kind c.equals_point_point linestring
  let s1 : (disjoint_linestring_pred × result) × List (field × field × Nat) :=
    if lk = linestring_kind.linestring_point then
      if self.m_detected_mask_point ≠ 7 then
        let pig := c.point_in_geometry (range.front linestring) other_geometry
        if pig > 0 then
          (({ self with m_detected_mask_point := self.m_detected_mask_point ||| 1 },
            update c.full field.interior field.interior 0 transpose_result res),
           log ++ [(field.interior, field.interior, 0)])
        else if pig = 0 then
          (({ self with m_detected_mask_point := self.m_detected_mask_point ||| 2 },
            update c.full field.interior field.boundary 0 transpose_result res),
           log ++ [(field.interior, field.boundary, 0)])
        else
          (({ self with m_detected_mask_point := self.m_detected_mask_point ||| 4 },
            update c.full field.interior field.exterior 0 transpose_result res),
           log ++ [(field.interior, field.exterior, 0)])
      else ((self, res), log)
    else if lk = linestring_kind.linestring_open ∨ lk = linestring_kind.linestring_closed then
      if !self.m_detected_open_boundary then
        let res1 := update c.full field.interior field.exterior 1 transpose_result res
        if c.is_endpoint_boundary boundary_checker boundary_query.boundary_front
              (range.front linestring)
            || c.is_endpoint_boundary boundary_checker boundary_query.boundary_back
              (range.back linestring) then
          (({ self with m_detected_open_boundary := true },
            update c.full field.boundary field.exterior 0 transpose_result res1),
           log ++ [(field.interior, field.exterior, 1), (field.boundary, field.exterior, 0)])
        else ((self, res1), log ++ [(field.interior, field.exterior, 1)])
      else ((self, res), log)
    else ((self, res), log)
  let all_detected :=
    s1.1.1.m_detected_mask_point = 7 ∧ s1.1.1.m_detected_open_boundary = true
  (s1, decide (¬ all_detected) && !s1.1.2.interrupt)

/-- The record entry is an update of a single-point component: row interior
and digit `'0'`. -/
def is_point_update (u : field × field × Nat) : Bool :=
  decide (u.1 = field.interior) && decide (u.2.2 = 0)

/-- Two single points outside `saturating_b` and a segment that owns the turns
of `saturating_turns`. -/
def twin_points_a : geometry (Int × Int) :=
  geometry.multi_linestring [[(7, 7)], [(0, 0), (2, 0)], [(8, 8)]]

/-- Indices of the components of a geometry with `n` components that own no
turn on side `OpId`, in increasing order. -/
def disjoint_indices (OpId : Nat) (turns : List (turn P)) (n : Nat) : List Nat :=
  (List.range n).filter fun i =>
    turns.all fun t => decide ((t.op OpId).seg_id.multi_index ≠ (i : Int))

/-- The predicate applied to the curves one after another, until the first
application that returns false. -/
def apply_until_false {σ : Type} (pred : σ → List P → σ × Bool) : List (List P) → σ → σ
  | [], s => s
  | l :: ls, s =>
    let r := pred s l
    if r.2 then apply_until_false pred ls r.1 else r.1

/-- Positions of the entries `false` of a list of flags, counted from `i`. -/
def false_indices : List Bool → Nat → List Nat
  | [], _ => []
  | d :: ds, i => if d = false then i :: false_indices ds (i + 1) else false_indices ds (i + 1)

/-! ## Verification -/

/-! ### Two runs of the analyser -/

theorem corresponds_none {α : Type} {Q : α → α → Prop} : corresponds Q none none := trivial

theorem corresponds_some {α : Type} {Q : α → α → Prop} {x y : α} :
    corresponds Q (some x) (some y) ↔ Q x y := Iff.rfl

theorem getElem?_view {d1 d2 : Nat} {ts1 ts2 : List (turn P)}
    (hv : ts1.map (turn.view d1) = ts2.map (turn.view d2)) (i : Nat) :
    (ts1[i]?).map (turn.view d1) = (ts2[i]?).map (turn.view d2) := by
  rw [← List.getElem?_map, ← List.getElem?_map, hv]

theorem getElem?_view_cases {d1 d2 : Nat} {ts1 ts2 : List (turn P)}
    (hv : ts1.map (turn.view d1) = ts2.map (turn.view d2)) (i : Nat) :
    (ts1[i]? = none ∧ ts2[i]? = none) ∨
    ∃ t1 t2, ts1[i]? = some t1 ∧ ts2[i]? = some t2 ∧ turn.view d1 t1 = turn.view d2 t2 := by
  have h := getElem?_view hv i
  cases e1 : ts1[i]? with
  | none =>
    cases e2 : ts2[i]? with
    | none => exact Or.inl ⟨rfl, rfl⟩
    | some t2 => rw [e1, e2] at h; cases h
  | some t1 =>
    cases e2 : ts2[i]? with
    | none => rw [e1, e2] at h; cases h
    | some t2 =>
      rw [e1, e2] at h
      exact Or.inr ⟨t1, t2, rfl, rfl, Option.some.inj h⟩

section blocks
variable (c : collaborators P) (tr1 tr2 : Bool) (R : result → result → Prop)
  (hR : update_closed c.full analyser_writes tr1 tr2 R)
include hR

theorem handle_possible_exit_corresponds (ew : exit_watcher P) (res res' : result) (point : P)
    (op : operation_type) (h : R res res') :
    corresponds (fun x y => x.1 = y.1 ∧ R x.2.1 y.2.1 ∧ x.2.2 = y.2.2)
      (turns_analyser.handle_possible_exit c tr1 ew res point op)
      (turns_analyser.handle_possible_exit c tr2 ew res' point op) := by
  have hI1 := hR (field.interior, field.exterior, 1) (by decide)
  unfold turns_analyser.handle_possible_exit
  cases ew.get_exit_point <;> simp only <;> split_ifs <;>
    first
    | exact corresponds_none
    | exact corresponds_some.2 ⟨rfl, hI1 _ _ h, rfl⟩
    | exact corresponds_some.2 ⟨rfl, h, rfl⟩

theorem on_intersection_corresponds (g og : geometry P) (point : P)
    (seg_id other_id : segment_identifier) (oop : operation_type) (fir fake : Bool)
    (ew : exit_watcher P) (res res' : result) (h : R res res') :
    (turns_analyser.on_intersection c tr1 g og point seg_id other_id oop fir fake ew res).1 =
      (turns_analyser.on_intersection c tr2 g og point seg_id other_id oop fir fake ew res').1 ∧
    R (turns_analyser.on_intersection c tr1 g og point seg_id other_id oop fir fake ew res).2
      (turns_analyser.on_intersection c tr2 g og point seg_id other_id oop fir fake ew res').2 := by
  have hI1 := hR (field.interior, field.exterior, 1) (by decide)
  have hI2 := hR (field.boundary, field.exterior, 0) (by decide)
  have hI3 := hR (field.interior, field.interior, 1) (by decide)
  have hI5 := hR (field.boundary, field.boundary, 0) (by decide)
  have hI6 := hR (field.boundary, field.interior, 0) (by decide)
  unfold turns_analyser.on_intersection
  simp only
  split_ifs <;> refine ⟨rfl, ?_⟩ <;>
    first
    | exact hI3 _ _ h
    | exact hI5 _ _ (hI3 _ _ h)
    | exact hI6 _ _ (hI3 _ _ h)
    | exact hI1 _ _ (hI3 _ _ h)
    | exact hI2 _ _ (hI1 _ _ (hI3 _ _ h))

theorem on_union_or_blocked_corresponds (g og : geometry P) (point : P) (m : method_type)
    (op : operation_type) (seg_id other_id : segment_identifier) (oop : operation_type)
    (fir : Bool) (ew : exit_watcher P) (res res' : result) (h : R res res') :
    (turns_analyser.on_union_or_blocked c tr1 g og point m op seg_id other_id oop fir ew res).1 =
      (turns_analyser.on_union_or_blocked c tr2 g og point m op seg_id other_id oop fir ew
        res').1 ∧
    R (turns_analyser.on_union_or_blocked c tr1 g og point m op seg_id other_id oop fir ew res).2
      (turns_analyser.on_union_or_blocked c tr2 g og point m op seg_id other_id oop fir ew
        res').2 := by
  have hI1 := hR (field.interior, field.exterior, 1) (by decide)
  have hI2 := hR (field.boundary, field.exterior, 0) (by decide)
  have hI4 := hR (field.interior, field.interior, 0) (by decide)
  have hI5 := hR (field.boundary, field.boundary, 0) (by decide)
  have hI6 := hR (field.boundary, field.interior, 0) (by decide)
  unfold turns_analyser.on_union_or_blocked
  simp only
  split_ifs <;> refine ⟨rfl, ?_⟩ <;>
    first
    | exact h
    | exact hI5 _ _ h
    | exact hI6 _ _ h
    | exact hI1 _ _ h
    | exact hI4 _ _ (hI1 _ _ h)
    | exact hI2 _ _ (hI4 _ _ (hI1 _ _ h))
    | exact hI5 _ _ (hI1 _ _ h)
    | exact hI6 _ _ (hI1 _ _ h)
    | exact hI2 _ _ (hI5 _ _ (hI1 _ _ h))
    | exact hI2 _ _ (hI6 _ _ (hI1 _ _ h))

theorem check_previous_range_corresponds (d1 d2 : Nat) (ts1 ts2 : List (turn P))
    (hv : ts1.map (turn.view d1) = ts2.map (turn.view d2)) (it : Nat) (g : geometry P)
    (fir fake lu : Bool) (res res' : result) (h : R res res') :
    corresponds R
      (turns_analyser.check_previous_range c d1 tr1 ts1 it g fir fake lu res)
      (turns_analyser.check_previous_range c d2 tr2 ts2 it g fir fake lu res') := by
  have hI2 := hR (field.boundary, field.exterior, 0) (by decide)
  unfold turns_analyser.check_previous_range
  rcases getElem?_view_cases hv (it - 1) with ⟨e1, e2⟩ | ⟨t1, t2, e1, e2, ht⟩
  · rw [e1, e2]
    split_ifs <;> first | exact corresponds_none | exact corresponds_some.2 h
  · simp only [turn.view, Prod.mk.injEq] at ht
    obtain ⟨-, -, ht3, -⟩ := ht
    rw [e1, e2]
    simp only [ht3]
    split_ifs <;>
      first
      | exact corresponds_none
      | exact corresponds_some.2 h
      | exact corresponds_some.2 (hI2 _ _ h)

theorem at_last_corresponds (d1 d2 : Nat) (ts1 ts2 : List (turn P))
    (hv : ts1.map (turn.view d1) = ts2.map (turn.view d2)) (g : geometry P)
    (st : turns_analyser P) (res res' : result) (h : R res res') :
    corresponds R (turns_analyser.at_last c d1 tr1 st res ts1 g)
      (turns_analyser.at_last c d2 tr2 st res' ts2 g) := by
  have hI1 := hR (field.interior, field.exterior, 1) (by decide)
  have hI2 := hR (field.boundary, field.exterior, 0) (by decide)
  have hlen : ts1.length = ts2.length := by
    have := congrArg List.length hv
    simpa using this
  have hem : ts1.isEmpty = ts2.isEmpty := by
    cases ts1 <;> cases ts2 <;> simp_all
  unfold turns_analyser.at_last
  rw [← hlen, hem]
  rcases getElem?_view_cases hv (ts1.length - 1) with ⟨e1, e2⟩ | ⟨t1, t2, e1, e2, ht⟩
  · rw [e1, e2]
    split_ifs <;> first | exact corresponds_none | exact corresponds_some.2 h
  · simp only [turn.view, Prod.mk.injEq] at ht
    obtain ⟨-, -, ht3, -⟩ := ht
    rw [e1, e2]
    simp only [ht3]
    split_ifs <;>
      first
      | exact corresponds_none
      | exact corresponds_some.2 h
      | exact corresponds_some.2 (hI1 _ _ h)
      | exact corresponds_some.2 (hI2 _ _ (hI1 _ _ h))

end blocks

/-- One call of the analyser in two runs that read the same of their turns:
the calls fail together, return the same analyser state, and keep every
relation between the matrices that the analyser's updates keep. -/
theorem turns_analyser_apply_corresponds (c : collaborators P) (d1 d2 : Nat)
    (ts1 ts2 : List (turn P)) (g og : geometry P) (st : turns_analyser P) (it : Nat)
    (R : result → result → Prop) (res res' : result)
    (hv : ts1.map (turn.view d1) = ts2.map (turn.view d2))
    (hR : update_closed c.full analyser_writes (d1 != 0) (d2 != 0) R)
    (h : R res res') :
    corresponds (fun x y => x.1 = y.1 ∧ R x.2 y.2)
      (turns_analyser.apply c d1 st res ts1 it g og)
      (turns_analyser.apply c d2 st res' ts2 it g og) := by
  unfold turns_analyser.apply
  rcases getElem?_view_cases hv it with ⟨e1, e2⟩ | ⟨t1, t2, e1, e2, ht⟩
  · rw [e1, e2]
    simp only
    have h1 := at_last_corresponds c _ _ R hR d1 d2 ts1 ts2 hv g st res res' h
    revert h1
    cases turns_analyser.at_last c d1 (d1 != 0) st res ts1 g <;>
      cases turns_analyser.at_last c d2 (d2 != 0) st res' ts2 g <;>
      intro h1 <;> first | exact h1 | exact corresponds_some.2 ⟨rfl, h1⟩
  · simp only [turn.view, Prod.mk.injEq] at ht
    obtain ⟨ht1, ht2, ht3, ht4⟩ := ht
    rw [e1, e2]
    simp only [ht1, ht2, ht3, ht4]
    split_ifs with hop hint hub
    · exact corresponds_some.2 ⟨rfl, h⟩
    all_goals
      have h1 := handle_possible_exit_corresponds c _ _ R hR st.m_exit_watcher res res'
        t2.point (t2.op d2).operation h
      revert h1
      cases turns_analyser.handle_possible_exit c (d1 != 0) st.m_exit_watcher res t2.point
          (t2.op d2).operation with
      | none =>
        cases turns_analyser.handle_possible_exit c (d2 != 0) st.m_exit_watcher res' t2.point
            (t2.op d2).operation with
        | none => intro _; exact corresponds_none
        | some y => intro h1; exact h1.elim
      | some x =>
        cases turns_analyser.handle_possible_exit c (d2 != 0) st.m_exit_watcher res' t2.point
            (t2.op d2).operation with
        | none => intro h1; exact h1.elim
        | some y =>
          intro h1
          obtain ⟨ew, r1, fk⟩ := x
          obtain ⟨ew', r1', fk'⟩ := y
          obtain ⟨hew, hr1, hfk⟩ := corresponds_some.1 h1
          simp only at hew hr1 hfk
          subst hew hfk
          simp only
          have h2 := check_previous_range_corresponds c _ _ R hR d1 d2 ts1 ts2 hv it g
            (st.m_seg_watcher.update (t2.op d2).seg_id).1 fk st.m_last_union r1 r1' hr1
          revert h2
          cases turns_analyser.check_previous_range c d1 (d1 != 0) ts1 it g
              (st.m_seg_watcher.update (t2.op d2).seg_id).1 fk st.m_last_union r1 <;>
            cases turns_analyser.check_previous_range c d2 (d2 != 0) ts2 it g
              (st.m_seg_watcher.update (t2.op d2).seg_id).1 fk st.m_last_union r1' <;>
            intro h2 <;> first | exact h2 | skip
          rename_i r2 r2'
          have h2' : R r2 r2' := corresponds_some.1 h2
          simp only
          first
          | (have h3 := on_intersection_corresponds c _ _ R hR g og t2.point (t2.op d2).seg_id
              (t2.op ((d2 + 1) % 2)).seg_id (t2.op ((d2 + 1) % 2)).operation
              (st.m_seg_watcher.update (t2.op d2).seg_id).1 fk ew r2 r2' h2'
             refine corresponds_some.2 ⟨?_, h3.2⟩
             simp only [h3.1])
          | (have h3 := on_union_or_blocked_corresponds c _ _ R hR g og t2.point t2.method
              (t2.op d2).operation (t2.op d2).seg_id
              (t2.op ((d2 + 1) % 2)).seg_id (t2.op ((d2 + 1) % 2)).operation
              (st.m_seg_watcher.update (t2.op d2).seg_id).1 ew r2 r2' h2'
             refine corresponds_some.2 ⟨?_, h3.2⟩
             simp only [h3.1])
          | exact corresponds_some.2 ⟨rfl, h2'⟩

/-! ### Matrix updates -/

theorem rank_upgrade_le (x : code) (d : Nat) : x.rank ≤ (x.upgrade d).rank := by
  cases x with
  | F => simp [code.upgrade, code.rank]
  | T => simp [code.upgrade, code.rank]
  | dim n =>
    simp only [code.upgrade]
    split_ifs with h
    · simp only [code.rank]; omega
    · exact Nat.le_refl _

theorem result.le_refl (r : result) : result.le r r := fun _ _ => Nat.le_refl _

theorem result.le_trans {r1 r2 r3 : result} (h1 : result.le r1 r2) (h2 : result.le r2 r3) :
    result.le r1 r3 := fun a b => Nat.le_trans (h1 a b) (h2 a b)

theorem update_le (full : (field → field → code) → Bool) (f1 f2 : field) (d : Nat)
    (tr : Bool) (r : result) : result.le r (update full f1 f2 d tr r) := by
  intro a b
  simp only [update]
  split_ifs <;> first | exact rank_upgrade_le _ _ | exact Nat.le_refl _

/-- A property of the matrix kept by the updates `W` is kept as a relation
between two runs. -/
theorem update_closed_of_invariant (full : (field → field → code) → Bool)
    (W : List (field × field × Nat)) (tr : Bool) (I : result → Prop)
    (hI : ∀ u ∈ W, ∀ r, I r → I (update full u.1 u.2.1 u.2.2 tr r)) :
    update_closed full W tr tr (fun r _ => I r) :=
  fun u hu r _ h => hI u hu r h

/-! ### Invariants of one run -/

theorem turns_analyser_apply_invariant (c : collaborators P) (d : Nat) (ts : List (turn P))
    (g og : geometry P) (st st' : turns_analyser P) (it : Nat) (I : result → Prop)
    (res res' : result)
    (hI : ∀ u ∈ analyser_writes, ∀ r, I r → I (update c.full u.1 u.2.1 u.2.2 (d != 0) r))
    (h : I res) (hs : turns_analyser.apply c d st res ts it g og = some (st', res')) :
    I res' := by
  have := turns_analyser_apply_corresponds c d d ts ts g og st it (fun r _ => I r) res res rfl
    (update_closed_of_invariant c.full _ _ I hI) h
  rw [hs] at this
  exact (corresponds_some.1 this).2

theorem analyse_each_turn_loop_invariant (c : collaborators P) (d : Nat) (ts : List (turn P))
    (g og : geometry P) (I : result → Prop)
    (hI : ∀ u ∈ analyser_writes, ∀ r, I r → I (update c.full u.1 u.2.1 u.2.2 (d != 0) r))
    (n : Nat) : ∀ (it : Nat) (st st' : turns_analyser P) (res res' : result), I res →
      analyse_each_turn.loop c d ts g og n it st res = some (st', res') → I res' := by
  induction n with
  | zero =>
    intro it st st' res res' h hs
    exact turns_analyser_apply_invariant c d ts g og st st' it I res res' hI h hs
  | succ n ih =>
    intro it st st' res res' h hs
    simp only [analyse_each_turn.loop] at hs
    cases e : turns_analyser.apply c d st res ts it g og with
    | none => rw [e] at hs; cases hs
    | some x =>
      obtain ⟨st1, r1⟩ := x
      rw [e] at hs
      simp only at hs
      have h1 := turns_analyser_apply_invariant c d ts g og st st1 it I res r1 hI h e
      split_ifs at hs
      · cases hs; exact h1
      · exact ih _ _ _ _ _ h1 hs

theorem analyse_each_turn_invariant (c : collaborators P) (d : Nat) (ts : List (turn P))
    (g og : geometry P) (I : result → Prop)
    (hI : ∀ u ∈ analyser_writes, ∀ r, I r → I (update c.full u.1 u.2.1 u.2.2 (d != 0) r))
    (st st' : turns_analyser P) (res res' : result) (h : I res)
    (hs : analyse_each_turn c d res st ts g og = some (st', res')) : I res' := by
  unfold analyse_each_turn at hs
  split_ifs at hs
  · cases hs; exact h
  · exact analyse_each_turn_loop_invariant c d ts g og I hI _ _ _ _ _ _ h hs

theorem disjoint_linestring_pred_call_corresponds (c : collaborators P) (d1 d2 : Nat)
    (bc og : geometry P) (R : result → result → Prop)
    (hR : update_closed c.full scanner_writes (d1 != 0) (d2 != 0) R)
    (self : disjoint_linestring_pred) (res res' : result) (ls : List P) (h : R res res') :
    (disjoint_linestring_pred.call c d1 bc og (self, res) ls).1.1 =
      (disjoint_linestring_pred.call c d2 bc og (self, res') ls).1.1 ∧
    R (disjoint_linestring_pred.call c d1 bc og (self, res) ls).1.2
      (disjoint_linestring_pred.call c d2 bc og (self, res') ls).1.2 := by
  have h1 := hR (field.interior, field.interior, 0) (by decide)
  have h2 := hR (field.interior, field.boundary, 0) (by decide)
  have h3 := hR (field.interior, field.exterior, 0) (by decide)
  have h4 := hR (field.interior, field.exterior, 1) (by decide)
  have h5 := hR (field.boundary, field.exterior, 0) (by decide)
  unfold disjoint_linestring_pred.call
  simp only
  split_ifs <;> refine ⟨rfl, ?_⟩ <;>
    first
    | exact h
    | exact h1 _ _ h
    | exact h2 _ _ h
    | exact h3 _ _ h
    | exact h4 _ _ h
    | exact h5 _ _ (h4 _ _ h)

theorem disjoint_linestring_pred_call_invariant (c : collaborators P) (d : Nat)
    (bc og : geometry P) (I : result → Prop)
    (hI : ∀ u ∈ scanner_writes, ∀ r, I r → I (update c.full u.1 u.2.1 u.2.2 (d != 0) r))
    (s : disjoint_linestring_pred × result) (ls : List P) (h : I s.2) :
    I (disjoint_linestring_pred.call c d bc og s ls).1.2 :=
  (disjoint_linestring_pred_call_corresponds c d d bc og (fun r _ => I r)
    (update_closed_of_invariant c.full _ _ I hI) s.1 s.2 s.2 ls h).2



/-! ### Two runs of the scanner -/

theorem mark_view (d1 d2 : Nat) (count : Nat) :
    ∀ (ts1 ts2 : List (turn P)) (l : List Bool),
      ts1.map (turn.view d1) = ts2.map (turn.view d2) →
      for_each_disjoint_linestring_if.mark d1 count ts1 l =
        for_each_disjoint_linestring_if.mark d2 count ts2 l := by
  intro ts1
  induction ts1 with
  | nil =>
    intro ts2 l hv
    cases ts2 with
    | nil => rfl
    | cons b ts2 => simp at hv
  | cons a ts1 ih =>
    intro ts2 l hv
    cases ts2 with
    | nil => simp at hv
    | cons b ts2 =>
      simp only [List.map_cons, List.cons.injEq, turn.view, Prod.mk.injEq] at hv
      obtain ⟨⟨-, -, h3, -⟩, hv⟩ := hv
      simp only [for_each_disjoint_linestring_if.mark, h3]
      split_ifs <;> first | rfl | exact ih ts2 _ hv

theorem for_each_scan_corresponds {σ : Type} (Rσ : σ → σ → Prop) (geometry : List (List P))
    (pred1 pred2 : σ → List P → σ × Bool)
    (hp : ∀ s s' ls, Rσ s s' → Rσ (pred1 s ls).1 (pred2 s' ls).1 ∧
      (pred1 s ls).2 = (pred2 s' ls).2) :
    ∀ (ds : List Bool) (i : Nat) (s s' : σ) (found : Bool), Rσ s s' →
      Rσ (for_each_disjoint_linestring_if.scan geometry pred1 ds i s found).1
        (for_each_disjoint_linestring_if.scan geometry pred2 ds i s' found).1 ∧
      (for_each_disjoint_linestring_if.scan geometry pred1 ds i s found).2 =
        (for_each_disjoint_linestring_if.scan geometry pred2 ds i s' found).2 := by
  intro ds
  induction ds with
  | nil => intro i s s' found h; exact ⟨h, rfl⟩
  | cons d ds ih =>
    intro i s s' found h
    simp only [for_each_disjoint_linestring_if.scan]
    cases d with
    | true => simpa using ih (i + 1) s s' found h
    | false =>
      obtain ⟨h1, h2⟩ := hp s s' (geometry.getD i []) h
      simp only [if_true, ← h2]
      split_ifs
      · exact ⟨h1, rfl⟩
      · exact ih (i + 1) _ _ true h1

theorem for_each_apply_corresponds {σ : Type} (Rσ : σ → σ → Prop) (d1 d2 : Nat)
    (ts1 ts2 : List (turn P)) (hv : ts1.map (turn.view d1) = ts2.map (turn.view d2))
    (g : geometry P) (pred1 pred2 : σ → List P → σ × Bool)
    (hp : ∀ s s' ls, Rσ s s' → Rσ (pred1 s ls).1 (pred2 s' ls).1 ∧
      (pred1 s ls).2 = (pred2 s' ls).2)
    (s s' : σ) (h : Rσ s s') :
    corresponds (fun x y => Rσ x.1 y.1 ∧ x.2 = y.2)
      (for_each_disjoint_linestring_if.apply d1 ts1 g pred1 s)
      (for_each_disjoint_linestring_if.apply d2 ts2 g pred2 s') := by
  have hem : ts1.isEmpty = ts2.isEmpty := by
    cases ts1 <;> cases ts2 <;> simp_all
  cases g with
  | linestring ls =>
    simp only [for_each_disjoint_linestring_if.apply,
      for_each_disjoint_linestring_if.apply_linestring, hem]
    split_ifs
    · exact corresponds_some.2 ⟨h, rfl⟩
    · exact corresponds_some.2 ⟨(hp s s' ls h).1, rfl⟩
  | multi_linestring lss =>
    simp only [for_each_disjoint_linestring_if.apply,
      for_each_disjoint_linestring_if.apply_multi, hem,
      mark_view d1 d2 lss.length ts1 ts2 _ hv]
    split_ifs
    · exact corresponds_none
    · cases for_each_disjoint_linestring_if.mark d2 lss.length ts2
          (List.replicate lss.length false) with
      | none => exact corresponds_none
      | some ds => exact corresponds_some.2 (for_each_scan_corresponds Rσ lss pred1 pred2 hp _ _ _ _ _ h)

theorem for_each_apply_invariant {σ : Type} (I : σ → Prop) (d : Nat) (ts : List (turn P))
    (g : geometry P) (pred : σ → List P → σ × Bool)
    (hp : ∀ s ls, I s → I (pred s ls).1) (s : σ) (h : I s) (x : σ × Bool)
    (hx : for_each_disjoint_linestring_if.apply d ts g pred s = some x) : I x.1 := by
  have := for_each_apply_corresponds (fun s s' => s = s' ∧ I s) d d ts ts rfl g pred pred
    (fun s s' ls hs => by
      obtain ⟨rfl, hs⟩ := hs
      exact ⟨⟨rfl, hp s ls hs⟩, rfl⟩) s s ⟨rfl, h⟩
  rw [hx] at this
  exact (corresponds_some.1 this).1.2

/-! ### Invariants of the whole run -/

/-- A property of the matrix that every update of the engine keeps holds of
the returned matrix when it holds after the initial `set`. -/
theorem linear_linear_apply_invariant (c : collaborators P) (g1 g2 : geometry P)
    (I : result → Prop)
    (hI : ∀ u ∈ scanner_writes ++ analyser_writes, ∀ tr r, I r →
      I (update c.full u.1 u.2.1 u.2.2 tr r))
    (h0 : I (set field.exterior field.exterior (c.result_dimension g1) result.init))
    (r : result) (hr : linear_linear.apply c g1 g2 = some r) : I r := by
  have hS : ∀ d, ∀ u ∈ scanner_writes, ∀ r, I r → I (update c.full u.1 u.2.1 u.2.2 (d != 0) r) :=
    fun d u hu r h => hI u (List.mem_append_left _ hu) _ r h
  have hA : ∀ (d : Nat), ∀ u ∈ analyser_writes, ∀ r, I r →
      I (update c.full u.1 u.2.1 u.2.2 (d != 0) r) :=
    fun d u hu r h => hI u (List.mem_append_right _ hu) _ r h
  unfold linear_linear.apply at hr
  simp only at hr
  cases e1 : for_each_disjoint_linestring_if.apply 0 (c.get_turns g1 g2) g1
      (disjoint_linestring_pred.call c 0 g1 g2)
      (disjoint_linestring_pred.init,
        set field.exterior field.exterior (c.result_dimension g1) result.init) with
  | none => rw [e1] at hr; cases hr
  | some x1 =>
    have i1 : I x1.1.2 := for_each_apply_invariant (fun s => I s.2) 0 _ g1 _
      (fun s ls hs => disjoint_linestring_pred_call_invariant c 0 g1 g2 I (hS 0) s ls hs)
      _ h0 x1 e1
    rw [e1] at hr
    simp only at hr
    by_cases hi1 : x1.1.2.interrupt = true
    · rw [if_pos hi1] at hr; cases hr; exact i1
    rw [if_neg hi1] at hr
    cases e2 : for_each_disjoint_linestring_if.apply 1 (c.get_turns g1 g2) g2
        (disjoint_linestring_pred.call c 1 g2 g1) (disjoint_linestring_pred.init, x1.1.2) with
    | none => rw [e2] at hr; cases hr
    | some x2 =>
      have i2 : I x2.1.2 := for_each_apply_invariant (fun s => I s.2) 1 _ g2 _
        (fun s ls hs => disjoint_linestring_pred_call_invariant c 1 g2 g1 I (hS 1) s ls hs)
        _ i1 x2 e2
      rw [e2] at hr
      simp only at hr
      by_cases hi2 : x2.1.2.interrupt = true
      · rw [if_pos hi2] at hr; cases hr; exact i2
      rw [if_neg hi2] at hr
      by_cases hem : (c.get_turns g1 g2).isEmpty = true
      · rw [if_pos hem] at hr; cases hr; exact i2
      rw [if_neg hem] at hr
      cases e3 : analyse_each_turn c 0 x2.1.2 turns_analyser.init
          (c.sort_less_seg_dist_op 0 (c.get_turns g1 g2)) g1 g2 with
      | none => rw [e3] at hr; cases hr
      | some x3 =>
        have i3 : I x3.2 := analyse_each_turn_invariant c 0 _ g1 g2 I (hA 0) _ x3.1 _ x3.2
          i2 e3
        rw [e3] at hr
        simp only at hr
        by_cases hi3 : x3.2.interrupt = true
        · rw [if_pos hi3] at hr; cases hr; exact i3
        rw [if_neg hi3] at hr
        cases e4 : analyse_each_turn c 1 x3.2 turns_analyser.init
            (c.sort_less_seg_dist_op 1 (c.sort_less_seg_dist_op 0 (c.get_turns g1 g2)))
            g2 g1 with
        | none => rw [e4] at hr; cases hr
        | some x4 =>
          rw [e4] at hr
          cases hr
          exact analyse_each_turn_invariant c 1 _ g2 g1 I (hA 1) _ x4.1 _ x4.2 i3 e4

/-! ### The assertions of the analyser -/

theorem handle_possible_exit_ready (c : collaborators P) (tr : Bool) (ew : exit_watcher P)
    (res : result) (point : P) (op : operation_type)
    (h : ew.exit_operation ≠ operation_type.operation_none → ew.exit_id.isSome = true) :
    ∃ x, turns_analyser.handle_possible_exit c tr ew res point op = some x ∧
      (x.1.exit_operation ≠ operation_type.operation_none → x.1.exit_id.isSome = true) ∧
      x.1.other_entry_points = ew.other_entry_points := by
  unfold turns_analyser.handle_possible_exit
  by_cases hu : ew.get_exit_operation = operation_type.operation_union
  · have hu' : ew.exit_operation = operation_type.operation_union := hu
    have hne : ew.exit_operation ≠ operation_type.operation_none := by rw [hu']; decide
    have hs := h hne
    obtain ⟨pid, hpid⟩ := Option.isSome_iff_exists.1 hs
    have hp : ew.get_exit_point = some pid.point := by
      simp [exit_watcher.get_exit_point, hu', hpid]
    rw [if_pos hu, hp]
    simp only
    split_ifs
    · exact ⟨_, rfl, by simp [exit_watcher.reset_detected_exit], rfl⟩
    · exact ⟨_, rfl, by simp [exit_watcher.reset_detected_exit], rfl⟩
    · exact ⟨_, rfl, h, rfl⟩
  · rw [if_neg hu]
    exact ⟨_, rfl, h, rfl⟩

theorem check_previous_range_ready (c : collaborators P) (d : Nat) (tr : Bool)
    (ts : List (turn P)) (it : Nat) (g : geometry P) (fir fake lu : Bool) (res : result)
    (hit : it < ts.length) (h : lu = true → 0 < it) :
    ∃ r, turns_analyser.check_previous_range c d tr ts it g fir fake lu res = some r := by
  unfold turns_analyser.check_previous_range
  split_ifs with hc h0
  · exfalso
    have : lu = true := by
      cases lu
      · simp at hc
      · rfl
    have := h this
    omega
  · have hlt : it - 1 < ts.length := by omega
    rw [List.getElem?_eq_getElem hlt]
    simp only
    split_ifs <;> exact ⟨_, rfl⟩
  · exact ⟨_, rfl⟩

theorem exit_watcher_enter_ready (ew : exit_watcher P) (point : P) (id : segment_identifier)
    (h : ew.exit_operation ≠ operation_type.operation_none → ew.exit_id.isSome = true) :
    (ew.enter point id).2.exit_operation ≠ operation_type.operation_none →
      (ew.enter point id).2.exit_id.isSome = true := h

theorem exit_watcher_exit_ready (ew : exit_watcher P) (point : P) (id : segment_identifier)
    (op : operation_type)
    (h : ew.exit_operation ≠ operation_type.operation_none → ew.exit_id.isSome = true) :
    (ew.exit point id op).2.exit_operation ≠ operation_type.operation_none →
      (ew.exit point id op).2.exit_id.isSome = true := by
  unfold exit_watcher.exit
  simp only
  split_ifs
  · exact h
  · intro _; rfl
  · exact h

theorem on_intersection_watcher (c : collaborators P) (tr : Bool) (g og : geometry P) (point : P)
    (seg_id other_id : segment_identifier) (oop : operation_type) (fir fake : Bool)
    (ew : exit_watcher P) (res : result) :
    (turns_analyser.on_intersection c tr g og point seg_id other_id oop fir fake ew res).1 =
      (ew.enter point other_id).2 := by
  unfold turns_analyser.on_intersection
  simp only
  split_ifs <;> rfl

theorem on_union_or_blocked_watcher (c : collaborators P) (tr : Bool) (g og : geometry P)
    (point : P) (m : method_type) (op : operation_type) (seg_id other_id : segment_identifier)
    (oop : operation_type) (fir : Bool) (ew : exit_watcher P) (res : result) :
    (turns_analyser.on_union_or_blocked c tr g og point m op seg_id other_id oop fir ew res).1 =
      (ew.exit point other_id op).2 := by
  unfold turns_analyser.on_union_or_blocked
  simp only
  split_ifs <;> rfl

theorem at_last_ready (c : collaborators P) (d : Nat) (tr : Bool) (st : turns_analyser P)
    (res : result) (ts : List (turn P)) (g : geometry P) (hne : ts.isEmpty = false) :
    ∃ r, turns_analyser.at_last c d tr st res ts g = some r := by
  unfold turns_analyser.at_last
  have hlen : ts.length - 1 < ts.length := by
    cases ts with
    | nil => simp at hne
    | cons a l => simp
  rw [hne, List.getElem?_eq_getElem hlen]
  simp only [Bool.false_eq_true, if_false]
  split_ifs <;> exact ⟨_, rfl⟩

theorem turns_analyser_apply_ready (c : collaborators P) (d : Nat) (st : turns_analyser P)
    (res : result) (ts : List (turn P)) (it : Nat) (g og : geometry P)
    (hne : ts.isEmpty = false) (h : analyser_ready st it) :
    ∃ x, turns_analyser.apply c d st res ts it g og = some x ∧ analyser_ready x.1 (it + 1) := by
  obtain ⟨h1, h2⟩ := h
  unfold turns_analyser.apply
  cases e : ts[it]? with
  | none =>
    simp only
    obtain ⟨r, hr⟩ := at_last_ready c d (d != 0) st res ts g hne
    rw [hr]
    exact ⟨_, rfl, fun _ => Nat.succ_pos _, h2⟩
  | some t =>
    have hit : it < ts.length := by
      by_contra hc
      have := List.getElem?_eq_none (Nat.le_of_not_lt hc)
      rw [this] at e; cases e
    simp only
    split_ifs with hop hint hub
    · exact ⟨_, rfl, fun _ => Nat.succ_pos _, h2⟩
    all_goals
      obtain ⟨x, hx, hx2, -⟩ := handle_possible_exit_ready c (d != 0) st.m_exit_watcher res
        t.point (t.op d).operation h2
      obtain ⟨ew, r1, fk⟩ := x
      rw [hx]
      simp only
      obtain ⟨r2, hr2⟩ := check_previous_range_ready c d (d != 0) ts it g
        (st.m_seg_watcher.update (t.op d).seg_id).1 fk st.m_last_union r1 hit h1
      rw [hr2]
      simp only
      refine ⟨_, rfl, fun _ => Nat.succ_pos _, ?_⟩
      simp only
      first
      | (rw [on_intersection_watcher]; exact exit_watcher_enter_ready ew _ _ hx2)
      | (rw [on_union_or_blocked_watcher]; exact exit_watcher_exit_ready ew _ _ _ hx2)
      | exact hx2

theorem analyser_ready_init (it : Nat) : analyser_ready (turns_analyser.init : turns_analyser P) it :=
  ⟨fun h => by simp [turns_analyser.init] at h,
   fun h => by simp [turns_analyser.init, exit_watcher.init] at h⟩



/-! ### The interrupt flag -/

theorem writes_subset :
    ∀ u ∈ scanner_writes ++ analyser_writes,
      (u.1, u.2.1, u.2.2) ∈ engine_writes ∧ (u.2.1, u.1, u.2.2) ∈ engine_writes := by
  decide

theorem update_target_mem (u : field × field × Nat) (hu : u ∈ scanner_writes ++ analyser_writes)
    (tr : Bool) :
    ((if tr = true then u.2.1 else u.1), (if tr = true then u.1 else u.2.1), u.2.2) ∈
      engine_writes := by
  cases tr
  · simpa using (writes_subset u hu).1
  · simpa using (writes_subset u hu).2

theorem update_cells (full : (field → field → code) → Bool) (f1 f2 : field) (d : Nat)
    (tr : Bool) (r : result) (a b : field) :
    (update full f1 f2 d tr r).cells a b =
      if a = (if tr = true then f2 else f1) ∧ b = (if tr = true then f1 else f2) then
        (r.cells a b).upgrade d
      else r.cells a b := rfl

theorem update_interrupt (full : (field → field → code) → Bool) (f1 f2 : field) (d : Nat)
    (tr : Bool) (r : result) :
    (update full f1 f2 d tr r).interrupt =
      (r.interrupt || full (update full f1 f2 d tr r).cells) := rfl

theorem result.ext_iff' (r r' : result) :
    r = r' ↔ (∀ a b, r.cells a b = r'.cells a b) ∧ r.interrupt = r'.interrupt := by
  constructor
  · rintro rfl; exact ⟨fun _ _ => rfl, rfl⟩
  · rintro ⟨h1, h2⟩
    cases r; cases r'
    simp only [result.mk.injEq]
    exact ⟨funext fun a => funext fun b => h1 a b, h2⟩

theorem update_of_saturated (full : (field → field → code) → Bool) (u : field × field × Nat)
    (hu : u ∈ scanner_writes ++ analyser_writes) (tr : Bool) (r : result)
    (hi : r.interrupt = true) (hs : saturated r.cells) :
    update full u.1 u.2.1 u.2.2 tr r = r := by
  have hm := hs _ (update_target_mem u hu tr)
  simp only at hm
  rw [result.ext_iff']
  refine ⟨fun a b => ?_, ?_⟩
  · rw [update_cells]
    by_cases hab : a = (if tr = true then u.2.1 else u.1) ∧ b = (if tr = true then u.1 else u.2.1)
    · rw [if_pos hab]
      obtain ⟨rfl, rfl⟩ := hab
      exact hm
    · rw [if_neg hab]
  · rw [update_interrupt, hi, Bool.true_or]

/-- Under a sound interrupt policy a raised flag means a saturated matrix, and
every update of the engine keeps that. -/
theorem guarded_update (full : (field → field → code) → Bool) (hs : interrupt_sound full)
    (u : field × field × Nat) (hu : u ∈ scanner_writes ++ analyser_writes) (tr : Bool)
    (r : result) (h : r.interrupt = true → saturated r.cells) :
    (update full u.1 u.2.1 u.2.2 tr r).interrupt = true →
      saturated (update full u.1 u.2.1 u.2.2 tr r).cells := by
  by_cases hi : r.interrupt = true
  · rw [update_of_saturated full u hu tr r hi (h hi)]
    exact h
  · intro h2
    rw [update_interrupt, Bool.or_eq_true] at h2
    rcases h2 with h2 | h2
    · exact absurd h2 hi
    · exact hs _ h2



/-! ### The scan with and without the return on interrupt -/

theorem analyser_update_of_saturated (c : collaborators P) (d : Nat) (r : result)
    (hi : r.interrupt = true) (hs : saturated r.cells) :
    ∀ u ∈ analyser_writes, ∀ r', r' = r → update c.full u.1 u.2.1 u.2.2 (d != 0) r' = r := by
  intro u hu r' hr
  subst hr
  exact update_of_saturated c.full u (List.mem_append_right _ hu) _ _ hi hs

theorem analyser_guarded (c : collaborators P) (hs : interrupt_sound c.full) (d : Nat) :
    ∀ u ∈ analyser_writes, ∀ r, (r.interrupt = true → saturated r.cells) →
      ((update c.full u.1 u.2.1 u.2.2 (d != 0) r).interrupt = true →
        saturated (update c.full u.1 u.2.1 u.2.2 (d != 0) r).cells) :=
  fun u hu r h => guarded_update c.full hs u (List.mem_append_right _ hu) _ r h

theorem loop_no_interrupt_saturated (c : collaborators P) (d : Nat) (ts : List (turn P))
    (g og : geometry P) (hne : ts.isEmpty = false) (r : result)
    (hi : r.interrupt = true) (hs : saturated r.cells) (n : Nat) :
    ∀ (it : Nat) (st : turns_analyser P), analyser_ready st it →
      ∃ st', analyse_each_turn.loop_no_interrupt c d ts g og n it st r = some (st', r) := by
  induction n with
  | zero =>
    intro it st hst
    obtain ⟨x, hx, -⟩ := turns_analyser_apply_ready c d st r ts it g og hne hst
    have := turns_analyser_apply_invariant c d ts g og st x.1 it (fun r' => r' = r) r x.2
      (analyser_update_of_saturated c d r hi hs) rfl hx
    simp only at this
    exact ⟨x.1, by rw [analyse_each_turn.loop_no_interrupt, hx, ← this]⟩
  | succ n ih =>
    intro it st hst
    obtain ⟨x, hx, hx2⟩ := turns_analyser_apply_ready c d st r ts it g og hne hst
    have := turns_analyser_apply_invariant c d ts g og st x.1 it (fun r' => r' = r) r x.2
      (analyser_update_of_saturated c d r hi hs) rfl hx
    simp only at this
    obtain ⟨st', h'⟩ := ih (it + 1) x.1 hx2
    refine ⟨st', ?_⟩
    rw [analyse_each_turn.loop_no_interrupt, hx]
    simp only [this]
    exact h'

theorem loop_eq_no_interrupt (c : collaborators P) (hs : interrupt_sound c.full) (d : Nat)
    (ts : List (turn P)) (g og : geometry P) (hne : ts.isEmpty = false) (n : Nat) :
    ∀ (it : Nat) (st : turns_analyser P) (res : result), analyser_ready st it →
      (res.interrupt = true → saturated res.cells) →
      ∃ sa sb r, analyse_each_turn.loop c d ts g og n it st res = some (sa, r) ∧
        analyse_each_turn.loop_no_interrupt c d ts g og n it st res = some (sb, r) ∧
        (r.interrupt = true → saturated r.cells) := by
  induction n with
  | zero =>
    intro it st res hst hg
    obtain ⟨x, hx, -⟩ := turns_analyser_apply_ready c d st res ts it g og hne hst
    have := turns_analyser_apply_invariant c d ts g og st x.1 it
      (fun r => r.interrupt = true → saturated r.cells) res x.2 (analyser_guarded c hs d) hg hx
    exact ⟨x.1, x.1, x.2, hx, hx, this⟩
  | succ n ih =>
    intro it st res hst hg
    obtain ⟨x, hx, hx2⟩ := turns_analyser_apply_ready c d st res ts it g og hne hst
    have hg1 := turns_analyser_apply_invariant c d ts g og st x.1 it
      (fun r => r.interrupt = true → saturated r.cells) res x.2 (analyser_guarded c hs d) hg hx
    simp only at hg1
    by_cases hi : x.2.interrupt = true
    · obtain ⟨st', h'⟩ := loop_no_interrupt_saturated c d ts g og hne x.2 hi (hg1 hi) n
        (it + 1) x.1 hx2
      refine ⟨x.1, st', x.2, ?_, ?_, hg1⟩
      · rw [analyse_each_turn.loop, hx]
        simp only [hi, if_true]
      · rw [analyse_each_turn.loop_no_interrupt, hx]
        exact h'
    · obtain ⟨sa, sb, r, h1, h2, h3⟩ := ih (it + 1) x.1 x.2 hx2 hg1
      refine ⟨sa, sb, r, ?_, ?_, h3⟩
      · rw [analyse_each_turn.loop, hx]
        simp only [hi, if_false]
        exact h1
      · rw [analyse_each_turn.loop_no_interrupt, hx]
        exact h2

theorem analyse_each_turn_eq_no_interrupt (c : collaborators P) (hs : interrupt_sound c.full)
    (d : Nat) (ts : List (turn P)) (g og : geometry P) (res : result)
    (hg : res.interrupt = true → saturated res.cells) :
    ∃ sa sb r, analyse_each_turn c d res turns_analyser.init ts g og = some (sa, r) ∧
      analyse_each_turn_no_interrupt c d res turns_analyser.init ts g og = some (sb, r) ∧
      (r.interrupt = true → saturated r.cells) := by
  unfold analyse_each_turn analyse_each_turn_no_interrupt
  cases hne : ts.isEmpty with
  | true => exact ⟨_, _, _, rfl, rfl, hg⟩
  | false =>
    simp only [Bool.false_eq_true, if_false]
    exact loop_eq_no_interrupt c hs d ts g og hne _ 0 _ res (analyser_ready_init 0) hg

theorem analyse_each_turn_no_interrupt_saturated (c : collaborators P) (d : Nat)
    (ts : List (turn P)) (g og : geometry P) (r : result)
    (hi : r.interrupt = true) (hs : saturated r.cells) :
    ∃ st', analyse_each_turn_no_interrupt c d r turns_analyser.init ts g og = some (st', r) := by
  unfold analyse_each_turn_no_interrupt
  cases hne : ts.isEmpty with
  | true => exact ⟨_, rfl⟩
  | false =>
    simp only [Bool.false_eq_true, if_false]
    exact loop_no_interrupt_saturated c d ts g og hne r hi hs _ 0 _ (analyser_ready_init 0)

/-! ### The scanner with and without the stop on interrupt -/

theorem not_full_of_rank (full : (field → field → code) → Bool) (hs : interrupt_sound full)
    (m : field → field → code) (h : (m field.interior field.interior).rank ≤ 2) :
    full m = false := by
  cases hf : full m with
  | false => rfl
  | true =>
    have := hs m hf (field.interior, field.interior, 1) (by decide)
    simp only at this
    revert this h
    cases m field.interior field.interior with
    | F => intro _ h; simp [code.upgrade] at h
    | T => intro _ h; simp [code.upgrade] at h
    | dim n =>
      intro h1 h2
      simp only [code.rank] at h1
      have : n = 0 := by omega
      subst this
      simp [code.upgrade] at h2

theorem scanner_quiet (c : collaborators P) (hs : interrupt_sound c.full) (d : Nat) :
    ∀ u ∈ scanner_writes, ∀ r, quiet r → quiet (update c.full u.1 u.2.1 u.2.2 (d != 0) r) := by
  intro u hu r hq
  have hrank : ((update c.full u.1 u.2.1 u.2.2 (d != 0) r).cells field.interior
      field.interior).rank ≤ 2 := by
    have hq2 := hq.2
    rw [update_cells]
    revert hu
    cases (d != 0) <;> intro hu <;>
      simp only [scanner_writes, List.mem_cons, List.mem_singleton, List.mem_nil_iff,
        or_false] at hu <;>
      rcases hu with rfl | rfl | rfl | rfl | rfl <;>
      simp only [Bool.false_eq_true, if_false, if_true, true_and, and_true, and_self,
        reduceCtorEq, and_false, false_and] <;>
      first
      | exact hq2
      | (revert hq2
         cases r.cells field.interior field.interior with
         | F => intro _; simp [code.upgrade, code.rank]
         | T => intro _; simp [code.upgrade, code.rank]
         | dim n => intro h; simp only [code.rank] at h; simp [code.upgrade, code.rank]; omega)
  refine ⟨?_, hrank⟩
  rw [update_interrupt, hq.1, Bool.false_or]
  exact not_full_of_rank c.full hs _ hrank

theorem call_eq_no_interrupt (c : collaborators P) (hs : interrupt_sound c.full) (d : Nat)
    (bc og : geometry P) (s s' : disjoint_linestring_pred × result) (ls : List P)
    (h : s = s' ∧ quiet s.2) :
    ((disjoint_linestring_pred.call c d bc og s ls).1 =
        (disjoint_linestring_pred.call_no_interrupt c d bc og s' ls).1 ∧
      quiet (disjoint_linestring_pred.call c d bc og s ls).1.2) ∧
    (disjoint_linestring_pred.call c d bc og s ls).2 =
      (disjoint_linestring_pred.call_no_interrupt c d bc og s' ls).2 := by
  obtain ⟨rfl, hq⟩ := h
  have hq' := disjoint_linestring_pred_call_invariant c d bc og quiet (scanner_quiet c hs d) s ls hq
  refine ⟨⟨rfl, hq'⟩, ?_⟩
  have hi := hq'.1
  unfold disjoint_linestring_pred.call_no_interrupt
  simp only
  unfold disjoint_linestring_pred.call at hi ⊢
  simp only at hi ⊢
  rw [hi]
  simp

theorem for_each_eq_no_interrupt (c : collaborators P) (hs : interrupt_sound c.full) (d : Nat)
    (ts : List (turn P)) (g og : geometry P) (s : disjoint_linestring_pred × result)
    (hq : quiet s.2) :
    for_each_disjoint_linestring_if.apply d ts g (disjoint_linestring_pred.call c d g og) s =
      for_each_disjoint_linestring_if.apply d ts g
        (disjoint_linestring_pred.call_no_interrupt c d g og) s ∧
    ∀ x, for_each_disjoint_linestring_if.apply d ts g (disjoint_linestring_pred.call c d g og) s
      = some x → quiet x.1.2 := by
  have := for_each_apply_corresponds (fun s s' => s = s' ∧ quiet s.2) d d ts ts rfl g
    (disjoint_linestring_pred.call c d g og) (disjoint_linestring_pred.call_no_interrupt c d g og)
    (fun s s' ls h => call_eq_no_interrupt c hs d g og s s' ls h) s s ⟨rfl, hq⟩
  revert this
  cases for_each_disjoint_linestring_if.apply d ts g (disjoint_linestring_pred.call c d g og) s with
  | none =>
    cases for_each_disjoint_linestring_if.apply d ts g
        (disjoint_linestring_pred.call_no_interrupt c d g og) s with
    | none => intro _; exact ⟨rfl, fun x hx => by cases hx⟩
    | some y => intro h; exact h.elim
  | some x =>
    cases for_each_disjoint_linestring_if.apply d ts g
        (disjoint_linestring_pred.call_no_interrupt c d g og) s with
    | none => intro h; exact h.elim
    | some y =>
      intro h
      obtain ⟨⟨h1, h2⟩, h3⟩ := corresponds_some.1 h
      refine ⟨?_, fun x' hx' => ?_⟩
      · congr 1
        exact Prod.ext h1 h3
      · cases hx'; exact h2

/-! ### Two runs of a pass -/

theorem loop_no_interrupt_corresponds (c : collaborators P) (d1 d2 : Nat)
    (ts1 ts2 : List (turn P)) (g og : geometry P) (R : result → result → Prop)
    (hv : ts1.map (turn.view d1) = ts2.map (turn.view d2))
    (hR : update_closed c.full analyser_writes (d1 != 0) (d2 != 0) R) (n : Nat) :
    ∀ (it : Nat) (st : turns_analyser P) (res res' : result), R res res' →
      corresponds (fun x y => x.1 = y.1 ∧ R x.2 y.2)
        (analyse_each_turn.loop_no_interrupt c d1 ts1 g og n it st res)
        (analyse_each_turn.loop_no_interrupt c d2 ts2 g og n it st res') := by
  induction n with
  | zero =>
    intro it st res res' h
    exact turns_analyser_apply_corresponds c d1 d2 ts1 ts2 g og st it R res res' hv hR h
  | succ n ih =>
    intro it st res res' h
    have h1 := turns_analyser_apply_corresponds c d1 d2 ts1 ts2 g og st it R res res' hv hR h
    simp only [analyse_each_turn.loop_no_interrupt]
    revert h1
    cases turns_analyser.apply c d1 st res ts1 it g og with
    | none =>
      cases turns_analyser.apply c d2 st res' ts2 it g og with
      | none => intro _; exact corresponds_none
      | some y => intro h1; exact h1.elim
    | some x =>
      cases turns_analyser.apply c d2 st res' ts2 it g og with
      | none => intro h1; exact h1.elim
      | some y =>
        intro h1
        obtain ⟨hst, hr⟩ := corresponds_some.1 h1
        obtain ⟨sx, rx⟩ := x
        obtain ⟨sy, ry⟩ := y
        simp only at hst hr
        subst hst
        exact ih (it + 1) sx rx ry hr

theorem analyser_pass_corresponds (c : collaborators P) (d1 d2 : Nat)
    (ts1 ts2 : List (turn P)) (g og : geometry P) (R : result → result → Prop)
    (hv : ts1.map (turn.view d1) = ts2.map (turn.view d2))
    (hR : update_closed c.full analyser_writes (d1 != 0) (d2 != 0) R)
    (res res' : result) (h : R res res') :
    corresponds R (analyser_pass c d1 ts1 g og res) (analyser_pass c d2 ts2 g og res') := by
  have hem : ts1.isEmpty = ts2.isEmpty := by
    cases ts1 <;> cases ts2 <;> simp_all
  have hlen : ts1.length = ts2.length := by
    have := congrArg List.length hv
    simpa using this
  unfold analyser_pass analyse_each_turn_no_interrupt
  rw [hem, hlen]
  split_ifs
  · exact corresponds_some.2 h
  · have := loop_no_interrupt_corresponds c d1 d2 ts1 ts2 g og R hv hR ts2.length 0
      turns_analyser.init res res' h
    revert this
    cases analyse_each_turn.loop_no_interrupt c d1 ts1 g og ts2.length 0 turns_analyser.init res <;>
      cases analyse_each_turn.loop_no_interrupt c d2 ts2 g og ts2.length 0 turns_analyser.init
        res' <;>
      intro h1 <;> first | exact h1 | exact corresponds_some.2 (corresponds_some.1 h1).2

theorem scanner_pass_corresponds (c : collaborators P) (d1 d2 : Nat)
    (ts1 ts2 : List (turn P)) (g og : geometry P) (R : result → result → Prop)
    (hv : ts1.map (turn.view d1) = ts2.map (turn.view d2))
    (hR : update_closed c.full scanner_writes (d1 != 0) (d2 != 0) R)
    (res res' : result) (h : R res res') :
    corresponds R (scanner_pass c d1 ts1 g og res) (scanner_pass c d2 ts2 g og res') := by
  have := for_each_apply_corresponds (fun s s' => s.1 = s'.1 ∧ R s.2 s'.2) d1 d2 ts1 ts2 hv g
    (disjoint_linestring_pred.call_no_interrupt c d1 g og)
    (disjoint_linestring_pred.call_no_interrupt c d2 g og)
    (fun s s' ls hs => by
      obtain ⟨s1, s2⟩ := s
      obtain ⟨s1', s2'⟩ := s'
      obtain ⟨h1, h2⟩ := hs
      simp only at h1 h2
      subst h1
      have := disjoint_linestring_pred_call_corresponds c d1 d2 g og R hR s1 s2 s2' ls h2
      unfold disjoint_linestring_pred.call_no_interrupt
      simp only [this.1]
      exact ⟨⟨trivial, this.2⟩, trivial⟩)
    (disjoint_linestring_pred.init, res) (disjoint_linestring_pred.init, res') ⟨rfl, h⟩
  unfold scanner_pass
  revert this
  cases for_each_disjoint_linestring_if.apply d1 ts1 g
      (disjoint_linestring_pred.call_no_interrupt c d1 g og)
      (disjoint_linestring_pred.init, res) <;>
    cases for_each_disjoint_linestring_if.apply d2 ts2 g
      (disjoint_linestring_pred.call_no_interrupt c d2 g og)
      (disjoint_linestring_pred.init, res') <;>
    intro h1 <;> first | exact h1 | exact corresponds_some.2 (corresponds_some.1 h1).1.2



/-! ### Passes commute -/

theorem rank_upgrade (x : code) (d : Nat) : (x.upgrade d).rank = max x.rank (d + 2) := by
  cases x with
  | F => simp [code.upgrade, code.rank]
  | T => simp [code.upgrade, code.rank]
  | dim n =>
    simp only [code.upgrade, code.rank]
    split_ifs with h
    · simp only [code.rank]; omega
    · simp only [code.rank]; omega

theorem rank_injective {x y : code} (h : x.rank = y.rank) : x = y := by
  cases x <;> cases y <;> simp only [code.rank] at h <;> first | rfl | omega | (congr 1; omega)

theorem update_closed_join (full : (field → field → code) → Bool)
    (W : List (field × field × Nat)) (tr : Bool) (res : result) :
    update_closed full W tr tr (fun r r0 => ∀ a b,
      (r.cells a b).rank = max (res.cells a b).rank (r0.cells a b).rank) := by
  intro u _ r r0 h a b
  rw [update_cells, update_cells]
  by_cases hab : a = (if tr = true then u.2.1 else u.1) ∧ b = (if tr = true then u.1 else u.2.1)
  · rw [if_pos hab, if_pos hab, rank_upgrade, rank_upgrade, h a b, Nat.max_assoc]
  · rw [if_neg hab, if_neg hab]
    exact h a b

theorem update_closed_transposed (full : (field → field → code) → Bool)
    (hsym : ∀ m : field → field → code, full (fun a b => m b a) = full m)
    (W : List (field × field × Nat)) (tr : Bool) :
    update_closed full W tr (!tr) (fun r' r => r' = r.transpose) := by
  intro u _ r' r h
  subst h
  rw [result.ext_iff']
  have hc : ∀ a b, (update full u.1 u.2.1 u.2.2 tr r.transpose).cells a b =
      (update full u.1 u.2.1 u.2.2 (!tr) r).transpose.cells a b := by
    intro a b
    simp only [result.transpose, update_cells]
    cases tr <;> simp only [Bool.not_false, Bool.not_true, if_true, Bool.false_eq_true, if_false]
      <;> simp only [and_comm]
  refine ⟨hc, ?_⟩
  rw [update_interrupt]
  have : (update full u.1 u.2.1 u.2.2 tr r.transpose).cells =
      fun a b => (update full u.1 u.2.1 u.2.2 (!tr) r).cells b a := by
    funext a b
    exact hc a b
  rw [this, hsym]
  rfl

theorem scanner_pass_joins (c : collaborators P) (d : Nat) (ts : List (turn P))
    (g og : geometry P) : pass_joins (scanner_pass c d ts g og) :=
  fun res => scanner_pass_corresponds c d d ts ts g og _ rfl
    (update_closed_join c.full _ _ res) res result.init
    (fun a b => by simp [result.init, code.rank])

theorem analyser_pass_joins (c : collaborators P) (d : Nat) (ts : List (turn P))
    (g og : geometry P) : pass_joins (analyser_pass c d ts g og) :=
  fun res => analyser_pass_corresponds c d d ts ts g og _ rfl
    (update_closed_join c.full _ _ res) res result.init
    (fun a b => by simp [result.init, code.rank])

theorem view_swap_zero (ts : List (turn P)) :
    (ts.map turn.swap).map (turn.view 0) = ts.map (turn.view 1) := by
  rw [List.map_map]
  exact List.map_congr_left fun t _ => rfl

theorem view_swap_one (ts : List (turn P)) :
    (ts.map turn.swap).map (turn.view 1) = ts.map (turn.view 0) := by
  rw [List.map_map]
  exact List.map_congr_left fun t _ => rfl

theorem scanner_pass_mirror (c : collaborators P)
    (hsym : ∀ m : field → field → code, c.full (fun a b => m b a) = c.full m)
    (ts : List (turn P)) (g og : geometry P) :
    pass_mirror (scanner_pass c 0 (ts.map turn.swap) g og) (scanner_pass c 1 ts g og) ∧
    pass_mirror (scanner_pass c 1 (ts.map turn.swap) g og) (scanner_pass c 0 ts g og) :=
  ⟨fun r => scanner_pass_corresponds c 0 1 _ ts g og _ (view_swap_zero ts)
      (update_closed_transposed c.full hsym _ false) _ r rfl,
   fun r => scanner_pass_corresponds c 1 0 _ ts g og _ (view_swap_one ts)
      (update_closed_transposed c.full hsym _ true) _ r rfl⟩

theorem analyser_pass_mirror (c : collaborators P)
    (hsym : ∀ m : field → field → code, c.full (fun a b => m b a) = c.full m)
    (ts : List (turn P)) (g og : geometry P) :
    pass_mirror (analyser_pass c 0 (ts.map turn.swap) g og) (analyser_pass c 1 ts g og) ∧
    pass_mirror (analyser_pass c 1 (ts.map turn.swap) g og) (analyser_pass c 0 ts g og) :=
  ⟨fun r => analyser_pass_corresponds c 0 1 _ ts g og _ (view_swap_zero ts)
      (update_closed_transposed c.full hsym _ false) _ r rfl,
   fun r => analyser_pass_corresponds c 1 0 _ ts g og _ (view_swap_one ts)
      (update_closed_transposed c.full hsym _ true) _ r rfl⟩



theorem flag_update (full : (field → field → code) → Bool) (hs : interrupt_sound full)
    (u : field × field × Nat) (hu : u ∈ scanner_writes ++ analyser_writes) (tr : Bool)
    (r : result) (h : r.interrupt = full r.cells) :
    (update full u.1 u.2.1 u.2.2 tr r).interrupt = full (update full u.1 u.2.1 u.2.2 tr r).cells := by
  cases hi : r.interrupt with
  | true =>
    have hf : full r.cells = true := by rw [← h, hi]
    rw [update_of_saturated full u hu tr r hi (hs _ hf), hi, hf]
  | false => rw [update_interrupt, hi, Bool.false_or]

theorem scanner_pass_flag (c : collaborators P) (hs : interrupt_sound c.full) (d : Nat)
    (ts : List (turn P)) (g og : geometry P) (r r' : result)
    (h : r.interrupt = c.full r.cells) (hr : scanner_pass c d ts g og r = some r') :
    r'.interrupt = c.full r'.cells := by
  have := scanner_pass_corresponds c d d ts ts g og (fun x _ => x.interrupt = c.full x.cells) rfl
    (update_closed_of_invariant c.full _ _ _
      (fun u hu x hx => flag_update c.full hs u (List.mem_append_left _ hu) _ x hx)) r r h
  rw [hr] at this
  exact corresponds_some.1 this

theorem analyser_pass_flag (c : collaborators P) (hs : interrupt_sound c.full) (d : Nat)
    (ts : List (turn P)) (g og : geometry P) (r r' : result)
    (h : r.interrupt = c.full r.cells) (hr : analyser_pass c d ts g og r = some r') :
    r'.interrupt = c.full r'.cells := by
  have := analyser_pass_corresponds c d d ts ts g og (fun x _ => x.interrupt = c.full x.cells)
    rfl (update_closed_of_invariant c.full _ _ _
      (fun u hu x hx => flag_update c.full hs u (List.mem_append_right _ hu) _ x hx)) r r h
  rw [hr] at this
  exact corresponds_some.1 this

theorem pass_joins_none {M : result → Option result} (hM : pass_joins M)
    (h : M result.init = none) (r : result) : M r = none := by
  have := hM r
  rw [h] at this
  cases hr : M r with
  | none => rfl
  | some x => rw [hr] at this; exact this.elim

theorem pass_joins_some {M : result → Option result} (hM : pass_joins M) {b : result}
    (h : M result.init = some b) (r : result) :
    ∃ x, M r = some x ∧ ∀ a c, (x.cells a c).rank = max (r.cells a c).rank (b.cells a c).rank := by
  have := hM r
  rw [h] at this
  cases hr : M r with
  | none => rw [hr] at this; exact this.elim
  | some x => rw [hr] at this; exact ⟨x, rfl, corresponds_some.1 this⟩

/-- Two passes that join their cells into the matrix and keep the flag equal
to the interrupt test of the cells can be run in either order. -/
theorem passes_commute (full : (field → field → code) → Bool)
    (M1 M2 : result → Option result) (h1 : pass_joins M1) (h2 : pass_joins M2)
    (k1 : ∀ r r', r.interrupt = full r.cells → M1 r = some r' → r'.interrupt = full r'.cells)
    (k2 : ∀ r r', r.interrupt = full r.cells → M2 r = some r' → r'.interrupt = full r'.cells)
    (r : result) (hr : r.interrupt = full r.cells) :
    (M1 r).bind M2 = (M2 r).bind M1 := by
  cases e1 : M1 result.init with
  | none =>
    rw [pass_joins_none h1 e1 r]
    cases M2 r with
    | none => rfl
    | some x => exact (pass_joins_none h1 e1 x).symm
  | some b1 =>
    cases e2 : M2 result.init with
    | none =>
      rw [pass_joins_none h2 e2 r]
      cases M1 r with
      | none => rfl
      | some x => exact pass_joins_none h2 e2 x
    | some b2 =>
      obtain ⟨x1, hx1, q1⟩ := pass_joins_some h1 e1 r
      obtain ⟨x2, hx2, q2⟩ := pass_joins_some h2 e2 r
      obtain ⟨x12, hx12, q12⟩ := pass_joins_some h2 e2 x1
      obtain ⟨x21, hx21, q21⟩ := pass_joins_some h1 e1 x2
      rw [hx1, hx2]
      simp only [Option.some_bind, hx12, hx21, Option.some.injEq]
      have hc : ∀ a c, x12.cells a c = x21.cells a c := by
        intro a c
        apply rank_injective
        rw [q12, q21, q1, q2]
        omega
      have hcells : x12.cells = x21.cells := funext fun a => funext fun c => hc a c
      rw [result.ext_iff']
      refine ⟨hc, ?_⟩
      rw [k2 x1 x12 (k1 r x1 hr hx1) hx12, k1 x2 x21 (k2 r x2 hr hx2) hx21, hcells]

theorem pass_mirror_eq {M' M : result → Option result} (h : pass_mirror M' M) (r : result) :
    M' r.transpose = (M r).map result.transpose := by
  have := h r
  revert this
  cases M' r.transpose <;> cases M r <;> intro h1 <;>
    first
    | rfl
    | exact h1.elim
    | (simp only [Option.map_some', Option.some.injEq]; exact corresponds_some.1 h1)

theorem apply_no_interrupt_eq_passes (c : collaborators P) (g1 g2 : geometry P) :
    linear_linear.apply_no_interrupt c g1 g2 =
      (((scanner_pass c 0 (c.get_turns g1 g2) g1 g2
          (set field.exterior field.exterior (c.result_dimension g1) result.init)).bind
        (scanner_pass c 1 (c.get_turns g1 g2) g2 g1)).bind fun r2 =>
          if (c.get_turns g1 g2).isEmpty then some r2
          else (analyser_pass c 0 (c.sort_less_seg_dist_op 0 (c.get_turns g1 g2)) g1 g2 r2).bind
            (analyser_pass c 1
              (c.sort_less_seg_dist_op 1 (c.sort_less_seg_dist_op 0 (c.get_turns g1 g2)))
              g2 g1)) := by
  unfold linear_linear.apply_no_interrupt scanner_pass analyser_pass
  simp only
  cases for_each_disjoint_linestring_if.apply 0 (c.get_turns g1 g2) g1
      (disjoint_linestring_pred.call_no_interrupt c 0 g1 g2)
      (disjoint_linestring_pred.init,
        set field.exterior field.exterior (c.result_dimension g1) result.init) with
  | none => rfl
  | some x1 =>
    simp only [Option.map_some', Option.some_bind]
    cases for_each_disjoint_linestring_if.apply 1 (c.get_turns g1 g2) g2
        (disjoint_linestring_pred.call_no_interrupt c 1 g2 g1)
        (disjoint_linestring_pred.init, x1.1.2) with
    | none => rfl
    | some x2 =>
      simp only [Option.map_some', Option.some_bind]
      split_ifs
      · rfl
      · cases analyse_each_turn_no_interrupt c 0 x2.1.2 turns_analyser.init
            (c.sort_less_seg_dist_op 0 (c.get_turns g1 g2)) g1 g2 with
        | none => rfl
        | some x3 =>
          simp only [Option.map_some', Option.some_bind]
          cases analyse_each_turn_no_interrupt c 1 x3.2 turns_analyser.init
              (c.sort_less_seg_dist_op 1 (c.sort_less_seg_dist_op 0 (c.get_turns g1 g2)))
              g2 g1 with
          | none => rfl
          | some x4 => rfl

/-! ### Runs that end without interrupt -/

theorem loop_eq_no_interrupt_of_flag (c : collaborators P) (d : Nat) (ts : List (turn P))
    (g og : geometry P) (n : Nat) :
    ∀ (it : Nat) (st : turns_analyser P) (res : result) (x : turns_analyser P × result),
      analyse_each_turn.loop c d ts g og n it st res = some x → x.2.interrupt = false →
      analyse_each_turn.loop_no_interrupt c d ts g og n it st res = some x := by
  induction n with
  | zero => intro it st res x h _; exact h
  | succ n ih =>
    intro it st res x h hx
    simp only [analyse_each_turn.loop] at h
    simp only [analyse_each_turn.loop_no_interrupt]
    cases e : turns_analyser.apply c d st res ts it g og with
    | none => rw [e] at h; cases h
    | some y =>
      rw [e] at h
      simp only at h ⊢
      by_cases hi : y.2.interrupt = true
      · rw [if_pos hi] at h
        cases h
        rw [hi] at hx
        cases hx
      · rw [if_neg hi] at h
        exact ih _ _ _ _ h hx

theorem analyse_each_turn_eq_no_interrupt_of_flag (c : collaborators P) (d : Nat)
    (ts : List (turn P)) (g og : geometry P) (st : turns_analyser P) (res : result)
    (x : turns_analyser P × result)
    (h : analyse_each_turn c d res st ts g og = some x) (hx : x.2.interrupt = false) :
    analyse_each_turn_no_interrupt c d res st ts g og = some x := by
  unfold analyse_each_turn at h
  unfold analyse_each_turn_no_interrupt
  split_ifs at h ⊢
  · exact h
  · exact loop_eq_no_interrupt_of_flag c d ts g og _ _ _ _ _ h hx

theorem scan_eq_no_interrupt_of_flag (c : collaborators P) (d : Nat) (g og : geometry P)
    (lss : List (List P)) :
    ∀ (ds : List Bool) (i : Nat) (s : disjoint_linestring_pred × result) (found : Bool)
      (x : (disjoint_linestring_pred × result) × Bool),
      for_each_disjoint_linestring_if.scan lss (disjoint_linestring_pred.call c d g og) ds i s
        found = x → x.1.2.interrupt = false →
      for_each_disjoint_linestring_if.scan lss
        (disjoint_linestring_pred.call_no_interrupt c d g og) ds i s found = x := by
  intro ds
  induction ds with
  | nil => intro i s found x h _; exact h
  | cons b ds ih =>
    intro i s found x h hx
    simp only [for_each_disjoint_linestring_if.scan] at h ⊢
    cases b with
    | true =>
      simp only [Bool.true_eq_false, if_false] at h ⊢
      exact ih _ _ _ _ h hx
    | false =>
      simp only [if_true] at h ⊢
      have hcall : (disjoint_linestring_pred.call_no_interrupt c d g og s (lss.getD i [])).1 =
          (disjoint_linestring_pred.call c d g og s (lss.getD i [])).1 := rfl
      by_cases hi : (disjoint_linestring_pred.call c d g og s (lss.getD i [])).1.2.interrupt = true
      · have hc : (disjoint_linestring_pred.call c d g og s (lss.getD i [])).2 = false := by
          unfold disjoint_linestring_pred.call at hi ⊢
          simp only at hi ⊢
          rw [hi]
          simp
        rw [hc] at h
        simp only [Bool.not_false, if_true] at h
        subst h
        rw [hi] at hx
        cases hx
      · have hc : (disjoint_linestring_pred.call_no_interrupt c d g og s (lss.getD i [])).2 =
            (disjoint_linestring_pred.call c d g og s (lss.getD i [])).2 := by
          have hi' : (disjoint_linestring_pred.call c d g og s (lss.getD i [])).1.2.interrupt
              = false := by simpa using hi
          unfold disjoint_linestring_pred.call_no_interrupt
          simp only
          unfold disjoint_linestring_pred.call at hi' ⊢
          simp only at hi' ⊢
          rw [hi']
          simp
        rw [hc, hcall]
        split_ifs at h ⊢
        · exact h
        · exact ih _ _ _ _ h hx

theorem for_each_eq_no_interrupt_of_flag (c : collaborators P) (d : Nat) (ts : List (turn P))
    (g og : geometry P) (s : disjoint_linestring_pred × result)
    (x : (disjoint_linestring_pred × result) × Bool)
    (h : for_each_disjoint_linestring_if.apply d ts g (disjoint_linestring_pred.call c d g og) s
      = some x) (hx : x.1.2.interrupt = false) :
    for_each_disjoint_linestring_if.apply d ts g
      (disjoint_linestring_pred.call_no_interrupt c d g og) s = some x := by
  cases g with
  | linestring ls => exact h
  | multi_linestring lss =>
    simp only [for_each_disjoint_linestring_if.apply,
      for_each_disjoint_linestring_if.apply_multi] at h ⊢
    by_cases hem : ts.isEmpty = true
    · rw [if_pos hem] at h; cases h
    · rw [if_neg hem] at h ⊢
      cases e : for_each_disjoint_linestring_if.mark d lss.length ts
          (List.replicate lss.length false) with
      | none => rw [e] at h; cases h
      | some ds =>
        rw [e] at h
        simp only [Option.some.injEq] at h ⊢
        exact scan_eq_no_interrupt_of_flag c d _ og lss ds 0 s false x h hx

/-- A run that returns a matrix with the flag down took no short-circuit. -/
theorem apply_eq_no_interrupt_of_flag (c : collaborators P) (g1 g2 : geometry P) (r : result)
    (h : linear_linear.apply c g1 g2 = some r) (hr : r.interrupt = false) :
    linear_linear.apply_no_interrupt c g1 g2 = some r := by
  unfold linear_linear.apply at h
  unfold linear_linear.apply_no_interrupt
  simp only at h ⊢
  cases e1 : for_each_disjoint_linestring_if.apply 0 (c.get_turns g1 g2) g1
      (disjoint_linestring_pred.call c 0 g1 g2)
      (disjoint_linestring_pred.init,
        set field.exterior field.exterior (c.result_dimension g1) result.init) with
  | none => rw [e1] at h; cases h
  | some x1 =>
    rw [e1] at h
    simp only at h
    by_cases hi1 : x1.1.2.interrupt = true
    · rw [if_pos hi1] at h; cases h; rw [hi1] at hr; cases hr
    rw [if_neg hi1] at h
    rw [for_each_eq_no_interrupt_of_flag c 0 _ g1 g2 _ x1 e1 (by simpa using hi1)]
    simp only
    cases e2 : for_each_disjoint_linestring_if.apply 1 (c.get_turns g1 g2) g2
        (disjoint_linestring_pred.call c 1 g2 g1) (disjoint_linestring_pred.init, x1.1.2) with
    | none => rw [e2] at h; cases h
    | some x2 =>
      rw [e2] at h
      simp only at h
      by_cases hi2 : x2.1.2.interrupt = true
      · rw [if_pos hi2] at h; cases h; rw [hi2] at hr; cases hr
      rw [if_neg hi2] at h
      rw [for_each_eq_no_interrupt_of_flag c 1 _ g2 g1 _ x2 e2 (by simpa using hi2)]
      simp only
      by_cases hem : (c.get_turns g1 g2).isEmpty = true
      · rw [if_pos hem] at h ⊢; exact h
      rw [if_neg hem] at h ⊢
      cases e3 : analyse_each_turn c 0 x2.1.2 turns_analyser.init
          (c.sort_less_seg_dist_op 0 (c.get_turns g1 g2)) g1 g2 with
      | none => rw [e3] at h; cases h
      | some x3 =>
        rw [e3] at h
        simp only at h
        by_cases hi3 : x3.2.interrupt = true
        · rw [if_pos hi3] at h; cases h; rw [hi3] at hr; cases hr
        rw [if_neg hi3] at h
        rw [analyse_each_turn_eq_no_interrupt_of_flag c 0 _ g1 g2 _ _ x3 e3 (by simpa using hi3)]
        simp only
        cases e4 : analyse_each_turn c 1 x3.2 turns_analyser.init
            (c.sort_less_seg_dist_op 1 (c.sort_less_seg_dist_op 0 (c.get_turns g1 g2)))
            g2 g1 with
        | none => rw [e4] at h; cases h
        | some x4 =>
          rw [e4] at h
          simp only [Option.some.injEq] at h
          subst h
          rw [analyse_each_turn_eq_no_interrupt_of_flag c 1 _ g2 g1 _ _ x4 e4 hr]

/-! ### Single curves never fail -/

theorem loop_ready (c : collaborators P) (d : Nat) (ts : List (turn P)) (g og : geometry P)
    (hne : ts.isEmpty = false) (n : Nat) :
    ∀ (it : Nat) (st : turns_analyser P) (res : result), analyser_ready st it →
      ∃ x, analyse_each_turn.loop c d ts g og n it st res = some x := by
  induction n with
  | zero =>
    intro it st res hst
    obtain ⟨x, hx, -⟩ := turns_analyser_apply_ready c d st res ts it g og hne hst
    exact ⟨x, hx⟩
  | succ n ih =>
    intro it st res hst
    obtain ⟨x, hx, hx2⟩ := turns_analyser_apply_ready c d st res ts it g og hne hst
    simp only [analyse_each_turn.loop, hx]
    split_ifs
    · exact ⟨_, rfl⟩
    · exact ih _ _ _ hx2

theorem analyse_each_turn_ready (c : collaborators P) (d : Nat) (ts : List (turn P))
    (g og : geometry P) (res : result) :
    ∃ x, analyse_each_turn c d res turns_analyser.init ts g og = some x := by
  unfold analyse_each_turn
  cases hne : ts.isEmpty with
  | true => exact ⟨_, rfl⟩
  | false =>
    simp only [Bool.false_eq_true, if_false]
    exact loop_ready c d ts g og hne _ _ _ _ (analyser_ready_init 0)

/-- For two single curves `linear_linear::apply` returns a matrix: no assertion
fails. -/
theorem apply_linestring_returns (c : collaborators P) (la lb : List P) :
    ∃ r, linear_linear.apply c (geometry.linestring la) (geometry.linestring lb) = some r := by
  unfold linear_linear.apply
  simp only [for_each_disjoint_linestring_if.apply]
  split_ifs
  · exact ⟨_, rfl⟩
  · exact ⟨_, rfl⟩
  · exact ⟨_, rfl⟩
  · obtain ⟨x3, h3⟩ := analyse_each_turn_ready c 0
      (c.sort_less_seg_dist_op 0 (c.get_turns (geometry.linestring la) (geometry.linestring lb)))
      (geometry.linestring la) (geometry.linestring lb)
      (for_each_disjoint_linestring_if.apply_linestring
        (c.get_turns (geometry.linestring la) (geometry.linestring lb)) lb
        (disjoint_linestring_pred.call c 1 (geometry.linestring lb) (geometry.linestring la))
        (disjoint_linestring_pred.init,
          (for_each_disjoint_linestring_if.apply_linestring
            (c.get_turns (geometry.linestring la) (geometry.linestring lb)) la
            (disjoint_linestring_pred.call c 0 (geometry.linestring la) (geometry.linestring lb))
            (disjoint_linestring_pred.init,
              set field.exterior field.exterior (c.result_dimension (geometry.linestring la))
                result.init)).1.2)).1.2
    rw [h3]
    simp only
    split_ifs
    · exact ⟨_, rfl⟩
    · obtain ⟨x4, h4⟩ := analyse_each_turn_ready c 1
        (c.sort_less_seg_dist_op 1 (c.sort_less_seg_dist_op 0
          (c.get_turns (geometry.linestring la) (geometry.linestring lb))))
        (geometry.linestring lb) (geometry.linestring la) x3.2
      rw [h4]
      exact ⟨_, rfl⟩

/-! ### Curve classifier -/

theorem check_loop_point (eq : P → P → Bool) (f : P) (l : List P) :
    check_linestring_kind.loop eq f l = linestring_kind.linestring_point ↔
      ∀ p ∈ l, eq f p = true := by
  induction l with
  | nil => simp [check_linestring_kind.loop]
  | cons a l ih =>
    cases h : eq f a <;> simp [check_linestring_kind.loop, h, ih]

theorem check_loop_closed (eq : P → P → Bool) (f : P) (l : List P) :
    check_linestring_kind.loop eq f l = linestring_kind.linestring_closed ↔
      ∃ p ∈ l, eq f p = false := by
  induction l with
  | nil => simp [check_linestring_kind.loop]
  | cons a l ih =>
    cases h : eq f a <;> simp [check_linestring_kind.loop, h, ih]

theorem check_loop_cases (eq : P → P → Bool) (f : P) (l : List P) :
    check_linestring_kind.loop eq f l = linestring_kind.linestring_point ∨
    check_linestring_kind.loop eq f l = linestring_kind.linestring_closed := by
  induction l with
  | nil => simp [check_linestring_kind.loop]
  | cons a l ih =>
    cases h : eq f a <;> simp [check_linestring_kind.loop, h, ih]

theorem mem_tail_dropLast_iff (ls : List P) (p : P) :
    p ∈ ls.tail.dropLast ↔ ∃ i, 0 < i ∧ i + 1 < ls.length ∧ ls[i]? = some p := by
  constructor
  · intro h
    obtain ⟨j, hj, rfl⟩ := List.getElem_of_mem h
    have hj' : j < ls.tail.length - 1 := by simpa using hj
    simp only [List.length_tail] at hj'
    refine ⟨j + 1, by omega, by omega, ?_⟩
    rw [List.getElem_dropLast, List.getElem_tail]
    exact List.getElem?_eq_getElem (by omega)
  · rintro ⟨i, hi, hlt, hp⟩
    obtain ⟨k, rfl⟩ : ∃ k, i = k + 1 := ⟨i - 1, by omega⟩
    have h1 : k < ls.tail.dropLast.length := by simp; omega
    have : ls.tail.dropLast[k] = p := by
      rw [List.getElem_dropLast, List.getElem_tail]
      have hk : k + 1 < ls.length := by omega
      have h2 : ls[k + 1]? = some ls[k + 1] := List.getElem?_eq_getElem hk
      rw [h2] at hp
      exact Option.some.inj hp
    rw [← this]
    exact List.getElem_mem _

/-- C1: `check_linestring_kind` is a total function whose four results are
characterised by the number of points, the equality of the first and the last
point, and the equality of the first point with every point strictly between
them; two points with equal ends give `linestring_point`, never
`linestring_closed`. -/
theorem check_linestring_kind_characterised (eq : P → P → Bool) (ls : List P) :
    (check_linestring_kind eq ls = linestring_kind.linestring_exterior ↔ ls.length = 0) ∧
    (check_linestring_kind eq ls = linestring_kind.linestring_point ↔
      ls.length = 1 ∨ (2 ≤ ls.length ∧ eq (range.front ls) (range.back ls) = true ∧
        ∀ i p, 0 < i → i + 1 < ls.length → ls[i]? = some p → eq (range.front ls) p = true)) ∧
    (check_linestring_kind eq ls = linestring_kind.linestring_closed ↔
      2 ≤ ls.length ∧ eq (range.front ls) (range.back ls) = true ∧
        ∃ i p, 0 < i ∧ i + 1 < ls.length ∧ ls[i]? = some p ∧ eq (range.front ls) p = false) ∧
    (check_linestring_kind eq ls = linestring_kind.linestring_open ↔
      2 ≤ ls.length ∧ eq (range.front ls) (range.back ls) = false) ∧
    (∀ a b : P, eq a b = true →
      check_linestring_kind eq [a, b] = linestring_kind.linestring_point) ∧
    (∀ a b : P, check_linestring_kind eq [a, b] ≠ linestring_kind.linestring_closed) := by
  have hall : (∀ p ∈ ls.tail.dropLast, eq (range.front ls) p = true) ↔
      ∀ i p, 0 < i → i + 1 < ls.length → ls[i]? = some p → eq (range.front ls) p = true := by
    constructor
    · intro h i p h0 h1 hp
      exact h p ((mem_tail_dropLast_iff ls p).2 ⟨i, h0, h1, hp⟩)
    · intro h p hp
      obtain ⟨i, h0, h1, hi⟩ := (mem_tail_dropLast_iff ls p).1 hp
      exact h i p h0 h1 hi
  have hex : (∃ p ∈ ls.tail.dropLast, eq (range.front ls) p = false) ↔
      ∃ i p, 0 < i ∧ i + 1 < ls.length ∧ ls[i]? = some p ∧ eq (range.front ls) p = false := by
    constructor
    · rintro ⟨p, hp, he⟩
      obtain ⟨i, h0, h1, hi⟩ := (mem_tail_dropLast_iff ls p).1 hp
      exact ⟨i, p, h0, h1, hi, he⟩
    · rintro ⟨i, p, h0, h1, hi, he⟩
      exact ⟨p, (mem_tail_dropLast_iff ls p).2 ⟨i, h0, h1, hi⟩, he⟩
  refine ⟨?_, ?_, ?_, ?_, ?_, ?_⟩
  · unfold check_linestring_kind
    by_cases h0 : ls.length = 0
    · simp [h0]
    · by_cases h1 : ls.length = 1
      · simp [h0, h1]
      · cases hfb : eq (range.front ls) (range.back ls)
        · simp [h0, h1, hfb]
        · rcases check_loop_cases eq (range.front ls) ls.tail.dropLast with h | h <;>
            simp [h0, h1, hfb, h]
  · rw [← hall, ← check_loop_point]
    unfold check_linestring_kind
    by_cases h0 : ls.length = 0
    · simp [h0]
    · by_cases h1 : ls.length = 1
      · simp [h0, h1]
      · have h2 : 2 ≤ ls.length := by omega
        cases hfb : eq (range.front ls) (range.back ls) <;> simp [h0, h1, hfb, h2]
  · rw [← hex, ← check_loop_closed]
    unfold check_linestring_kind
    by_cases h0 : ls.length = 0
    · simp [h0]
    · by_cases h1 : ls.length = 1
      · simp [h0, h1]
      · have h2 : 2 ≤ ls.length := by omega
        cases hfb : eq (range.front ls) (range.back ls) <;> simp [h0, h1, hfb, h2]
  · unfold check_linestring_kind
    by_cases h0 : ls.length = 0
    · simp [h0]
    · by_cases h1 : ls.length = 1
      · simp [h0, h1]
      · have h2 : 2 ≤ ls.length := by omega
        cases hfb : eq (range.front ls) (range.back ls)
        · simp [h0, h1, hfb, h2]
        · rcases check_loop_cases eq (range.front ls) ls.tail.dropLast with h | h <;>
            simp [h0, h1, hfb, h]
  · intro a b hab
    simp [check_linestring_kind, range.front, range.back, hab, check_linestring_kind.loop]
  · intro a b
    cases hab : eq a b <;>
      simp [check_linestring_kind, range.front, range.back, hab, check_linestring_kind.loop]

/-! ### Exit watcher -/

/-- The iterator returned by `find_if` splits the pending entries: nothing before
it is in the range of `other_id`, the entry at it is, and erasing it keeps the
rest in order. -/
theorem find_if_split (other_id : segment_identifier) (l : List (point_identifier P))
    (h : ∃ e ∈ l, same_ranges other_id e.seg_id = true) :
    ∃ pre e post, l = pre ++ e :: post ∧
      (∀ x ∈ pre, same_ranges other_id x.seg_id = false) ∧
      same_ranges other_id e.seg_id = true ∧
      find_if other_id l = pre.length ∧
      l.eraseIdx (find_if other_id l) = pre ++ post := by
  induction l with
  | nil => simp at h
  | cons a l ih =>
    cases ha : same_ranges other_id a.seg_id
    · have h' : ∃ e ∈ l, same_ranges other_id e.seg_id = true := by
        obtain ⟨e, he, hs⟩ := h
        rcases List.mem_cons.1 he with rfl | he
        · rw [ha] at hs; cases hs
        · exact ⟨e, he, hs⟩
      obtain ⟨pre, e, post, hl, hpre, he, hf, her⟩ := ih h'
      refine ⟨a :: pre, e, post, by simp [hl], ?_, he, ?_, ?_⟩
      · intro x hx
        rcases List.mem_cons.1 hx with rfl | hx
        · exact ha
        · exact hpre x hx
      · simp [find_if, ha, hf]
      · simp [find_if, ha, her]
    · exact ⟨[], a, l, rfl, by simp, ha, by simp [find_if, ha], by simp [find_if, ha]⟩

/-- C10: when some pending entry lies in the range of `other_id` (equal
component and sub-ring index), `exit_watcher::exit` returns false, removes the
earliest such entry and no other, keeps the remaining entries in order and
stores `(point, exit_op)` as the pending exit. -/
theorem exit_watcher_exit_matching (w : exit_watcher P) (point : P)
    (other_id : segment_identifier) (exit_op : operation_type)
    (h : ∃ e ∈ w.other_entry_points, e.seg_id.multi_index = other_id.multi_index ∧
      e.seg_id.ring_index = other_id.ring_index) :
    ∃ pre e post, w.other_entry_points = pre ++ e :: post ∧
      (∀ x ∈ pre, ¬ (x.seg_id.multi_index = other_id.multi_index ∧
        x.seg_id.ring_index = other_id.ring_index)) ∧
      (e.seg_id.multi_index = other_id.multi_index ∧
        e.seg_id.ring_index = other_id.ring_index) ∧
      (w.exit point other_id exit_op).1 = false ∧
      (w.exit point other_id exit_op).2.other_entry_points = pre ++ post ∧
      (w.exit point other_id exit_op).2.exit_operation = exit_op ∧
      (w.exit point other_id exit_op).2.exit_id.map (fun i => (i.seg_id, i.point)) =
        some (other_id, point) := by
  have h' : ∃ e ∈ w.other_entry_points, same_ranges other_id e.seg_id = true := by
    obtain ⟨e, he, h1, h2⟩ := h
    exact ⟨e, he, by simp [same_ranges, h1, h2]⟩
  obtain ⟨pre, e, post, hl, hpre, he, hf, her⟩ := find_if_split other_id w.other_entry_points h'
  have hne : w.other_entry_points.isEmpty = false := by rw [hl]; cases pre <;> rfl
  have hlen : find_if other_id w.other_entry_points ≠ w.other_entry_points.length := by
    rw [hf, hl]; simp
  refine ⟨pre, e, post, hl, ?_, ?_, ?_, ?_, ?_, ?_⟩
  · intro x hx hc
    have := hpre x hx
    simp [same_ranges, hc.1, hc.2] at this
  · simpa [same_ranges] using he
  · simp [exit_watcher.exit, hne, hlen]
  · simp [exit_watcher.exit, hne, hlen, her]
  · simp [exit_watcher.exit, hne, hlen]
  · simp [exit_watcher.exit, hne, hlen]

/-- Witness of C10 on a watcher with two pending entries of different components. -/
theorem exit_watcher_exit_matching_witness :
    ∃ pre e post,
      ({ exit_operation := operation_type.operation_none, exit_id := none,
         other_entry_points := [⟨⟨1, 0, -1, 0⟩, (0 : Nat)⟩, ⟨⟨1, 1, -1, 3⟩, 5⟩] } :
        exit_watcher Nat).other_entry_points = pre ++ e :: post ∧
      (∀ x ∈ pre, ¬ (x.seg_id.multi_index = (⟨1, 1, -1, 7⟩ : segment_identifier).multi_index ∧
        x.seg_id.ring_index = (⟨1, 1, -1, 7⟩ : segment_identifier).ring_index)) ∧
      (e.seg_id.multi_index = (⟨1, 1, -1, 7⟩ : segment_identifier).multi_index ∧
        e.seg_id.ring_index = (⟨1, 1, -1, 7⟩ : segment_identifier).ring_index) ∧
      (exit_watcher.exit ⟨operation_type.operation_none, none,
        [⟨⟨1, 0, -1, 0⟩, (0 : Nat)⟩, ⟨⟨1, 1, -1, 3⟩, 5⟩]⟩ 9 ⟨1, 1, -1, 7⟩
          operation_type.operation_union).1 = false ∧
      (exit_watcher.exit ⟨operation_type.operation_none, none,
        [⟨⟨1, 0, -1, 0⟩, (0 : Nat)⟩, ⟨⟨1, 1, -1, 3⟩, 5⟩]⟩ 9 ⟨1, 1, -1, 7⟩
          operation_type.operation_union).2.other_entry_points = pre ++ post ∧
      (exit_watcher.exit ⟨operation_type.operation_none, none,
        [⟨⟨1, 0, -1, 0⟩, (0 : Nat)⟩, ⟨⟨1, 1, -1, 3⟩, 5⟩]⟩ 9 ⟨1, 1, -1, 7⟩
          operation_type.operation_union).2.exit_operation = operation_type.operation_union ∧
      (exit_watcher.exit ⟨operation_type.operation_none, none,
        [⟨⟨1, 0, -1, 0⟩, (0 : Nat)⟩, ⟨⟨1, 1, -1, 3⟩, 5⟩]⟩ 9 ⟨1, 1, -1, 7⟩
          operation_type.operation_union).2.exit_id.map (fun i => (i.seg_id, i.point)) =
        some (⟨1, 1, -1, 7⟩, 9) :=
  exit_watcher_exit_matching _ 9 ⟨1, 1, -1, 7⟩ operation_type.operation_union
    ⟨⟨⟨1, 1, -1, 3⟩, 5⟩, by simp, by decide⟩

/-! ### Interrupt short-circuits -/

theorem quiet_initial (v : code) :
    quiet (set field.exterior field.exterior v result.init) := by
  refine ⟨rfl, ?_⟩
  simp [set, result.init, code.rank]

/-- Under a sound interrupt policy the short-circuits change nothing. -/
theorem apply_eq_no_interrupt_of_sound (c : collaborators P) (g1 g2 : geometry P)
    (hs : interrupt_sound c.full) :
    linear_linear.apply c g1 g2 = linear_linear.apply_no_interrupt c g1 g2 := by
  unfold linear_linear.apply linear_linear.apply_no_interrupt
  simp only
  obtain ⟨e1, q1⟩ := for_each_eq_no_interrupt c hs 0 (c.get_turns g1 g2) g1 g2
    (disjoint_linestring_pred.init,
      set field.exterior field.exterior (c.result_dimension g1) result.init)
    (quiet_initial _)
  rw [← e1]
  cases h1 : for_each_disjoint_linestring_if.apply 0 (c.get_turns g1 g2) g1
      (disjoint_linestring_pred.call c 0 g1 g2)
      (disjoint_linestring_pred.init,
        set field.exterior field.exterior (c.result_dimension g1) result.init) with
  | none => rfl
  | some x1 =>
    have hq1 := q1 x1 h1
    simp only [hq1.1, Bool.false_eq_true, if_false]
    obtain ⟨e2, q2⟩ := for_each_eq_no_interrupt c hs 1 (c.get_turns g1 g2) g2 g1
      (disjoint_linestring_pred.init, x1.1.2) hq1
    rw [← e2]
    cases h2 : for_each_disjoint_linestring_if.apply 1 (c.get_turns g1 g2) g2
        (disjoint_linestring_pred.call c 1 g2 g1) (disjoint_linestring_pred.init, x1.1.2) with
    | none => rfl
    | some x2 =>
      have hq2 := q2 x2 h2
      simp only [hq2.1, Bool.false_eq_true, if_false]
      by_cases hem : (c.get_turns g1 g2).isEmpty = true
      · simp only [hem, if_true]
      simp only [hem, if_false]
      obtain ⟨sa, sb, r3, a3, b3, g3⟩ := analyse_each_turn_eq_no_interrupt c hs 0
        (c.sort_less_seg_dist_op 0 (c.get_turns g1 g2)) g1 g2 x2.1.2
        (fun h => by rw [hq2.1] at h; cases h)
      rw [a3, b3]
      simp only
      by_cases hi3 : r3.interrupt = true
      · obtain ⟨st', h'⟩ := analyse_each_turn_no_interrupt_saturated c 1
          (c.sort_less_seg_dist_op 1 (c.sort_less_seg_dist_op 0 (c.get_turns g1 g2))) g2 g1 r3
          hi3 (g3 hi3)
        rw [h']
        simp [hi3]
      · obtain ⟨sa', sb', r4, a4, b4, -⟩ := analyse_each_turn_eq_no_interrupt c hs 1
          (c.sort_less_seg_dist_op 1 (c.sort_less_seg_dist_op 0 (c.get_turns g1 g2))) g2 g1 r3 g3
        rw [a4, b4]
        simp [hi3]

/-! ### Exchanging the geometries -/

theorem transpose_transpose (r : result) : r.transpose.transpose = r := rfl

theorem set_exterior_transpose (v : code) :
    (set field.exterior field.exterior v result.init).transpose =
      set field.exterior field.exterior v result.init := by
  rw [result.ext_iff']
  refine ⟨fun a b => ?_, rfl⟩
  simp only [result.transpose, set, result.init]
  simp only [and_comm]

theorem flag_initial (full : (field → field → code) → Bool) (hs : interrupt_sound full)
    (v : code) :
    (set field.exterior field.exterior v result.init).interrupt =
      full (set field.exterior field.exterior v result.init).cells := by
  rw [not_full_of_rank full hs _ (quiet_initial v).2]
  rfl

/-- Two mirrored passes after one another do, on the transposed matrix, what the
two original passes do in the opposite order. -/
theorem mirrored_pair (full : (field → field → code) → Bool)
    (M1 M2 M1' M2' : result → Option result)
    (h1 : pass_joins M1) (h2 : pass_joins M2)
    (k1 : ∀ r r', r.interrupt = full r.cells → M1 r = some r' → r'.interrupt = full r'.cells)
    (k2 : ∀ r r', r.interrupt = full r.cells → M2 r = some r' → r'.interrupt = full r'.cells)
    (m1 : pass_mirror M1' M1) (m2 : pass_mirror M2' M2)
    (r : result) (hr : r.interrupt = full r.cells) :
    (M2' r.transpose).bind M1' = ((M1 r).bind M2).map result.transpose := by
  rw [passes_commute full M1 M2 h1 h2 k1 k2 r hr, pass_mirror_eq m2]
  cases M2 r with
  | none => rfl
  | some x =>
    simp only [Option.map_some', Option.some_bind]
    exact pass_mirror_eq m1 x

/-- C2: exchanging the two geometries transposes the returned matrix, when the
collaborators are symmetric: the turn list of the exchanged geometries is the
side-swapped turn list, its two sort orders are the side-swapped sort orders of
the other direction, the oracles are asked about the same geometries, and the
matrix collaborator (base dimension and interrupt test) does not tell the two
geometries apart and raises the flag only on a saturated matrix. -/
theorem apply_swap_transpose (c : collaborators P) (g1 g2 : geometry P)
    (hs : interrupt_sound c.full)
    (hsym : ∀ m : field → field → code, c.full (fun a b => m b a) = c.full m)
    (hdim : c.result_dimension g2 = c.result_dimension g1)
    (hturns : c.get_turns g2 g1 = (c.get_turns g1 g2).map turn.swap)
    (hsort0 : c.sort_less_seg_dist_op 0 (c.get_turns g2 g1) =
      (c.sort_less_seg_dist_op 1 (c.sort_less_seg_dist_op 0 (c.get_turns g1 g2))).map turn.swap)
    (hsort1 : c.sort_less_seg_dist_op 1 (c.sort_less_seg_dist_op 0 (c.get_turns g2 g1)) =
      (c.sort_less_seg_dist_op 0 (c.get_turns g1 g2)).map turn.swap) :
    linear_linear.apply c g1 g2 = (linear_linear.apply c g2 g1).map result.transpose := by
  rw [apply_eq_no_interrupt_of_sound c g1 g2 hs, apply_eq_no_interrupt_of_sound c g2 g1 hs,
    apply_no_interrupt_eq_passes, apply_no_interrupt_eq_passes, hsort1, hsort0, hturns, hdim]
  have h0 := flag_initial c.full hs (c.result_dimension g1)
  have e0 : set field.exterior field.exterior (c.result_dimension g1) result.init =
      (set field.exterior field.exterior (c.result_dimension g1) result.init).transpose :=
    (set_exterior_transpose _).symm
  have hS := mirrored_pair c.full
    (scanner_pass c 0 (c.get_turns g1 g2) g1 g2) (scanner_pass c 1 (c.get_turns g1 g2) g2 g1)
    (scanner_pass c 1 ((c.get_turns g1 g2).map turn.swap) g1 g2)
    (scanner_pass c 0 ((c.get_turns g1 g2).map turn.swap) g2 g1)
    (scanner_pass_joins c _ _ _ _) (scanner_pass_joins c _ _ _ _)
    (fun r r' => scanner_pass_flag c hs _ _ _ _ r r')
    (fun r r' => scanner_pass_flag c hs _ _ _ _ r r')
    (scanner_pass_mirror c hsym _ g1 g2).2 (scanner_pass_mirror c hsym _ g2 g1).1
    _ h0
  rw [← e0] at hS
  rw [hS]
  have hem : ((c.get_turns g1 g2).map turn.swap).isEmpty = (c.get_turns g1 g2).isEmpty := by
    cases c.get_turns g1 g2 <;> rfl
  rw [hem]
  cases e1 : scanner_pass c 0 (c.get_turns g1 g2) g1 g2
      (set field.exterior field.exterior (c.result_dimension g1) result.init) with
  | none => rfl
  | some r1 =>
    have f1 := scanner_pass_flag c hs _ _ _ _ _ r1 h0 e1
    simp only [Option.some_bind]
    cases e2 : scanner_pass c 1 (c.get_turns g1 g2) g2 g1 r1 with
    | none => rfl
    | some r2 =>
      have f2 := scanner_pass_flag c hs _ _ _ _ _ r2 f1 e2
      simp only [Option.map_some', Option.some_bind]
      split_ifs
      · rfl
      · have hA := mirrored_pair c.full
          (analyser_pass c 0 (c.sort_less_seg_dist_op 0 (c.get_turns g1 g2)) g1 g2)
          (analyser_pass c 1
            (c.sort_less_seg_dist_op 1 (c.sort_less_seg_dist_op 0 (c.get_turns g1 g2))) g2 g1)
          (analyser_pass c 1
            ((c.sort_less_seg_dist_op 0 (c.get_turns g1 g2)).map turn.swap) g1 g2)
          (analyser_pass c 0
            ((c.sort_less_seg_dist_op 1 (c.sort_less_seg_dist_op 0 (c.get_turns g1 g2))).map
              turn.swap) g2 g1)
          (analyser_pass_joins c _ _ _ _) (analyser_pass_joins c _ _ _ _)
          (fun r r' => analyser_pass_flag c hs _ _ _ _ r r')
          (fun r r' => analyser_pass_flag c hs _ _ _ _ r r')
          (analyser_pass_mirror c hsym _ g1 g2).2 (analyser_pass_mirror c hsym _ g2 g1).1
          r2 f2
        rw [hA, Option.map_map]
        have : (result.transpose ∘ result.transpose) = id := rfl
        rw [this, Option.map_id, id]

/-! ### Facts used by the closed examples -/

@[simp] theorem turn.op_zero (t : turn P) : t.op 0 = t.operations.1 := rfl

@[simp] theorem turn.op_one (t : turn P) : t.op 1 = t.operations.2 := rfl

theorem example_full_sound : interrupt_sound example_full := by
  intro m h
  exact of_decide_eq_true h

theorem example_full_symmetric (m : field → field → code) :
    example_full (fun a b => m b a) = example_full m := by
  simp only [example_full, engine_writes, List.forall_mem_cons, List.not_mem_nil,
    IsEmpty.forall_iff, implies_true, and_true, decide_eq_decide]
  tauto

/-- Witness of C2 on a segment whose last point touches the interior of another. -/
theorem apply_swap_transpose_witness :
    linear_linear.apply
        (example_collaborators
          (fun a _ => if a = geometry.linestring [(0, 0), (1, 0)] then [touch_turn]
            else [touch_turn.swap]) example_full)
        (geometry.linestring [(0, 0), (1, 0)]) (geometry.linestring [(1, -1), (1, 1)]) =
      (linear_linear.apply
        (example_collaborators
          (fun a _ => if a = geometry.linestring [(0, 0), (1, 0)] then [touch_turn]
            else [touch_turn.swap]) example_full)
        (geometry.linestring [(1, -1), (1, 1)]) (geometry.linestring [(0, 0), (1, 0)])).map
        result.transpose :=
  apply_swap_transpose _ _ _ example_full_sound example_full_symmetric rfl rfl rfl rfl

/-! ### Monotonicity -/

theorem le_update_invariant (full : (field → field → code) → Bool) (res0 : result)
    (W : List (field × field × Nat)) (tr : Bool) :
    ∀ u ∈ W, ∀ r, result.le res0 r → result.le res0 (update full u.1 u.2.1 u.2.2 tr r) :=
  fun u _ r h => result.le_trans h (update_le full u.1 u.2.1 u.2.2 tr r)

/-- C3: every operation of the engine only upgrades the matrix: one `update`,
one call of the disjoint predicate, one call of the analyser, the stream-end
finalization and the whole relate call after its initial `set` leave every
cell at least as high as before in the order unset, `'0'`, `'1'`; so no cell
goes from `'1'` back to `'0'` or from set to unset. -/
theorem matrix_monotone (c : collaborators P) :
    (∀ f1 f2 d tr res, result.le res (update c.full f1 f2 d tr res)) ∧
    (∀ OpId bc og s ls,
      result.le s.2 (disjoint_linestring_pred.call c OpId bc og s ls).1.2) ∧
    (∀ OpId st res ts it g og x,
      turns_analyser.apply c OpId st res ts it g og = some x → result.le res x.2) ∧
    (∀ OpId st res ts g r,
      turns_analyser.at_last c OpId (OpId != 0) st res ts g = some r → result.le res r) ∧
    (∀ g1 g2 r, linear_linear.apply c g1 g2 = some r →
      result.le (set field.exterior field.exterior (c.result_dimension g1) result.init) r) ∧
    (∀ r r' : result, result.le r r' → ∀ a b,
      (r.cells a b = code.dim 1 → r'.cells a b ≠ code.dim 0) ∧
      (r.cells a b ≠ code.F → r'.cells a b ≠ code.F)) := by
  refine ⟨fun f1 f2 d tr res => update_le c.full f1 f2 d tr res, ?_, ?_, ?_, ?_, ?_⟩
  · intro OpId bc og s ls
    exact disjoint_linestring_pred_call_invariant c OpId bc og (result.le s.2)
      (le_update_invariant c.full s.2 _ _) s ls (result.le_refl _)
  · intro OpId st res ts it g og x hx
    exact turns_analyser_apply_invariant c OpId ts g og st x.1 it (result.le res) res x.2
      (le_update_invariant c.full res _ _) (result.le_refl _) hx
  · intro OpId st res ts g r hr
    have := at_last_corresponds c (OpId != 0) (OpId != 0) (fun x _ => result.le res x)
      (update_closed_of_invariant c.full _ _ _ (le_update_invariant c.full res _ _))
      OpId OpId ts ts rfl g st res res (result.le_refl _)
    rw [hr] at this
    exact corresponds_some.1 this
  · intro g1 g2 r hr
    exact linear_linear_apply_invariant c g1 g2 _
      (fun u hu tr x hx => le_update_invariant c.full _ _ tr u hu x hx) (result.le_refl _) r hr
  · intro r r' h a b
    have hab := h a b
    constructor
    · intro h1 h0
      rw [h1, h0] at hab
      simp [code.rank] at hab
    · intro h1 h0
      rw [h0] at hab
      cases hc : r.cells a b with
      | F => exact h1 hc
      | T => rw [hc] at hab; simp [code.rank] at hab
      | dim n => rw [hc] at hab; simp [code.rank] at hab

/-- Witness of C3: the matrix returned for the crossing segments lies above the
initial matrix. -/
theorem matrix_monotone_witness :
    result.le (set field.exterior field.exterior (code.dim 1) result.init)
      ((linear_linear.apply (example_collaborators (fun _ _ => [crossing_turn]) example_full)
        (geometry.linestring [(0, 0), (2, 0)]) (geometry.linestring [(1, -1), (1, 1)])).get
        (by decide)) :=
  (matrix_monotone (example_collaborators (fun _ _ => [crossing_turn]) example_full)).2.2.2.2.1
    _ _ _ (Option.some_get (by decide)).symm

/-! ### Interrupt short-circuits are an optimization -/

/-- C4: when the interrupt flag is raised only if no further update can change
a cell, `linear_linear::apply` returns what the same procedure returns with
every interrupt short-circuit removed. -/
theorem apply_eq_apply_no_interrupt (c : collaborators P) (g1 g2 : geometry P)
    (hs : interrupt_sound c.full) :
    linear_linear.apply c g1 g2 = linear_linear.apply_no_interrupt c g1 g2 :=
  apply_eq_no_interrupt_of_sound c g1 g2 hs

/-- Witness of C4: the flag is raised after the second turn of direction 0 and the
run without short-circuits returns the same matrix. -/
theorem apply_eq_apply_no_interrupt_witness :
    interrupt_sound example_full ∧
    (linear_linear.apply (example_collaborators (fun _ _ => saturating_turns) example_full)
      saturating_a saturating_b).map (fun r => r.interrupt) = some true ∧
    linear_linear.apply (example_collaborators (fun _ _ => saturating_turns) example_full)
        saturating_a saturating_b =
      linear_linear.apply_no_interrupt
        (example_collaborators (fun _ _ => saturating_turns) example_full)
        saturating_a saturating_b :=
  ⟨example_full_sound, by decide,
    apply_eq_apply_no_interrupt _ saturating_a saturating_b example_full_sound⟩

/-! ### Geometries without turns -/

/-- C5: a multi-curve geometry with an empty turn list makes
`linear_linear::apply` fail the assertion `first != last` of the multi-curve
scanner. -/
theorem apply_multi_linestring_no_turns_fails :
    linear_linear.apply (example_collaborators (fun _ _ => []) fun _ => false)
      (geometry.multi_linestring [[(0, 0), (1, 0)]]) (geometry.linestring [(0, 5), (1, 5)])
      = none := by
  rfl

/-! ### Concrete cases -/

/-- C6: two single open curves without turns whose end points are boundary
points: the matrix has `(I,E) = '1'` and `(B,E) = '0'`, the transposed cells
`(E,I) = '1'` and `(E,B) = '0'`, and the four cells between interiors and
boundaries unset, when no interrupt is raised. -/
theorem disjoint_open_segments (c : collaborators P) (la lb : List P)
    (hA : check_linestring_kind c.equals_point_point la = linestring_kind.linestring_open)
    (hB : check_linestring_kind c.equals_point_point lb = linestring_kind.linestring_open)
    (hturns : c.get_turns (geometry.linestring la) (geometry.linestring lb) = [])
    (hAf : c.is_endpoint_boundary (geometry.linestring la) boundary_query.boundary_front
      (range.front la) = true)
    (hAb : c.is_endpoint_boundary (geometry.linestring la) boundary_query.boundary_back
      (range.back la) = true)
    (hBf : c.is_endpoint_boundary (geometry.linestring lb) boundary_query.boundary_front
      (range.front lb) = true)
    (hBb : c.is_endpoint_boundary (geometry.linestring lb) boundary_query.boundary_back
      (range.back lb) = true) :
    ∃ r, linear_linear.apply c (geometry.linestring la) (geometry.linestring lb) = some r ∧
      (r.interrupt = false →
        r.cells field.interior field.exterior = code.dim 1 ∧
        r.cells field.boundary field.exterior = code.dim 0 ∧
        r.cells field.exterior field.interior = code.dim 1 ∧
        r.cells field.exterior field.boundary = code.dim 0 ∧
        r.cells field.interior field.interior = code.F ∧
        r.cells field.interior field.boundary = code.F ∧
        r.cells field.boundary field.interior = code.F ∧
        r.cells field.boundary field.boundary = code.F ∧
        r.cells field.exterior field.exterior =
          c.result_dimension (geometry.linestring la)) := by
  simp only [linear_linear.apply, hturns, for_each_disjoint_linestring_if.apply,
    for_each_disjoint_linestring_if.apply_linestring, disjoint_linestring_pred.call, hA, hB,
    disjoint_linestring_pred.init, hAf, hAb, hBf, hBb]
  simp
  split
  · rename_i hi
    exact ⟨_, rfl, fun h => by rw [h] at hi; cases hi⟩
  · exact ⟨_, rfl, fun _ => by simp [update, set, result.init, code.upgrade]⟩

/-- Witness of C6 on `A = [(0,0),(1,0)]` and `B = [(0,5),(1,5)]`. -/
theorem disjoint_open_segments_witness :
    ∃ r, linear_linear.apply (example_collaborators (fun _ _ => []) fun _ => false)
        (geometry.linestring [(0, 0), (1, 0)]) (geometry.linestring [(0, 5), (1, 5)]) = some r ∧
      (r.interrupt = false →
        r.cells field.interior field.exterior = code.dim 1 ∧
        r.cells field.boundary field.exterior = code.dim 0 ∧
        r.cells field.exterior field.interior = code.dim 1 ∧
        r.cells field.exterior field.boundary = code.dim 0 ∧
        r.cells field.interior field.interior = code.F ∧
        r.cells field.interior field.boundary = code.F ∧
        r.cells field.boundary field.interior = code.F ∧
        r.cells field.boundary field.boundary = code.F ∧
        r.cells field.exterior field.exterior = code.dim 1) :=
  disjoint_open_segments (example_collaborators (fun _ _ => []) fun _ => false)
    [(0, 0), (1, 0)] [(0, 5), (1, 5)] (by decide) (by decide) rfl (by decide) (by decide)
    (by decide) (by decide)

/-- C7: two single curves with one turn of method crosses and operation union
on both sides, whose end points are boundary points: the matrix has
`(I,I) = '0'`, `(I,E) = '1'`, `(B,E) = '0'`, `(E,I) = '1'`, `(E,B) = '0'` and
leaves `(B,B)`, `(B,I)` and `(I,B)` unset, when no interrupt is raised. -/
theorem transversal_crossing (c : collaborators P) (la lb : List P) (t : turn P)
    (hturns : c.get_turns (geometry.linestring la) (geometry.linestring lb) = [t])
    (hs0 : c.sort_less_seg_dist_op 0 [t] = [t])
    (hs1 : c.sort_less_seg_dist_op 1 [t] = [t])
    (hm : t.method = method_type.method_crosses)
    (h0 : t.operations.1.operation = operation_type.operation_union)
    (h1 : t.operations.2.operation = operation_type.operation_union)
    (hAf : c.is_endpoint_boundary (geometry.linestring la) boundary_query.boundary_front
      (range.front la) = true)
    (hAb : c.is_endpoint_boundary (geometry.linestring la) boundary_query.boundary_back
      (range.back la) = true)
    (hBf : c.is_endpoint_boundary (geometry.linestring lb) boundary_query.boundary_front
      (range.front lb) = true)
    (hBb : c.is_endpoint_boundary (geometry.linestring lb) boundary_query.boundary_back
      (range.back lb) = true) :
    ∃ r, linear_linear.apply c (geometry.linestring la) (geometry.linestring lb) = some r ∧
      (r.interrupt = false →
        r.cells field.interior field.interior = code.dim 0 ∧
        r.cells field.interior field.exterior = code.dim 1 ∧
        r.cells field.boundary field.exterior = code.dim 0 ∧
        r.cells field.exterior field.interior = code.dim 1 ∧
        r.cells field.exterior field.boundary = code.dim 0 ∧
        r.cells field.boundary field.boundary = code.F ∧
        r.cells field.boundary field.interior = code.F ∧
        r.cells field.interior field.boundary = code.F) := by
  obtain ⟨r, hr⟩ := apply_linestring_returns c la lb
  refine ⟨r, hr, fun hi => ?_⟩
  have h := apply_eq_no_interrupt_of_flag c _ _ r hr hi
  simp [linear_linear.apply_no_interrupt, hturns, for_each_disjoint_linestring_if.apply,
    for_each_disjoint_linestring_if.apply_linestring, hs0, hs1, analyse_each_turn_no_interrupt,
    analyse_each_turn.loop_no_interrupt, turns_analyser.apply, turns_analyser.init, h0, h1, hm,
    turns_analyser.handle_possible_exit, turns_analyser.check_previous_range,
    turns_analyser.on_union_or_blocked, turns_analyser.at_last,
    exit_watcher.init, segment_watcher.init, segment_watcher.update, exit_watcher.exit,
    exit_watcher.get_exit_operation, sub_geometry.get, hAf, hAb, hBf, hBb] at h
  subst h
  simp [update, set, result.init, code.upgrade]

/-- Witness of C7 on `A = [(0,0),(2,0)]` and `B = [(1,-1),(1,1)]`. -/
theorem transversal_crossing_witness :
    ∃ r, linear_linear.apply (example_collaborators (fun _ _ => [crossing_turn]) fun _ => false)
        (geometry.linestring [(0, 0), (2, 0)]) (geometry.linestring [(1, -1), (1, 1)])
        = some r ∧
      (r.interrupt = false →
        r.cells field.interior field.interior = code.dim 0 ∧
        r.cells field.interior field.exterior = code.dim 1 ∧
        r.cells field.boundary field.exterior = code.dim 0 ∧
        r.cells field.exterior field.interior = code.dim 1 ∧
        r.cells field.exterior field.boundary = code.dim 0 ∧
        r.cells field.boundary field.boundary = code.F ∧
        r.cells field.boundary field.interior = code.F ∧
        r.cells field.interior field.boundary = code.F) :=
  transversal_crossing (example_collaborators (fun _ _ => [crossing_turn]) fun _ => false)
    [(0, 0), (2, 0)] [(1, -1), (1, 1)] crossing_turn rfl rfl rfl rfl rfl rfl
    (by decide) (by decide) (by decide) (by decide)

/-- C8: two single curves with one turn of method touch-interior, blocked on
side 0 and union on side 1, whose point is an end-point boundary of `A` and
no boundary point of `B`: the matrix has `(B,I) = '0'` and `(I,E) = '1'`, and
`(B,I)` is the cell the transposed matrix shows as `(I,B)`, when no interrupt
is raised. -/
theorem t_intersection (c : collaborators P) (la lb : List P) (t : turn P)
    (hturns : c.get_turns (geometry.linestring la) (geometry.linestring lb) = [t])
    (hs0 : c.sort_less_seg_dist_op 0 [t] = [t])
    (hs1 : c.sort_less_seg_dist_op 1 [t] = [t])
    (hm : t.method = method_type.method_touch_interior)
    (h0 : t.operations.1.operation = operation_type.operation_blocked)
    (h1 : t.operations.2.operation = operation_type.operation_union)
    (hA : c.is_endpoint_boundary (geometry.linestring la) boundary_query.boundary_back
      t.point = true)
    (hB : ∀ q, c.is_boundary (geometry.linestring lb) q t.point t.operations.2.seg_id = false) :
    ∃ r, linear_linear.apply c (geometry.linestring la) (geometry.linestring lb) = some r ∧
      (r.interrupt = false →
        r.cells field.boundary field.interior = code.dim 0 ∧
        r.cells field.interior field.exterior = code.dim 1 ∧
        r.transpose.cells field.interior field.boundary = code.dim 0) := by
  obtain ⟨r, hr⟩ := apply_linestring_returns c la lb
  refine ⟨r, hr, fun hi => ?_⟩
  have h := apply_eq_no_interrupt_of_flag c _ _ r hr hi
  simp [linear_linear.apply_no_interrupt, hturns, for_each_disjoint_linestring_if.apply,
    for_each_disjoint_linestring_if.apply_linestring, hs0, hs1, analyse_each_turn_no_interrupt,
    analyse_each_turn.loop_no_interrupt, turns_analyser.apply, turns_analyser.init, h0, h1, hm,
    turns_analyser.handle_possible_exit, turns_analyser.check_previous_range,
    turns_analyser.on_union_or_blocked, turns_analyser.at_last, turns_analyser.other_b,
    exit_watcher.init, segment_watcher.init, segment_watcher.update, exit_watcher.exit,
    exit_watcher.get_exit_operation, sub_geometry.get, hA, hB] at h
  cases hAf : c.is_endpoint_boundary (geometry.linestring la) boundary_query.boundary_front
      (range.front la) <;>
    cases hBf : c.is_endpoint_boundary (geometry.linestring lb) boundary_query.boundary_front
      (range.front lb) <;>
    cases hBb : c.is_endpoint_boundary (geometry.linestring lb) boundary_query.boundary_back
      (range.back lb) <;>
    simp [hAf, hBf, hBb] at h <;>
    subst h <;>
    simp [result.transpose, update, set, result.init, code.upgrade]

/-- Witness of C8 on `A = [(0,0),(1,0)]` and `B = [(1,-1),(1,1)]`. -/
theorem t_intersection_witness :
    ∃ r, linear_linear.apply (example_collaborators (fun _ _ => [touch_turn]) fun _ => false)
        (geometry.linestring [(0, 0), (1, 0)]) (geometry.linestring [(1, -1), (1, 1)])
        = some r ∧
      (r.interrupt = false →
        r.cells field.boundary field.interior = code.dim 0 ∧
        r.cells field.interior field.exterior = code.dim 1 ∧
        r.transpose.cells field.interior field.boundary = code.dim 0) :=
  t_intersection (example_collaborators (fun _ _ => [touch_turn]) fun _ => false)
    [(0, 0), (1, 0)] [(1, -1), (1, 1)] touch_turn rfl rfl rfl rfl rfl rfl (by decide)
    (fun _ => rfl)

/-- C9: two single curves whose sorted turn stream is an intersection turn at
the shared first point followed by a blocked turn at the shared last point,
on one component, the first point a boundary point of both and the last an
end-point boundary of both: the matrix has `(I,I) = '1'` and `(B,B) = '0'`
and leaves `(I,E)`, `(B,E)`, `(E,I)` and `(E,B)` unset, when no interrupt is
raised. -/
theorem identical_open_curves (c : collaborators P) (la lb : List P) (t1 t2 : turn P)
    (hne : (c.get_turns (geometry.linestring la) (geometry.linestring lb)).isEmpty = false)
    (hs0 : c.sort_less_seg_dist_op 0
      (c.get_turns (geometry.linestring la) (geometry.linestring lb)) = [t1, t2])
    (hs1 : c.sort_less_seg_dist_op 1 [t1, t2] = [t1, t2])
    (h10 : t1.operations.1.operation = operation_type.operation_intersection)
    (h11 : t1.operations.2.operation = operation_type.operation_intersection)
    (h20 : t2.operations.1.operation = operation_type.operation_blocked)
    (h21 : t2.operations.2.operation = operation_type.operation_blocked)
    (hr0 : same_ranges t1.operations.1.seg_id t2.operations.1.seg_id = true)
    (hr1 : same_ranges t1.operations.2.seg_id t2.operations.2.seg_id = true)
    (hAf : ∀ q, c.is_boundary (geometry.linestring la) q t1.point t1.operations.1.seg_id = true)
    (hBf : ∀ q, c.is_boundary (geometry.linestring lb) q t1.point t1.operations.2.seg_id = true)
    (hAb : c.is_endpoint_boundary (geometry.linestring la) boundary_query.boundary_back
      t2.point = true)
    (hBb : c.is_endpoint_boundary (geometry.linestring lb) boundary_query.boundary_back
      t2.point = true) :
    ∃ r, linear_linear.apply c (geometry.linestring la) (geometry.linestring lb) = some r ∧
      (r.interrupt = false →
        r.cells field.interior field.interior = code.dim 1 ∧
        r.cells field.boundary field.boundary = code.dim 0 ∧
        r.cells field.interior field.exterior = code.F ∧
        r.cells field.boundary field.exterior = code.F ∧
        r.cells field.exterior field.interior = code.F ∧
        r.cells field.exterior field.boundary = code.F) := by
  obtain ⟨r, hr⟩ := apply_linestring_returns c la lb
  refine ⟨r, hr, fun hi => ?_⟩
  have h := apply_eq_no_interrupt_of_flag c _ _ r hr hi
  have hr0' : same_ranges t2.operations.1.seg_id t1.operations.1.seg_id = true := by
    simp only [same_ranges, Bool.and_eq_true, decide_eq_true_eq] at hr0 ⊢
    exact ⟨hr0.1.symm, hr0.2.symm⟩
  have hr1' : same_ranges t2.operations.2.seg_id t1.operations.2.seg_id = true := by
    simp only [same_ranges, Bool.and_eq_true, decide_eq_true_eq] at hr1 ⊢
    exact ⟨hr1.1.symm, hr1.2.symm⟩
  simp [linear_linear.apply_no_interrupt, hne, for_each_disjoint_linestring_if.apply,
    for_each_disjoint_linestring_if.apply_linestring, hs0, hs1, analyse_each_turn_no_interrupt,
    analyse_each_turn.loop_no_interrupt, turns_analyser.apply, turns_analyser.init,
    h10, h11, h20, h21,
    turns_analyser.handle_possible_exit, turns_analyser.check_previous_range,
    turns_analyser.on_union_or_blocked, turns_analyser.on_intersection,
    turns_analyser.at_last, turns_analyser.other_b,
    exit_watcher.init, segment_watcher.init, segment_watcher.update, exit_watcher.exit,
    exit_watcher.enter, find_if, hr0, hr1, hr0', hr1',
    exit_watcher.get_exit_operation, sub_geometry.get, hAf, hBf, hAb, hBb] at h
  subst h
  simp [update, set, result.init, code.upgrade]

/-- Witness of C9 on `A = B = [(0,0),(1,0)]`. -/
theorem identical_open_curves_witness :
    ∃ r, linear_linear.apply
        (example_collaborators (fun _ _ => [equal_front_turn, equal_back_turn]) fun _ => false)
        (geometry.linestring [(0, 0), (1, 0)]) (geometry.linestring [(0, 0), (1, 0)])
        = some r ∧
      (r.interrupt = false →
        r.cells field.interior field.interior = code.dim 1 ∧
        r.cells field.boundary field.boundary = code.dim 0 ∧
        r.cells field.interior field.exterior = code.F ∧
        r.cells field.boundary field.exterior = code.F ∧
        r.cells field.exterior field.interior = code.F ∧
        r.cells field.exterior field.boundary = code.F) :=
  identical_open_curves
    (example_collaborators (fun _ _ => [equal_front_turn, equal_back_turn]) fun _ => false)
    [(0, 0), (1, 0)] [(0, 0), (1, 0)] equal_front_turn equal_back_turn rfl rfl rfl rfl rfl rfl
    rfl (by decide) (by decide) (fun _ => rfl) (fun _ => rfl) (by decide)
    (by decide)

/-! ### Exit watcher without a matching entry, and `enter` -/

theorem find_if_no_match (other_id : segment_identifier) (l : List (point_identifier P))
    (h : ∀ e ∈ l, same_ranges other_id e.seg_id = false) : find_if other_id l = l.length := by
  induction l with
  | nil => rfl
  | cons a l ih =>
    have ha := h a (List.mem_cons_self _ _)
    have hl := ih fun e he => h e (List.mem_cons_of_mem _ he)
    simp [find_if, ha, hl]

/-- C11: when no pending entry is in the range of `other_id`,
`exit_watcher::exit` leaves the watcher as it is (entries, pending exit
operation and pending exit point) and returns true exactly when no entry is
pending; with entries of other components pending it returns false. -/
theorem exit_watcher_exit_no_match (w : exit_watcher P) (point : P)
    (other_id : segment_identifier) (exit_op : operation_type)
    (h : ∀ e ∈ w.other_entry_points, ¬ (e.seg_id.multi_index = other_id.multi_index ∧
      e.seg_id.ring_index = other_id.ring_index)) :
    (w.exit point other_id exit_op).2 = w ∧
    ((w.exit point other_id exit_op).1 = true ↔ w.other_entry_points = []) ∧
    (w.other_entry_points ≠ [] → (w.exit point other_id exit_op).1 = false) := by
  have h' : ∀ e ∈ w.other_entry_points, same_ranges other_id e.seg_id = false := by
    intro e he
    have := h e he
    cases hs : same_ranges other_id e.seg_id with
    | false => rfl
    | true =>
      simp only [same_ranges, Bool.and_eq_true, decide_eq_true_eq] at hs
      exact absurd hs this
  have hf := find_if_no_match other_id w.other_entry_points h'
  cases he : w.other_entry_points with
  | nil => simp [exit_watcher.exit, he]
  | cons a l =>
    rw [he] at hf
    simp [exit_watcher.exit, he, hf]

/-- Witness of C11: an exit for component 2 while an entry of component 0 is
pending. -/
theorem exit_watcher_exit_no_match_witness :
    (exit_watcher.exit ⟨operation_type.operation_none, none, [⟨⟨1, 0, -1, 0⟩, (0 : Nat)⟩]⟩ 9
        ⟨1, 2, -1, 7⟩ operation_type.operation_union).2 =
      ⟨operation_type.operation_none, none, [⟨⟨1, 0, -1, 0⟩, (0 : Nat)⟩]⟩ ∧
    ((exit_watcher.exit ⟨operation_type.operation_none, none, [⟨⟨1, 0, -1, 0⟩, (0 : Nat)⟩]⟩ 9
        ⟨1, 2, -1, 7⟩ operation_type.operation_union).1 = true ↔
      (⟨operation_type.operation_none, none, [⟨⟨1, 0, -1, 0⟩, (0 : Nat)⟩]⟩ :
        exit_watcher Nat).other_entry_points = []) ∧
    ((⟨operation_type.operation_none, none, [⟨⟨1, 0, -1, 0⟩, (0 : Nat)⟩]⟩ :
        exit_watcher Nat).other_entry_points ≠ [] →
      (exit_watcher.exit ⟨operation_type.operation_none, none, [⟨⟨1, 0, -1, 0⟩, (0 : Nat)⟩]⟩ 9
        ⟨1, 2, -1, 7⟩ operation_type.operation_union).1 = false) :=
  exit_watcher_exit_no_match _ 9 ⟨1, 2, -1, 7⟩ operation_type.operation_union
    (by simp)

/-- C12: `exit_watcher::enter` returns true exactly when no entry was pending,
appends the one entry `(other_id, point)` after the pending ones, which it
keeps, and leaves the pending exit as it is. -/
theorem exit_watcher_enter_spec (w : exit_watcher P) (point : P)
    (other_id : segment_identifier) :
    ((w.enter point other_id).1 = true ↔ w.other_entry_points = []) ∧
    (w.enter point other_id).2.other_entry_points =
      w.other_entry_points ++ [{ seg_id := other_id, point := point }] ∧
    (w.enter point other_id).2.exit_operation = w.exit_operation ∧
    (w.enter point other_id).2.exit_id = w.exit_id := by
  refine ⟨?_, rfl, rfl, rfl⟩
  simp [exit_watcher.enter, List.isEmpty_iff]

/-! ### Turns that are not acted on -/

/-- C14: a turn whose operation on side `OpId` is none of union, intersection
and blocked leaves the matrix and the whole analyser (segment watcher, exit
watcher and `m_last_union`) unchanged. -/
theorem turns_analyser_apply_not_acted (c : collaborators P) (OpId : Nat)
    (self : turns_analyser P) (res : result) (turns : List (turn P)) (it : Nat)
    (g og : geometry P) (t : turn P) (ht : turns[it]? = some t)
    (hop : (t.op OpId).operation ≠ operation_type.operation_union ∧
      (t.op OpId).operation ≠ operation_type.operation_intersection ∧
      (t.op OpId).operation ≠ operation_type.operation_blocked) :
    turns_analyser.apply c OpId self res turns it g og = some (self, res) := by
  unfold turns_analyser.apply
  rw [ht]
  simp only
  rw [if_pos hop]



/-! ### The calls of a scan -/

theorem steps_succ (c : collaborators P) (d : Nat) (ts : List (turn P)) (g og : geometry P)
    (k : Nat) : ∀ (it : Nat) (a : turns_analyser P) (res : result),
      analyse_each_turn.steps c d ts g og (k + 1) it a res =
        (analyse_each_turn.steps c d ts g og k it a res).bind fun x =>
          turns_analyser.apply c d x.1 x.2 ts (it + k) g og := by
  induction k with
  | zero =>
    intro it a res
    simp only [analyse_each_turn.steps, Option.some_bind, Nat.add_zero]
    cases turns_analyser.apply c d a res ts it g og <;> rfl
  | succ k ih =>
    intro it a res
    rw [analyse_each_turn.steps]
    cases e : turns_analyser.apply c d a res ts it g og with
    | none => simp [analyse_each_turn.steps, e]
    | some x =>
      simp only
      rw [ih (it + 1) x.1 x.2]
      conv_rhs => rw [analyse_each_turn.steps, e]
      simp only
      have : it + 1 + k = it + (k + 1) := by omega
      rw [this]

theorem loop_no_interrupt_eq_steps (c : collaborators P) (d : Nat) (ts : List (turn P))
    (g og : geometry P) (n : Nat) : ∀ (it : Nat) (a : turns_analyser P) (res : result),
      analyse_each_turn.loop_no_interrupt c d ts g og n it a res =
        analyse_each_turn.steps c d ts g og (n + 1) it a res := by
  induction n with
  | zero =>
    intro it a res
    simp only [analyse_each_turn.loop_no_interrupt, analyse_each_turn.steps]
    cases turns_analyser.apply c d a res ts it g og <;> rfl
  | succ n ih =>
    intro it a res
    rw [analyse_each_turn.loop_no_interrupt, analyse_each_turn.steps]
    cases turns_analyser.apply c d a res ts it g og with
    | none => rfl
    | some x => exact ih _ _ _

/-- The loop of `analyse_each_turn` returns after some number of calls, each
call before the last one having left the flag down. -/
theorem loop_eq_steps (c : collaborators P) (d : Nat) (ts : List (turn P))
    (g og : geometry P) (n : Nat) : ∀ (it : Nat) (a : turns_analyser P) (res : result)
      (x : turns_analyser P × result),
      analyse_each_turn.loop c d ts g og n it a res = some x →
      ∃ k, k ≤ n ∧ analyse_each_turn.steps c d ts g og (k + 1) it a res = some x ∧
        (k < n → x.2.interrupt = true) ∧
        ∀ j, j < k → ∃ y, analyse_each_turn.steps c d ts g og (j + 1) it a res = some y ∧
          y.2.interrupt = false := by
  induction n with
  | zero =>
    intro it a res x h
    refine ⟨0, Nat.le_refl _, ?_, fun h0 => absurd h0 (Nat.lt_irrefl _),
      fun j hj => absurd hj (Nat.not_lt_zero _)⟩
    simp only [analyse_each_turn.loop] at h
    simp only [analyse_each_turn.steps, h]
  | succ n ih =>
    intro it a res x h
    simp only [analyse_each_turn.loop] at h
    cases e : turns_analyser.apply c d a res ts it g og with
    | none => rw [e] at h; cases h
    | some y =>
      rw [e] at h
      simp only at h
      by_cases hi : y.2.interrupt = true
      · rw [if_pos hi] at h
        cases h
        refine ⟨0, Nat.zero_le _, ?_, fun _ => hi, fun j hj => absurd hj (Nat.not_lt_zero _)⟩
        simp only [analyse_each_turn.steps, e]
      · rw [if_neg hi] at h
        obtain ⟨k, hk, hs, hint, hprev⟩ := ih _ _ _ _ h
        refine ⟨k + 1, Nat.succ_le_succ hk, ?_, fun hlt => hint (Nat.lt_of_succ_lt_succ hlt), ?_⟩
        · rw [analyse_each_turn.steps, e]
          exact hs
        · intro j hj
          cases j with
          | zero =>
            refine ⟨y, ?_, by simpa using hi⟩
            simp only [analyse_each_turn.steps, e]
          | succ j =>
            obtain ⟨z, hz, hzi⟩ := hprev j (Nat.lt_of_succ_lt_succ hj)
            refine ⟨z, ?_, hzi⟩
            rw [analyse_each_turn.steps, e]
            exact hz



theorem acted_on_iff (d : Nat) (t : turn P) :
    turn.acted_on d t = false ↔
      ((t.op d).operation ≠ operation_type.operation_union ∧
        (t.op d).operation ≠ operation_type.operation_intersection ∧
        (t.op d).operation ≠ operation_type.operation_blocked) := by
  simp [turn.acted_on, and_assoc]

/-- What one call of the analyser does to the segment watcher and to
`m_last_union`: a turn that is acted on stores its segment identifier and
whether its operation is union, every other call leaves both. -/
theorem turns_analyser_apply_state (c : collaborators P) (d : Nat) (st : turns_analyser P)
    (res : result) (ts : List (turn P)) (it : Nat) (g og : geometry P)
    (x : turns_analyser P × result) (h : turns_analyser.apply c d st res ts it g og = some x) :
    (∀ t, ts[it]? = some t → turn.acted_on d t = true →
      x.1.m_seg_watcher = { m_seg_id_ptr := some (t.op d).seg_id } ∧
      x.1.m_last_union = decide ((t.op d).operation = operation_type.operation_union)) ∧
    (∀ t, ts[it]? = some t → turn.acted_on d t = false → x.1 = st) ∧
    (ts[it]? = none → x.1 = st) := by
  unfold turns_analyser.apply at h
  cases e : ts[it]? with
  | none =>
    rw [e] at h
    simp only at h
    refine ⟨fun t ht => (by cases ht), fun t ht => (by cases ht), fun _ => ?_⟩
    cases e2 : turns_analyser.at_last c d (d != 0) st res ts g with
    | none => rw [e2] at h; cases h
    | some r => rw [e2] at h; cases h; rfl
  | some t =>
    rw [e] at h
    simp only at h
    refine ⟨fun t' ht' ha => ?_, fun t' ht' ha => ?_, fun hn => (by cases hn)⟩
    · cases ht'
      have hna : ¬ ((t.op d).operation ≠ operation_type.operation_union ∧
          (t.op d).operation ≠ operation_type.operation_intersection ∧
          (t.op d).operation ≠ operation_type.operation_blocked) := by
        intro hc
        rw [(acted_on_iff d t).2 hc] at ha
        cases ha
      rw [if_neg hna] at h
      cases e1 : turns_analyser.handle_possible_exit c (d != 0) st.m_exit_watcher res t.point
          (t.op d).operation with
      | none => rw [e1] at h; cases h
      | some y =>
        obtain ⟨ew, r1, fk⟩ := y
        rw [e1] at h
        simp only at h
        cases e2 : turns_analyser.check_previous_range c d (d != 0) ts it g
            (st.m_seg_watcher.update (t.op d).seg_id).1 fk st.m_last_union r1 with
        | none => rw [e2] at h; cases h
        | some r2 =>
          rw [e2] at h
          simp only at h
          split_ifs at h <;> cases h <;> exact ⟨rfl, rfl⟩
    · cases ht'
      rw [if_pos ((acted_on_iff d t).1 ha)] at h
      cases h
      rfl

theorem last_acted_on_snoc (d : Nat) (l : List (turn P)) (t : turn P) :
    last_acted_on d (l ++ [t]) = if turn.acted_on d t = true then some t else last_acted_on d l := by
  unfold last_acted_on
  rw [List.filter_append]
  cases h : turn.acted_on d t with
  | true => simp [List.filter, h]
  | false => simp [List.filter, h]

theorem take_succ_of_getElem? (ts : List (turn P)) (k : Nat) :
    ts.take (k + 1) = ts.take k ++ (ts[k]?).toList := by
  rw [List.take_succ]

/-- Over a scan the segment watcher holds the segment identifier of the latest
acted-on turn. -/
theorem steps_seg_watcher (c : collaborators P) (d : Nat) (ts : List (turn P))
    (g og : geometry P) (res : result) (k : Nat) :
    ∀ x, analyse_each_turn.steps c d ts g og k 0 turns_analyser.init res = some x →
      x.1.m_seg_watcher.m_seg_id_ptr =
        (last_acted_on d (ts.take k)).map fun t => (t.op d).seg_id := by
  induction k with
  | zero =>
    intro x h
    simp only [analyse_each_turn.steps, Option.some.injEq] at h
    subst h
    rfl
  | succ k ih =>
    intro x h
    rw [steps_succ] at h
    cases e : analyse_each_turn.steps c d ts g og k 0 turns_analyser.init res with
    | none => rw [e] at h; cases h
    | some y =>
      rw [e] at h
      simp only [Option.some_bind, Nat.zero_add] at h
      have hy := ih y e
      obtain ⟨h1, h2, h3⟩ := turns_analyser_apply_state c d y.1 y.2 ts k g og x h
      rw [take_succ_of_getElem?]
      cases et : ts[k]? with
      | none =>
        rw [h3 et]
        simpa using hy
      | some t =>
        simp only [Option.toList_some, last_acted_on_snoc]
        cases ha : turn.acted_on d t with
        | true =>
          rw [(h1 t et ha).1]
          simp
        | false =>
          rw [h2 t et ha]
          simpa using hy





/-! ### Same range and first in range -/

theorem same_ranges_iff (a b : segment_identifier) :
    same_ranges a b = true ↔ (b.multi_index = a.multi_index ∧ b.ring_index = a.ring_index) := by
  simp [same_ranges]

/-- C13: `same_ranges` is an equivalence relation that compares only the
component index and the sub-ring index; over a scan from a fresh analyser
`segment_watcher::update` answers true (first in range) for an acted-on turn
exactly when no earlier turn was acted on or the latest earlier acted-on turn
is not in the same range on side `d`, so a turn of the component of the latest
acted-on turn is never first in range, whatever its segment index. -/
theorem same_ranges_first_in_range :
    (∀ a : segment_identifier, same_ranges a a = true) ∧
    (∀ a b : segment_identifier, same_ranges a b = true → same_ranges b a = true) ∧
    (∀ a b e : segment_identifier, same_ranges a b = true → same_ranges b e = true →
      same_ranges a e = true) ∧
    (∀ a b : segment_identifier, same_ranges a b = true ↔
      (b.multi_index = a.multi_index ∧ b.ring_index = a.ring_index)) ∧
    (∀ (c : collaborators P) (d : Nat) (ts : List (turn P)) (g og : geometry P) (res : result)
      (k : Nat) (x : turns_analyser P × result) (t : turn P),
      analyse_each_turn.steps c d ts g og k 0 turns_analyser.init res = some x →
      ts[k]? = some t → turn.acted_on d t = true →
      (((x.1.m_seg_watcher.update (t.op d).seg_id).1 = true ↔
        (last_acted_on d (ts.take k) = none ∨
          ∃ t', last_acted_on d (ts.take k) = some t' ∧
            same_ranges (t'.op d).seg_id (t.op d).seg_id = false)) ∧
       ∀ t', last_acted_on d (ts.take k) = some t' →
        (t'.op d).seg_id.multi_index = (t.op d).seg_id.multi_index →
        (t'.op d).seg_id.ring_index = (t.op d).seg_id.ring_index →
        (x.1.m_seg_watcher.update (t.op d).seg_id).1 = false)) := by
  refine ⟨fun a => by simp [same_ranges], fun a b h => ?_, fun a b e h1 h2 => ?_,
    same_ranges_iff, ?_⟩
  · rw [same_ranges_iff] at h ⊢
    exact ⟨h.1.symm, h.2.symm⟩
  · rw [same_ranges_iff] at h1 h2 ⊢
    exact ⟨h2.1.trans h1.1, h2.2.trans h1.2⟩
  · intro c d ts g og res k x t hx _ _
    have hw := steps_seg_watcher c d ts g og res k x hx
    cases hl : last_acted_on d (ts.take k) with
    | none =>
      rw [hl] at hw
      simp only [Option.map_none'] at hw
      simp [segment_watcher.update, hw]
    | some t' =>
      rw [hl] at hw
      simp only [Option.map_some'] at hw
      refine ⟨?_, fun t'' ht'' hm hr => ?_⟩
      · simp [segment_watcher.update, hw]
      · cases ht''
        have : same_ranges (t'.op d).seg_id (t.op d).seg_id = true :=
          (same_ranges_iff _ _).2 ⟨hm.symm, hr.symm⟩
        simp [segment_watcher.update, hw, this]





/-- Witness of C13: after the turn at the first point of two equal curves the
turn at their last point, on the same component, is not first in range. -/
theorem same_ranges_first_in_range_witness :
    (((analyse_each_turn.steps (example_collaborators (fun _ _ => []) fun _ => false) 0
        [equal_front_turn, equal_back_turn] (geometry.linestring [(0, 0), (1, 0)])
        (geometry.linestring [(0, 0), (1, 0)]) 1 0 turns_analyser.init result.init).get
        (by decide)).1.m_seg_watcher.update (equal_back_turn.op 0).seg_id).1 = false :=
  ((@same_ranges_first_in_range (Int × Int) _).2.2.2.2
    (example_collaborators (fun _ _ => []) fun _ => false) 0
    [equal_front_turn, equal_back_turn] (geometry.linestring [(0, 0), (1, 0)])
    (geometry.linestring [(0, 0), (1, 0)]) result.init 1 _ equal_back_turn
    (Option.some_get (by decide)).symm rfl rfl).2 equal_front_turn rfl rfl rfl

/-- Witness of C14 on a turn without operation. -/
theorem turns_analyser_apply_not_acted_witness :
    turns_analyser.apply (example_collaborators (fun _ _ => []) fun _ => false) 0
      turns_analyser.init result.init [ignored_turn] 0 (geometry.linestring [(0, 0), (9, 9)])
      (geometry.linestring [(9, 0), (0, 9)]) = some (turns_analyser.init, result.init) :=
  turns_analyser_apply_not_acted _ 0 _ _ [ignored_turn] 0 _ _ ignored_turn rfl
    ⟨by decide, by decide, by decide⟩

/-! ### Cells as a direction sees them -/

theorem cell_update_same (full : (field → field → code) → Bool) (f1 f2 : field) (d : Nat)
    (tr : Bool) (r : result) :
    (update full f1 f2 d tr r).cell tr f1 f2 = (r.cell tr f1 f2).upgrade d := by
  cases tr <;> simp [result.cell, update]

theorem cell_update_other (full : (field → field → code) → Bool) (f1 f2 g1 g2 : field) (d : Nat)
    (tr : Bool) (r : result) (h : ¬ (g1 = f1 ∧ g2 = f2)) :
    (update full f1 f2 d tr r).cell tr g1 g2 = r.cell tr g1 g2 := by
  cases tr
  · simp [result.cell, update, h]
  · have h' : ¬ (g2 = f2 ∧ g1 = f1) := fun hc => h ⟨hc.2, hc.1⟩
    simp [result.cell, update, h']

theorem update_transposed (full : (field → field → code) → Bool) (f1 f2 : field) (d : Nat)
    (r : result) : update full f1 f2 d true r = update full f2 f1 d false r := rfl

/-! ### The disjoint predicate -/

/-- C15: a component classified as a point, handed to the predicate while the
point mask is not 7, causes the one update `'0'` of the cell the point oracle
chooses: `(I,I)` inside, `(I,B)` on the boundary, `(I,E)` outside, and for
`OpId` 1 the transposed cells `(I,I)`, `(B,I)`, `(E,I)`; an empty component
causes no update and leaves the predicate as it is. -/
theorem disjoint_point_component (c : collaborators P) (OpId : Nat) (bc og : geometry P)
    (self : disjoint_linestring_pred) (res : result) (ls : List P) :
    (check_linestring_kind c.equals_point_point ls = linestring_kind.linestring_point →
      self.m_detected_mask_point ≠ 7 →
      (0 < c.point_in_geometry (range.front ls) og →
        (disjoint_linestring_pred.call c OpId bc og (self, res) ls).1.2 =
          update c.full field.interior field.interior 0 (OpId != 0) res) ∧
      (c.point_in_geometry (range.front ls) og = 0 →
        (disjoint_linestring_pred.call c OpId bc og (self, res) ls).1.2 =
          update c.full field.interior field.boundary 0 (OpId != 0) res) ∧
      (c.point_in_geometry (range.front ls) og < 0 →
        (disjoint_linestring_pred.call c OpId bc og (self, res) ls).1.2 =
          update c.full field.interior field.exterior 0 (OpId != 0) res)) ∧
    (∀ r : result,
      update c.full field.interior field.interior 0 (0 != 0) r =
        update c.full field.interior field.interior 0 false r ∧
      update c.full field.interior field.boundary 0 (0 != 0) r =
        update c.full field.interior field.boundary 0 false r ∧
      update c.full field.interior field.exterior 0 (0 != 0) r =
        update c.full field.interior field.exterior 0 false r ∧
      update c.full field.interior field.interior 0 (1 != 0) r =
        update c.full field.interior field.interior 0 false r ∧
      update c.full field.interior field.boundary 0 (1 != 0) r =
        update c.full field.boundary field.interior 0 false r ∧
      update c.full field.interior field.exterior 0 (1 != 0) r =
        update c.full field.exterior field.interior 0 false r) ∧
    (check_linestring_kind c.equals_point_point ls = linestring_kind.linestring_exterior →
      (disjoint_linestring_pred.call c OpId bc og (self, res) ls).1 = (self, res)) := by
  refine ⟨fun hk hm => ⟨fun hp => ?_, fun hp => ?_, fun hp => ?_⟩,
    fun r => ⟨rfl, rfl, rfl, rfl, rfl, rfl⟩, fun hk => ?_⟩
  · simp [disjoint_linestring_pred.call, hk, hm, hp]
  · simp [disjoint_linestring_pred.call, hk, hm, hp]
  · have h1 : ¬ (0 < c.point_in_geometry (range.front ls) og) := by omega
    have h2 : ¬ (c.point_in_geometry (range.front ls) og = 0) := by omega
    simp [disjoint_linestring_pred.call, hk, hm, h1, h2]
  · simp [disjoint_linestring_pred.call, hk]

/-- Witness of C15: the point `(9, 9)` lies on the boundary of `saturating_b`. -/
theorem disjoint_point_component_witness :
    (disjoint_linestring_pred.call (example_collaborators (fun _ _ => []) fun _ => false) 0
        saturating_a saturating_b (disjoint_linestring_pred.init, result.init) [(9, 9)]).1.2 =
      update (fun _ => false) field.interior field.boundary 0 (0 != 0) result.init :=
  ((disjoint_point_component (example_collaborators (fun _ _ => []) fun _ => false) 0
    saturating_a saturating_b disjoint_linestring_pred.init result.init [(9, 9)]).1
    (by decide) (by decide)).2.1 (by decide)

theorem rank_cell_update_ge (full : (field → field → code) → Bool) (f1 f2 g1 g2 : field)
    (d : Nat) (tr : Bool) (r : result) :
    (r.cell tr g1 g2).rank ≤ ((update full f1 f2 d tr r).cell tr g1 g2).rank := by
  by_cases h : g1 = f1 ∧ g2 = f2
  · obtain ⟨rfl, rfl⟩ := h
    rw [cell_update_same]
    exact rank_upgrade_le _ _
  · rw [cell_update_other full f1 f2 g1 g2 d tr r h]

theorem rank_cell_update_le (full : (field → field → code) → Bool) (f1 f2 g1 g2 : field)
    (d : Nat) (tr : Bool) (r : result) (n : Nat) (hd : d + 2 ≤ n)
    (h : (r.cell tr g1 g2).rank ≤ n) :
    ((update full f1 f2 d tr r).cell tr g1 g2).rank ≤ n := by
  by_cases h' : g1 = f1 ∧ g2 = f2
  · obtain ⟨rfl, rfl⟩ := h'
    rw [cell_update_same, rank_upgrade]
    omega
  · rw [cell_update_other full f1 f2 g1 g2 d tr r h']
    exact h

theorem scanner_inv_call (c : collaborators P) (d : Nat) (bc og : geometry P) (n : Nat)
    (s : disjoint_linestring_pred × result) (ls : List P) (h : scanner_inv (d != 0) n s) :
    scanner_inv (d != 0) n (disjoint_linestring_pred.call c d bc og s ls).1 := by
  obtain ⟨h1, h2⟩ := h
  have hn : 0 + 2 ≤ max n 3 := by omega
  have hn1 : 1 + 2 ≤ max n 3 := by omega
  unfold disjoint_linestring_pred.call
  simp only
  split_ifs with k1 k2 k3 k4 k5 k6 k7
  · exact ⟨fun hf => ⟨Nat.le_trans (h1 hf).1 (rank_cell_update_ge _ _ _ _ _ _ _ _),
      Nat.le_trans (h1 hf).2 (rank_cell_update_ge _ _ _ _ _ _ _ _)⟩,
      rank_cell_update_le _ _ _ _ _ _ _ _ _ hn h2⟩
  · exact ⟨fun hf => ⟨Nat.le_trans (h1 hf).1 (rank_cell_update_ge _ _ _ _ _ _ _ _),
      Nat.le_trans (h1 hf).2 (rank_cell_update_ge _ _ _ _ _ _ _ _)⟩,
      rank_cell_update_le _ _ _ _ _ _ _ _ _ hn h2⟩
  · exact ⟨fun hf => ⟨Nat.le_trans (h1 hf).1 (rank_cell_update_ge _ _ _ _ _ _ _ _),
      Nat.le_trans (h1 hf).2 (rank_cell_update_ge _ _ _ _ _ _ _ _)⟩,
      rank_cell_update_le _ _ _ _ _ _ _ _ _ hn h2⟩
  · exact ⟨h1, h2⟩
  · refine ⟨fun _ => ⟨?_, ?_⟩, ?_⟩
    · rw [cell_update_other _ _ _ _ _ _ _ _ (by decide), cell_update_same, rank_upgrade]
      omega
    · rw [cell_update_same, rank_upgrade]
      omega
    · exact rank_cell_update_le _ _ _ _ _ _ _ _ _ hn
        (rank_cell_update_le _ _ _ _ _ _ _ _ _ hn1 h2)
  · exact ⟨fun hf => ⟨Nat.le_trans (h1 hf).1 (rank_cell_update_ge _ _ _ _ _ _ _ _),
      Nat.le_trans (h1 hf).2 (rank_cell_update_ge _ _ _ _ _ _ _ _)⟩,
      rank_cell_update_le _ _ _ _ _ _ _ _ _ hn1 h2⟩
  · exact ⟨h1, h2⟩
  · exact ⟨h1, h2⟩

theorem scanner_inv_fold (c : collaborators P) (d : Nat) (bc og : geometry P) (n : Nat)
    (components : List (List P)) : ∀ s, scanner_inv (d != 0) n s →
      scanner_inv (d != 0) n
        (components.foldl (fun s l => (disjoint_linestring_pred.call c d bc og s l).1) s) := by
  induction components with
  | nil => intro s h; exact h
  | cons l ls ih =>
    intro s h
    exact ih _ (scanner_inv_call c d bc og n s l h)

/-- The states of the predicate in a scan of a multi-curve geometry are reached
by applying the predicate to some components one after another. -/
theorem scan_is_fold {σ : Type} (lss : List (List P)) (pred : σ → List P → σ × Bool) :
    ∀ (ds : List Bool) (i : Nat) (s : σ) (found : Bool),
      ∃ l : List (List P),
        (for_each_disjoint_linestring_if.scan lss pred ds i s found).1 =
          l.foldl (fun s ls => (pred s ls).1) s := by
  intro ds
  induction ds with
  | nil => intro i s found; exact ⟨[], rfl⟩
  | cons b ds ih =>
    intro i s found
    simp only [for_each_disjoint_linestring_if.scan]
    cases b with
    | true =>
      simp only [Bool.true_eq_false, if_false]
      exact ih _ _ _
    | false =>
      simp only [if_true]
      split_ifs
      · exact ⟨[lss.getD i []], rfl⟩
      · obtain ⟨l, hl⟩ := ih (i + 1) (pred s (lss.getD i [])).1 true
        exact ⟨lss.getD i [] :: l, hl⟩



theorem scanner_zero_keeps_exterior_row (c : collaborators P) :
    ∀ u ∈ scanner_writes, ∀ r : result,
      r.cells field.exterior field.interior = code.F →
      (update c.full u.1 u.2.1 u.2.2 (0 != 0) r).cells field.exterior field.interior = code.F := by
  intro u hu r h
  rw [update_cells]
  simp only [scanner_writes, List.mem_cons, List.mem_singleton, List.mem_nil_iff,
    or_false] at hu
  rcases hu with rfl | rfl | rfl | rfl | rfl <;> simpa using h

/-- C16: in a scanner pass that starts from a fresh predicate, after the
predicate has been applied to a component classified open or closed the cell
`(I,E)` of the pass (`(E,I)` for `OpId` 1) holds at least `'1'`, and exactly
`'1'` when it held at most `'1'` at the start of the pass, as it does in both
passes of `linear_linear::apply`; and when the front or the back point of the
component is an end-point boundary the cell `(B,E)` (`(E,B)` for `OpId` 1)
holds at least `'0'`. This is so for every such component, also after the
boundary fact was detected and the updates are skipped. -/
theorem disjoint_open_component (c : collaborators P) (OpId : Nat) (bc og : geometry P)
    (res0 : result) (components : List (List P)) (ls : List P) :
    ((check_linestring_kind c.equals_point_point ls = linestring_kind.linestring_open ∨
      check_linestring_kind c.equals_point_point ls = linestring_kind.linestring_closed) →
      (code.dim 1).rank ≤
        ((disjoint_linestring_pred.call c OpId bc og
          (components.foldl (fun s l => (disjoint_linestring_pred.call c OpId bc og s l).1)
            (disjoint_linestring_pred.init, res0)) ls).1.2.cell (OpId != 0)
          field.interior field.exterior).rank ∧
      ((res0.cell (OpId != 0) field.interior field.exterior).rank ≤ (code.dim 1).rank →
        (disjoint_linestring_pred.call c OpId bc og
          (components.foldl (fun s l => (disjoint_linestring_pred.call c OpId bc og s l).1)
            (disjoint_linestring_pred.init, res0)) ls).1.2.cell (OpId != 0)
          field.interior field.exterior = code.dim 1) ∧
      ((c.is_endpoint_boundary bc boundary_query.boundary_front (range.front ls) = true ∨
        c.is_endpoint_boundary bc boundary_query.boundary_back (range.back ls) = true) →
        (code.dim 0).rank ≤
          ((disjoint_linestring_pred.call c OpId bc og
            (components.foldl (fun s l => (disjoint_linestring_pred.call c OpId bc og s l).1)
              (disjoint_linestring_pred.init, res0)) ls).1.2.cell (OpId != 0)
            field.boundary field.exterior).rank)) ∧
    (∀ v, (set field.exterior field.exterior v result.init).cell (0 != 0)
      field.interior field.exterior = code.F) ∧
    (∀ (g1 g2 : geometry P) (x1 : (disjoint_linestring_pred × result) × Bool),
      for_each_disjoint_linestring_if.apply 0 (c.get_turns g1 g2) g1
        (disjoint_linestring_pred.call c 0 g1 g2)
        (disjoint_linestring_pred.init,
          set field.exterior field.exterior (c.result_dimension g1) result.init) = some x1 →
      x1.1.2.cell (1 != 0) field.interior field.exterior = code.F) := by
  refine ⟨fun hk => ?_, fun v => ?_, fun g1 g2 x1 h1 => ?_⟩
  · have hinv := scanner_inv_fold c OpId bc og
      (res0.cell (OpId != 0) field.interior field.exterior).rank components
      (disjoint_linestring_pred.init, res0)
      ⟨fun hf => by simp [disjoint_linestring_pred.init] at hf, Nat.le_max_left _ _⟩
    generalize components.foldl (fun s l => (disjoint_linestring_pred.call c OpId bc og s l).1)
      (disjoint_linestring_pred.init, res0) = s at hinv
    have hinv' := scanner_inv_call c OpId bc og _ s ls hinv
    have hnp : check_linestring_kind c.equals_point_point ls ≠
        linestring_kind.linestring_point := by
      rcases hk with h | h <;> rw [h] <;> decide
    have hge : 3 ≤ ((disjoint_linestring_pred.call c OpId bc og s ls).1.2.cell (OpId != 0)
          field.interior field.exterior).rank ∧
        ((c.is_endpoint_boundary bc boundary_query.boundary_front (range.front ls) = true ∨
          c.is_endpoint_boundary bc boundary_query.boundary_back (range.back ls) = true) →
          2 ≤ ((disjoint_linestring_pred.call c OpId bc og s ls).1.2.cell (OpId != 0)
            field.boundary field.exterior).rank) := by
      obtain ⟨h1, -⟩ := hinv
      unfold disjoint_linestring_pred.call
      simp only [if_neg hnp, if_pos hk]
      cases hf : s.1.m_detected_open_boundary with
      | true =>
        simp only [Bool.not_true, Bool.false_eq_true, if_false]
        exact ⟨(h1 hf).1, fun _ => (h1 hf).2⟩
      | false =>
        simp only [Bool.not_false, if_true]
        split_ifs with hb
        · refine ⟨?_, fun _ => ?_⟩
          · rw [cell_update_other _ _ _ _ _ _ _ _ (by decide), cell_update_same, rank_upgrade]
            omega
          · rw [cell_update_same, rank_upgrade]
            omega
        · refine ⟨?_, fun hb' => ?_⟩
          · rw [cell_update_same, rank_upgrade]
            omega
          · exfalso
            apply hb
            rcases hb' with h | h <;> simp [h]
    refine ⟨hge.1, fun h0 => ?_, hge.2⟩
    apply rank_injective
    have hle := hinv'.2
    have h3 : (code.dim 1).rank = 3 := rfl
    rw [h3] at h0 ⊢
    have := hge.1
    omega
  · simp [result.cell, set, result.init]
  · have := for_each_apply_invariant
      (fun s : disjoint_linestring_pred × result =>
        s.2.cells field.exterior field.interior = code.F) 0 (c.get_turns g1 g2) g1
      (disjoint_linestring_pred.call c 0 g1 g2)
      (fun s ls hs => disjoint_linestring_pred_call_invariant c 0 g1 g2
        (fun r => r.cells field.exterior field.interior = code.F)
        (scanner_zero_keeps_exterior_row c) s ls hs)
      (disjoint_linestring_pred.init,
        set field.exterior field.exterior (c.result_dimension g1) result.init)
      (by simp [set, result.init]) x1 h1
    simpa [result.cell] using this

/-- Witness of C16: the second curve of `saturating_b` is handed to the
predicate after the boundary fact was detected on the first one. -/
theorem disjoint_open_component_witness :
    (disjoint_linestring_pred.call (example_collaborators (fun _ _ => []) fun _ => false) 1
        saturating_b saturating_a
        ([[(0, 0), (5, 5), (9, 9)]].foldl
          (fun s l => (disjoint_linestring_pred.call
            (example_collaborators (fun _ _ => []) fun _ => false) 1 saturating_b saturating_a
            s l).1)
          (disjoint_linestring_pred.init, result.init)) [(20, 20), (30, 30)]).1.2.cell (1 != 0)
        field.interior field.exterior = code.dim 1 :=
  ((disjoint_open_component (example_collaborators (fun _ _ => []) fun _ => false) 1
    saturating_b saturating_a result.init [[(0, 0), (5, 5), (9, 9)]] [(20, 20), (30, 30)]).1
    (Or.inl (by decide))).2.1 (by decide)

/-! ### Stream end -/

theorem getElem?_length_sub_one (ts : List (turn P)) (hne : ts ≠ []) :
    ts[ts.length - 1]? = some (ts.getLast hne) := by
  rw [List.getLast_eq_getElem]
  exact List.getElem?_eq_getElem _

theorem analyse_each_turn_no_interrupt_eq_steps (c : collaborators P) (d : Nat)
    (ts : List (turn P)) (g og : geometry P) (a : turns_analyser P) (res : result)
    (hne : ts ≠ []) :
    analyse_each_turn_no_interrupt c d res a ts g og =
      (analyse_each_turn.steps c d ts g og ts.length 0 a res).bind fun x =>
        turns_analyser.apply c d x.1 x.2 ts ts.length g og := by
  unfold analyse_each_turn_no_interrupt
  have : ts.isEmpty = false := by cases ts <;> simp_all
  rw [this]
  simp only [Bool.false_eq_true, if_false]
  rw [loop_no_interrupt_eq_steps, steps_succ, Nat.zero_add]

/-- C17: for a non-empty turn list the call with `it == last` returns, keeps
the analyser, and writes `(I,E) = '1'` exactly when the pending exit operation
is union or `m_last_union` holds, then `(B,E) = '0'` exactly when moreover the
back point of the curve of the last turn's segment identifier on side `OpId`
is an end-point boundary, and nothing otherwise, the cells transposed for
`OpId` 1; a scan that ends with the flag down ends with this call. -/
theorem stream_end_finalization (c : collaborators P) (OpId : Nat) (st : turns_analyser P)
    (res : result) (ts : List (turn P)) (g og : geometry P) (hne : ts ≠ []) :
    turns_analyser.apply c OpId st res ts ts.length g og =
      some (st,
        if st.m_exit_watcher.exit_operation = operation_type.operation_union ∨
            st.m_last_union = true then
          if c.is_endpoint_boundary g boundary_query.boundary_back
              (range.back (sub_geometry.get g ((ts.getLast hne).op OpId).seg_id)) = true then
            update c.full field.boundary field.exterior 0 (OpId != 0)
              (update c.full field.interior field.exterior 1 (OpId != 0) res)
          else update c.full field.interior field.exterior 1 (OpId != 0) res
        else res) ∧
    (∀ (a : turns_analyser P) (x : turns_analyser P × result),
      analyse_each_turn c OpId res a ts g og = some x → x.2.interrupt = false →
      ∃ y, analyse_each_turn.steps c OpId ts g og ts.length 0 a res = some y ∧
        turns_analyser.apply c OpId y.1 y.2 ts ts.length g og = some x) := by
  constructor
  · have hem : ts.isEmpty = false := by cases ts <;> simp_all
    have hnone : ts[ts.length]? = none := List.getElem?_eq_none (Nat.le_refl _)
    unfold turns_analyser.apply
    rw [hnone]
    simp only
    unfold turns_analyser.at_last
    rw [hem, getElem?_length_sub_one ts hne]
    simp only [exit_watcher.get_exit_operation, Bool.or_eq_true, decide_eq_true_eq,
      Bool.false_eq_true, if_false]
    split_ifs <;> rfl
  · intro a x hx hi
    have := analyse_each_turn_eq_no_interrupt_of_flag c OpId ts g og a res x hx hi
    rw [analyse_each_turn_no_interrupt_eq_steps c OpId ts g og a res hne] at this
    cases e : analyse_each_turn.steps c OpId ts g og ts.length 0 a res with
    | none => rw [e] at this; cases this
    | some y =>
      rw [e] at this
      exact ⟨y, rfl, this⟩

/-- Witness of C17: the scan of the crossing ends with `m_last_union` set and
the final call writes both cells. -/
theorem stream_end_finalization_witness :
    turns_analyser.apply (example_collaborators (fun _ _ => []) fun _ => false) 0
        { m_exit_watcher := exit_watcher.init, m_seg_watcher := segment_watcher.init,
          m_last_union := true }
        result.init [crossing_turn] [crossing_turn].length
        (geometry.linestring [(0, 0), (2, 0)]) (geometry.linestring [(1, -1), (1, 1)]) =
      some ({ m_exit_watcher := exit_watcher.init, m_seg_watcher := segment_watcher.init,
              m_last_union := true },
        update (fun _ => false) field.boundary field.exterior 0 (0 != 0)
          (update (fun _ => false) field.interior field.exterior 1 (0 != 0) result.init)) :=
  (stream_end_finalization (example_collaborators (fun _ _ => []) fun _ => false) 0
    { m_exit_watcher := exit_watcher.init, m_seg_watcher := segment_watcher.init,
      m_last_union := true }
    result.init [crossing_turn] (geometry.linestring [(0, 0), (2, 0)])
    (geometry.linestring [(1, -1), (1, 1)]) (by simp)).1

/-! ### The check of a pending exit -/

theorem handle_possible_exit_real (c : collaborators P) (tr : Bool) (ew : exit_watcher P)
    (res : result) (point : P) (op : operation_type) (pid : point_identifier P)
    (hop : ew.exit_operation = operation_type.operation_union) (hid : ew.exit_id = some pid)
    (hne : c.equals_point_point point pid.point = false) :
    turns_analyser.handle_possible_exit c tr ew res point op =
      some (ew.reset_detected_exit, update c.full field.interior field.exterior 1 tr res,
        false) := by
  simp [turns_analyser.handle_possible_exit, exit_watcher.get_exit_operation,
    exit_watcher.get_exit_point, hop, hid, hne]

theorem handle_possible_exit_none (c : collaborators P) (tr : Bool) (ew : exit_watcher P)
    (res : result) (point : P) (op : operation_type)
    (hop : ew.exit_operation ≠ operation_type.operation_union) :
    turns_analyser.handle_possible_exit c tr ew res point op = some (ew, res, false) := by
  simp [turns_analyser.handle_possible_exit, exit_watcher.get_exit_operation, hop]

theorem handle_possible_exit_same_point (c : collaborators P) (tr : Bool) (ew : exit_watcher P)
    (res : result) (point : P) (op : operation_type) (pid : point_identifier P)
    (hop : ew.exit_operation = operation_type.operation_union) (hid : ew.exit_id = some pid)
    (heq : c.equals_point_point point pid.point = true) :
    turns_analyser.handle_possible_exit c tr ew res point op =
      if op = operation_type.operation_intersection then
        some (ew.reset_detected_exit, res, true)
      else some (ew, res, false) := by
  simp [turns_analyser.handle_possible_exit, exit_watcher.get_exit_operation,
    exit_watcher.get_exit_point, hop, hid, heq]

/-- C18: for an acted-on turn met while a union exit is pending at a point that
differs from the point of the turn, the check of the pending exit writes
`(I,E) = '1'` and clears the pending exit, and the rest of the call works on
that matrix and that watcher; when the points are equal and the operation of
the turn is union or blocked, the check writes nothing and keeps the pending
exit. -/
theorem real_exit_pre_check (c : collaborators P) (OpId : Nat) (st : turns_analyser P)
    (res : result) (ts : List (turn P)) (it : Nat) (g og : geometry P) (t : turn P)
    (pid : point_identifier P) (ht : ts[it]? = some t) (hact : turn.acted_on OpId t = true)
    (hop : st.m_exit_watcher.exit_operation = operation_type.operation_union)
    (hid : st.m_exit_watcher.exit_id = some pid) :
    (c.equals_point_point t.point pid.point = false →
      turns_analyser.handle_possible_exit c (OpId != 0) st.m_exit_watcher res t.point
          (t.op OpId).operation =
        some (st.m_exit_watcher.reset_detected_exit,
          update c.full field.interior field.exterior 1 (OpId != 0) res, false) ∧
      turns_analyser.apply c OpId st res ts it g og =
        turns_analyser.apply c OpId
          { st with m_exit_watcher := st.m_exit_watcher.reset_detected_exit }
          (update c.full field.interior field.exterior 1 (OpId != 0) res) ts it g og) ∧
    (c.equals_point_point t.point pid.point = true →
      ((t.op OpId).operation = operation_type.operation_union ∨
        (t.op OpId).operation = operation_type.operation_blocked) →
      turns_analyser.handle_possible_exit c (OpId != 0) st.m_exit_watcher res t.point
          (t.op OpId).operation =
        some (st.m_exit_watcher, res, false)) := by
  refine ⟨fun hne => ?_, fun heq hub => ?_⟩
  · have h1 := handle_possible_exit_real c (OpId != 0) st.m_exit_watcher res t.point
      (t.op OpId).operation pid hop hid hne
    have h2 := handle_possible_exit_none c (OpId != 0) st.m_exit_watcher.reset_detected_exit
      (update c.full field.interior field.exterior 1 (OpId != 0) res) t.point
      (t.op OpId).operation (by simp [exit_watcher.reset_detected_exit])
    have hna : ¬ ((t.op OpId).operation ≠ operation_type.operation_union ∧
        (t.op OpId).operation ≠ operation_type.operation_intersection ∧
        (t.op OpId).operation ≠ operation_type.operation_blocked) := by
      intro hc
      rw [(acted_on_iff OpId t).2 hc] at hact
      cases hact
    refine ⟨h1, ?_⟩
    unfold turns_analyser.apply
    simp only [ht, h1, h2, if_neg hna]
  · rw [handle_possible_exit_same_point c _ _ _ _ _ pid hop hid heq]
    have : (t.op OpId).operation ≠ operation_type.operation_intersection := by
      rcases hub with h | h <;> rw [h] <;> decide
    rw [if_neg this]

/-- Witness of C18: a crossing at `(1, 0)` met while a union exit at `(0, 0)`
is pending. -/
theorem real_exit_pre_check_witness :
    turns_analyser.handle_possible_exit (example_collaborators (fun _ _ => []) fun _ => false)
        (0 != 0) pending_exit_analyser.m_exit_watcher result.init crossing_turn.point
        (crossing_turn.op 0).operation =
      some (pending_exit_analyser.m_exit_watcher.reset_detected_exit,
        update (fun _ => false) field.interior field.exterior 1 (0 != 0) result.init, false) ∧
    turns_analyser.apply (example_collaborators (fun _ _ => []) fun _ => false) 0
        pending_exit_analyser result.init [equal_front_turn, crossing_turn] 1
        (geometry.linestring [(0, 0), (2, 0)]) (geometry.linestring [(1, 1), (1, -1)]) =
      turns_analyser.apply (example_collaborators (fun _ _ => []) fun _ => false) 0
        { pending_exit_analyser with
          m_exit_watcher := pending_exit_analyser.m_exit_watcher.reset_detected_exit }
        (update (fun _ => false) field.interior field.exterior 1 (0 != 0) result.init)
        [equal_front_turn, crossing_turn] 1
        (geometry.linestring [(0, 0), (2, 0)]) (geometry.linestring [(1, 1), (1, -1)]) :=
  (real_exit_pre_check (example_collaborators (fun _ _ => []) fun _ => false) 0
    pending_exit_analyser result.init [equal_front_turn, crossing_turn] 1
    (geometry.linestring [(0, 0), (2, 0)]) (geometry.linestring [(1, 1), (1, -1)])
    crossing_turn { seg_id := ⟨1, -1, -1, 0⟩, point := (0, 0) } rfl rfl rfl rfl).1 (by decide)

/-! ### Leaving and entering at one point -/

theorem check_previous_range_frame (c : collaborators P) (d : Nat) (tr : Bool)
    (ts : List (turn P)) (it : Nat) (g : geometry P) (fir fake lu : Bool) (res r : result)
    (h : turns_analyser.check_previous_range c d tr ts it g fir fake lu res = some r) :
    (r = res ∨ r = update c.full field.boundary field.exterior 0 tr res) ∧
    (fake = true → r = res) := by
  unfold turns_analyser.check_previous_range at h
  by_cases hc : (fir && !fake && lu) = true
  · rw [if_pos hc] at h
    have hf : fake = false := by
      cases fake
      · rfl
      · simp at hc
    refine ⟨?_, fun hk => by rw [hf] at hk; cases hk⟩
    by_cases h0 : it = 0
    · rw [if_pos h0] at h; cases h
    · rw [if_neg h0] at h
      cases e : ts[it - 1]? with
      | none => rw [e] at h; cases h
      | some prev =>
        rw [e] at h
        simp only at h
        split_ifs at h <;> cases h
        · exact Or.inr rfl
        · exact Or.inl rfl
  · rw [if_neg hc] at h
    cases h
    exact ⟨Or.inl rfl, fun _ => rfl⟩

theorem on_intersection_fake (c : collaborators P) (tr : Bool) (g og : geometry P) (point : P)
    (seg_id other_id : segment_identifier) (oop : operation_type) (fir : Bool)
    (ew : exit_watcher P) (res : result) :
    (turns_analyser.on_intersection c tr g og point seg_id other_id oop fir true ew res).2 =
      if c.is_boundary g boundary_query.boundary_front point seg_id = true then
        if turns_analyser.other_b c og point oop other_id = true then
          update c.full field.boundary field.boundary 0 tr
            (update c.full field.interior field.interior 1 tr res)
        else
          update c.full field.boundary field.interior 0 tr
            (update c.full field.interior field.interior 1 tr res)
      else update c.full field.interior field.interior 1 tr res := by
  unfold turns_analyser.on_intersection
  simp only [Bool.not_true, Bool.and_false, Bool.false_eq_true, if_false]
  split_ifs <;> rfl

theorem on_intersection_frame (c : collaborators P) (tr : Bool) (g og : geometry P) (point : P)
    (seg_id other_id : segment_identifier) (oop : operation_type) (fir fake : Bool)
    (ew : exit_watcher P) (res : result)
    (h : c.is_boundary g boundary_query.boundary_front point seg_id = true ∨
      ew.other_entry_points ≠ [] ∨ fake = true) :
    (turns_analyser.on_intersection c tr g og point seg_id other_id oop fir fake ew res).2.cell tr
        field.interior field.exterior = res.cell tr field.interior field.exterior := by
  unfold turns_analyser.on_intersection
  simp only
  by_cases hb : c.is_boundary g boundary_query.boundary_front point seg_id = true
  · rw [if_pos hb]
    split_ifs <;>
    · simp only
      rw [cell_update_other _ _ _ _ _ _ _ _ (by decide),
        cell_update_other _ _ _ _ _ _ _ _ (by decide)]
  · have hw : ((ew.enter point other_id).1 && !fake) = false := by
      rcases h with h | h | h
      · exact absurd h hb
      · have : ew.other_entry_points.isEmpty = false := by
          cases e : ew.other_entry_points with
          | nil => exact absurd e h
          | cons a l => rfl
        simp [exit_watcher.enter, this]
      · simp [h]
    rw [if_neg hb, hw]
    simp only [Bool.false_eq_true, if_false]
    rw [cell_update_other _ _ _ _ _ _ _ _ (by decide)]

theorem on_union_or_blocked_frame (c : collaborators P) (tr : Bool) (g og : geometry P)
    (point : P) (m : method_type) (op : operation_type) (seg_id other_id : segment_identifier)
    (oop : operation_type) (fir : Bool) (ew : exit_watcher P) (res : result)
    (h : ew.other_entry_points ≠ []) :
    (turns_analyser.on_union_or_blocked c tr g og point m op seg_id other_id oop fir ew res).2.cell
        tr field.interior field.exterior = res.cell tr field.interior field.exterior := by
  have hne : ew.other_entry_points.isEmpty = false := by
    cases e : ew.other_entry_points with
    | nil => exact absurd e h
    | cons a l => rfl
  have hw : (ew.exit point other_id op).1 = false := by
    unfold exit_watcher.exit
    rw [hne]
    simp only [Bool.false_eq_true, if_false]
    split_ifs <;> rfl
  unfold turns_analyser.on_union_or_blocked
  simp only [hw, Bool.not_false, if_true]
  split_ifs <;> first
    | rfl
    | (simp only; rw [cell_update_other _ _ _ _ _ _ _ _ (by decide)])

theorem exit_watcher_exit_cases (ew : exit_watcher P) (point : P) (id : segment_identifier)
    (op : operation_type) :
    (ew.exit point id op).2 = ew ∨
    ((ew.exit point id op).2.exit_operation = op ∧
      (ew.exit point id op).2.exit_id = some { seg_id := id, point := point }) := by
  unfold exit_watcher.exit
  by_cases he : ew.other_entry_points.isEmpty = true
  · rw [if_pos he]
    exact Or.inl rfl
  · rw [if_neg he]
    simp only
    by_cases hf : find_if id ew.other_entry_points ≠ ew.other_entry_points.length
    · rw [if_pos hf]
      exact Or.inr ⟨rfl, rfl⟩
    · rw [if_neg hf]
      exact Or.inl rfl

theorem not_not_acted {op : operation_type}
    (h : op = operation_type.operation_union ∨ op = operation_type.operation_intersection ∨
      op = operation_type.operation_blocked) :
    ¬ (op ≠ operation_type.operation_union ∧ op ≠ operation_type.operation_intersection ∧
      op ≠ operation_type.operation_blocked) := by
  rintro ⟨h1, h2, h3⟩
  rcases h with h | h | h
  · exact h1 h
  · exact h2 h
  · exact h3 h

/-- The call on an intersection turn met while a union exit is pending at the
point of the turn. -/
theorem apply_fake_re_entry (c : collaborators P) (d : Nat) (st : turns_analyser P)
    (res : result) (ts : List (turn P)) (it : Nat) (g og : geometry P) (t : turn P)
    (pid : point_identifier P) (ht : ts[it]? = some t)
    (hop : (t.op d).operation = operation_type.operation_intersection)
    (hu : st.m_exit_watcher.exit_operation = operation_type.operation_union)
    (hid : st.m_exit_watcher.exit_id = some pid)
    (heq : c.equals_point_point t.point pid.point = true) :
    turns_analyser.apply c d st res ts it g og =
      some ({ m_exit_watcher :=
                (st.m_exit_watcher.reset_detected_exit.enter t.point
                  (t.op ((d + 1) % 2)).seg_id).2,
              m_seg_watcher := (st.m_seg_watcher.update (t.op d).seg_id).2,
              m_last_union := false },
        if c.is_boundary g boundary_query.boundary_front t.point (t.op d).seg_id = true then
          if turns_analyser.other_b c og t.point (t.op ((d + 1) % 2)).operation
              (t.op ((d + 1) % 2)).seg_id = true then
            update c.full field.boundary field.boundary 0 (d != 0)
              (update c.full field.interior field.interior 1 (d != 0) res)
          else
            update c.full field.boundary field.interior 0 (d != 0)
              (update c.full field.interior field.interior 1 (d != 0) res)
        else update c.full field.interior field.interior 1 (d != 0) res) := by
  have h1 := handle_possible_exit_same_point c (d != 0) st.m_exit_watcher res t.point
    (t.op d).operation pid hu hid heq
  rw [hop, if_pos rfl] at h1
  have h2 : ∀ fir lu, turns_analyser.check_previous_range c d (d != 0) ts it g fir true lu res =
      some res := by
    intro fir lu
    simp [turns_analyser.check_previous_range]
  unfold turns_analyser.apply
  simp only [ht, if_neg (not_not_acted (Or.inr (Or.inl hop))), hop, h1, h2, if_true,
    on_intersection_watcher, on_intersection_fake]
  simp

/-- The call on an intersection turn met with no union exit pending, on a
boundary point or after an entry: `(I,E)` is kept. -/
theorem apply_intersection_frame (c : collaborators P) (d : Nat) (st : turns_analyser P)
    (res : result) (ts : List (turn P)) (it : Nat) (g og : geometry P) (t : turn P)
    (x : turns_analyser P × result) (ht : ts[it]? = some t)
    (hop : (t.op d).operation = operation_type.operation_intersection)
    (hx : turns_analyser.apply c d st res ts it g og = some x)
    (hu : st.m_exit_watcher.exit_operation ≠ operation_type.operation_union)
    (hin : c.is_boundary g boundary_query.boundary_front t.point (t.op d).seg_id = true ∨
      st.m_exit_watcher.other_entry_points ≠ []) :
    x.2.cell (d != 0) field.interior field.exterior =
      res.cell (d != 0) field.interior field.exterior ∧
    x.1.m_exit_watcher.exit_operation ≠ operation_type.operation_union ∧
    x.1.m_exit_watcher.other_entry_points ≠ [] ∧ x.1.m_last_union = false := by
  have h1 := handle_possible_exit_none c (d != 0) st.m_exit_watcher res t.point
    (t.op d).operation hu
  unfold turns_analyser.apply at hx
  simp only [ht, h1, if_neg (not_not_acted (Or.inr (Or.inl hop)))] at hx
  cases e : turns_analyser.check_previous_range c d (d != 0) ts it g
      (st.m_seg_watcher.update (t.op d).seg_id).1 false st.m_last_union res with
  | none => rw [e] at hx; cases hx
  | some r2 =>
    rw [e] at hx
    simp only [if_pos hop, Option.some.injEq] at hx
    subst hx
    have hr2 : r2.cell (d != 0) field.interior field.exterior =
        res.cell (d != 0) field.interior field.exterior := by
      rcases (check_previous_range_frame c d _ ts it g _ _ _ res r2 e).1 with h | h
      · rw [h]
      · rw [h, cell_update_other _ _ _ _ _ _ _ _ (by decide)]
    refine ⟨?_, ?_, ?_, ?_⟩
    · simp only
      rw [on_intersection_frame c _ g og _ _ _ _ _ _ _ _
        (hin.elim Or.inl fun h => Or.inr (Or.inl h)), hr2]
    · simp only [on_intersection_watcher]
      exact hu
    · simp only [on_intersection_watcher]
      simp [exit_watcher.enter]
    · simp [hop]

/-- The call on a union or blocked turn met after an entry with no union exit
pending: `(I,E)` is kept, and the watcher either is kept or holds an exit at
the point of the turn. -/
theorem apply_union_blocked_frame (c : collaborators P) (d : Nat) (st : turns_analyser P)
    (res : result) (ts : List (turn P)) (it : Nat) (g og : geometry P) (t : turn P)
    (x : turns_analyser P × result) (ht : ts[it]? = some t)
    (hop : (t.op d).operation = operation_type.operation_union ∨
      (t.op d).operation = operation_type.operation_blocked)
    (hx : turns_analyser.apply c d st res ts it g og = some x)
    (hu : st.m_exit_watcher.exit_operation ≠ operation_type.operation_union)
    (hne : st.m_exit_watcher.other_entry_points ≠ []) :
    x.2.cell (d != 0) field.interior field.exterior =
      res.cell (d != 0) field.interior field.exterior ∧
    x.1.m_last_union = decide ((t.op d).operation = operation_type.operation_union) ∧
    (x.1.m_exit_watcher = st.m_exit_watcher ∨
      (x.1.m_exit_watcher.exit_operation = (t.op d).operation ∧
        x.1.m_exit_watcher.exit_id =
          some { seg_id := (t.op ((d + 1) % 2)).seg_id, point := t.point })) := by
  have h1 := handle_possible_exit_none c (d != 0) st.m_exit_watcher res t.point
    (t.op d).operation hu
  have hni : (t.op d).operation ≠ operation_type.operation_intersection := by
    rcases hop with h | h <;> rw [h] <;> decide
  have hact : ¬ ((t.op d).operation ≠ operation_type.operation_union ∧
      (t.op d).operation ≠ operation_type.operation_intersection ∧
      (t.op d).operation ≠ operation_type.operation_blocked) :=
    not_not_acted (hop.elim Or.inl fun h => Or.inr (Or.inr h))
  unfold turns_analyser.apply at hx
  simp only [ht, h1, if_neg hact] at hx
  cases e : turns_analyser.check_previous_range c d (d != 0) ts it g
      (st.m_seg_watcher.update (t.op d).seg_id).1 false st.m_last_union res with
  | none => rw [e] at hx; cases hx
  | some r2 =>
    rw [e] at hx
    simp only [if_neg hni, if_pos hop, Option.some.injEq] at hx
    subst hx
    have hr2 : r2.cell (d != 0) field.interior field.exterior =
        res.cell (d != 0) field.interior field.exterior := by
      rcases (check_previous_range_frame c d _ ts it g _ _ _ res r2 e).1 with h | h
      · rw [h]
      · rw [h, cell_update_other _ _ _ _ _ _ _ _ (by decide)]
    refine ⟨?_, rfl, ?_⟩
    · simp only
      rw [on_union_or_blocked_frame c _ g og _ _ _ _ _ _ _ _ _ hne, hr2]
    · simp only [on_union_or_blocked_watcher]
      exact exit_watcher_exit_cases _ _ _ _

/-- The call with `it == last` when no union exit is pending and the last
acted-on turn was not a union: nothing is written. -/
theorem apply_at_last_frame (c : collaborators P) (d : Nat) (st : turns_analyser P)
    (res : result) (ts : List (turn P)) (it : Nat) (g og : geometry P)
    (ht : ts[it]? = none)
    (hu : st.m_exit_watcher.exit_operation ≠ operation_type.operation_union)
    (hl : st.m_last_union = false) :
    turns_analyser.apply c d st res ts it g og = some (st, res) := by
  unfold turns_analyser.apply
  simp [ht, turns_analyser.at_last, exit_watcher.get_exit_operation, hu, hl]

theorem steps_last_call (c : collaborators P) (d : Nat) (ts : List (turn P)) (g og : geometry P)
    (k : Nat) (a : turns_analyser P) (res : result) (x : turns_analyser P × result)
    (h : analyse_each_turn.steps c d ts g og (k + 1) 0 a res = some x) :
    ∃ y, analyse_each_turn.steps c d ts g og k 0 a res = some y ∧
      turns_analyser.apply c d y.1 y.2 ts k g og = some x := by
  rw [steps_succ] at h
  cases e : analyse_each_turn.steps c d ts g og k 0 a res with
  | none => rw [e] at h; cases h
  | some y =>
    rw [e] at h
    simp only [Option.some_bind, Nat.zero_add] at h
    exact ⟨y, rfl, h⟩

/-- A scan of an intersection at a first point of this geometry, a union, an
intersection at the point of the union and a blocked turn keeps `(I,E)` at
every call. -/
theorem re_entry_steps_frame (c : collaborators P) (d : Nat) (g og : geometry P) (res : result)
    (t0 t1 t2 t3 : turn P)
    (h0 : (t0.op d).operation = operation_type.operation_intersection)
    (h1 : (t1.op d).operation = operation_type.operation_union)
    (h2 : (t2.op d).operation = operation_type.operation_intersection)
    (h3 : (t3.op d).operation = operation_type.operation_blocked)
    (hp : c.equals_point_point t2.point t1.point = true)
    (hb0 : c.is_boundary g boundary_query.boundary_front t0.point (t0.op d).seg_id = true) :
    ∀ k x, k ≤ 5 →
      analyse_each_turn.steps c d [t0, t1, t2, t3] g og k 0 turns_analyser.init res = some x →
      x.2.cell (d != 0) field.interior field.exterior =
        res.cell (d != 0) field.interior field.exterior := by
  have F1 : ∀ y, analyse_each_turn.steps c d [t0, t1, t2, t3] g og 1 0 turns_analyser.init
      res = some y →
      y.2.cell (d != 0) field.interior field.exterior =
        res.cell (d != 0) field.interior field.exterior ∧
      y.1.m_exit_watcher.exit_operation ≠ operation_type.operation_union ∧
      y.1.m_exit_watcher.other_entry_points ≠ [] ∧ y.1.m_last_union = false := by
    intro y hy
    obtain ⟨z, hz, hzy⟩ := steps_last_call c d _ g og 0 _ res y hy
    simp only [analyse_each_turn.steps, Option.some.injEq] at hz
    subst hz
    exact apply_intersection_frame c d _ res _ 0 g og t0 y rfl h0 hzy
      (by simp [turns_analyser.init, exit_watcher.init]) (Or.inl hb0)
  have F2 : ∀ y, analyse_each_turn.steps c d [t0, t1, t2, t3] g og 2 0 turns_analyser.init
      res = some y →
      y.2.cell (d != 0) field.interior field.exterior =
        res.cell (d != 0) field.interior field.exterior ∧
      ((y.1.m_exit_watcher.exit_operation ≠ operation_type.operation_union ∧
          y.1.m_exit_watcher.other_entry_points ≠ []) ∨
        (y.1.m_exit_watcher.exit_operation = operation_type.operation_union ∧
          y.1.m_exit_watcher.exit_id =
            some { seg_id := (t1.op ((d + 1) % 2)).seg_id, point := t1.point })) := by
    intro y hy
    obtain ⟨z, hz, hzy⟩ := steps_last_call c d _ g og 1 _ res y hy
    obtain ⟨z1, z2, z3, -⟩ := F1 z hz
    obtain ⟨y1, -, y3⟩ := apply_union_blocked_frame c d z.1 z.2 _ 1 g og t1 y rfl (Or.inl h1) hzy
      z2 z3
    refine ⟨y1.trans z1, ?_⟩
    rcases y3 with h | ⟨ha, hb⟩
    · rw [h]
      exact Or.inl ⟨z2, z3⟩
    · rw [h1] at ha
      exact Or.inr ⟨ha, hb⟩
  have F3 : ∀ y, analyse_each_turn.steps c d [t0, t1, t2, t3] g og 3 0 turns_analyser.init
      res = some y →
      y.2.cell (d != 0) field.interior field.exterior =
        res.cell (d != 0) field.interior field.exterior ∧
      y.1.m_exit_watcher.exit_operation ≠ operation_type.operation_union ∧
      y.1.m_exit_watcher.other_entry_points ≠ [] ∧ y.1.m_last_union = false := by
    intro y hy
    obtain ⟨z, hz, hzy⟩ := steps_last_call c d _ g og 2 _ res y hy
    obtain ⟨z1, z2⟩ := F2 z hz
    rcases z2 with ⟨za, zb⟩ | ⟨za, zb⟩
    · obtain ⟨y1, y2, y3, y4⟩ := apply_intersection_frame c d z.1 z.2 _ 2 g og t2 y rfl h2 hzy
        za (Or.inr zb)
      exact ⟨y1.trans z1, y2, y3, y4⟩
    · rw [apply_fake_re_entry c d z.1 z.2 _ 2 g og t2 _ rfl h2 za zb hp] at hzy
      simp only [Option.some.injEq] at hzy
      subst hzy
      refine ⟨?_, by simp [exit_watcher.enter, exit_watcher.reset_detected_exit],
        by simp [exit_watcher.enter], rfl⟩
      rw [← z1]
      simp only
      split_ifs <;> first
        | rw [cell_update_other _ _ _ _ _ _ _ _ (by decide),
            cell_update_other _ _ _ _ _ _ _ _ (by decide)]
        | rw [cell_update_other _ _ _ _ _ _ _ _ (by decide)]
  have F4 : ∀ y, analyse_each_turn.steps c d [t0, t1, t2, t3] g og 4 0 turns_analyser.init
      res = some y →
      y.2.cell (d != 0) field.interior field.exterior =
        res.cell (d != 0) field.interior field.exterior ∧
      y.1.m_exit_watcher.exit_operation ≠ operation_type.operation_union ∧
      y.1.m_last_union = false := by
    intro y hy
    obtain ⟨z, hz, hzy⟩ := steps_last_call c d _ g og 3 _ res y hy
    obtain ⟨z1, z2, z3, -⟩ := F3 z hz
    obtain ⟨y1, y2, y3⟩ := apply_union_blocked_frame c d z.1 z.2 _ 3 g og t3 y rfl (Or.inr h3)
      hzy z2 z3
    refine ⟨y1.trans z1, ?_, by rw [y2, h3]; rfl⟩
    rcases y3 with h | ⟨ha, -⟩
    · rw [h]
      exact z2
    · rw [ha, h3]
      decide
  have F5 : ∀ y, analyse_each_turn.steps c d [t0, t1, t2, t3] g og 5 0 turns_analyser.init
      res = some y →
      y.2.cell (d != 0) field.interior field.exterior =
        res.cell (d != 0) field.interior field.exterior := by
    intro y hy
    obtain ⟨z, hz, hzy⟩ := steps_last_call c d _ g og 4 _ res y hy
    obtain ⟨z1, z2, z3⟩ := F4 z hz
    rw [apply_at_last_frame c d z.1 z.2 _ 4 g og rfl z2 z3] at hzy
    cases hzy
    exact z1
  intro k x hk hx
  match k, hk, hx with
  | 0, _, hx =>
    simp only [analyse_each_turn.steps, Option.some.injEq] at hx
    subst hx
    rfl
  | 1, _, hx => exact (F1 x hx).1
  | 2, _, hx => exact (F2 x hx).1
  | 3, _, hx => exact (F3 x hx).1
  | 4, _, hx => exact (F4 x hx).1
  | 5, _, hx => exact F5 x hx
  | k + 6, hk, _ => exact absurd hk (by omega)

/-- C19 as stated fails: the scan of `re_entry_a` over the turns intersection
at `(0, 0)`, union at `(1, 0)`, intersection at `(1, 0)`, blocked at `(2, 0)`,
where `(1, 0)` is not a boundary point, records `(I,E) = '1'`: the curve is
outside before its first turn. -/
theorem fake_re_entry_scan_counterexample :
    (re_entry_turns 1).map (fun t => ((t.op 0).operation, t.point)) =
      [(operation_type.operation_intersection, (0, 0)),
       (operation_type.operation_union, (1, 0)),
       (operation_type.operation_intersection, (1, 0)),
       (operation_type.operation_blocked, (2, 0))] ∧
    (example_collaborators (fun _ _ => []) fun _ => false).is_boundary re_entry_a
      boundary_query.boundary_front (1, 0) ⟨0, -1, -1, 2⟩ = false ∧
    result.init.cell (0 != 0) field.interior field.exterior = code.F ∧
    (analyse_each_turn (example_collaborators (fun _ _ => []) fun _ => false) 0 result.init
      turns_analyser.init (re_entry_turns 1) re_entry_a re_entry_b).map
        (fun x => x.2.cell (0 != 0) field.interior field.exterior) = some (code.dim 1) := by
  refine ⟨rfl, by decide, rfl, ?_⟩
  decide

/-- C19 (amended): an intersection turn met while a union exit is pending at a
point equal to the point of the turn clears the pending exit, keeps `(I,E)` and
`(B,E)`, and writes `(I,I) = '1'` and at most one of `(B,B) = '0'`,
`(B,I) = '0'`; a scan of the turns intersection at `p0`, union at `p1`,
intersection at `p1`, blocked at `p2`, with `p1` not a boundary point and `p0`
a first boundary point of this geometry, returns and keeps `(I,E)`. -/
theorem fake_re_entry (c : collaborators P) (d : Nat) (g og : geometry P) (res : result) :
    (∀ (st : turns_analyser P) (ts : List (turn P)) (it : Nat) (t : turn P)
      (pid : point_identifier P),
      ts[it]? = some t → (t.op d).operation = operation_type.operation_intersection →
      st.m_exit_watcher.exit_operation = operation_type.operation_union →
      st.m_exit_watcher.exit_id = some pid →
      c.equals_point_point t.point pid.point = true →
      ∃ x, turns_analyser.apply c d st res ts it g og = some x ∧
        x.1.m_exit_watcher.exit_operation = operation_type.operation_none ∧
        x.2.cell (d != 0) field.interior field.exterior =
          res.cell (d != 0) field.interior field.exterior ∧
        x.2.cell (d != 0) field.boundary field.exterior =
          res.cell (d != 0) field.boundary field.exterior ∧
        (x.2 = update c.full field.interior field.interior 1 (d != 0) res ∨
          x.2 = update c.full field.boundary field.boundary 0 (d != 0)
            (update c.full field.interior field.interior 1 (d != 0) res) ∨
          x.2 = update c.full field.boundary field.interior 0 (d != 0)
            (update c.full field.interior field.interior 1 (d != 0) res))) ∧
    (∀ t0 t1 t2 t3 : turn P,
      (t0.op d).operation = operation_type.operation_intersection →
      (t1.op d).operation = operation_type.operation_union →
      (t2.op d).operation = operation_type.operation_intersection →
      (t3.op d).operation = operation_type.operation_blocked →
      c.equals_point_point t2.point t1.point = true →
      c.is_boundary g boundary_query.boundary_front t2.point (t2.op d).seg_id = false →
      c.is_boundary g boundary_query.boundary_front t0.point (t0.op d).seg_id = true →
      ∃ x, analyse_each_turn c d res turns_analyser.init [t0, t1, t2, t3] g og = some x ∧
        x.2.cell (d != 0) field.interior field.exterior =
          res.cell (d != 0) field.interior field.exterior) := by
  refine ⟨fun st ts it t pid ht hop hu hid heq => ?_,
    fun t0 t1 t2 t3 h0 h1 h2 h3 hp _ hb0 => ?_⟩
  · refine ⟨_, apply_fake_re_entry c d st res ts it g og t pid ht hop hu hid heq, rfl, ?_, ?_, ?_⟩
    · simp only
      split_ifs <;> first
        | rw [cell_update_other _ _ _ _ _ _ _ _ (by decide),
            cell_update_other _ _ _ _ _ _ _ _ (by decide)]
        | rw [cell_update_other _ _ _ _ _ _ _ _ (by decide)]
    · simp only
      split_ifs <;> first
        | rw [cell_update_other _ _ _ _ _ _ _ _ (by decide),
            cell_update_other _ _ _ _ _ _ _ _ (by decide)]
        | rw [cell_update_other _ _ _ _ _ _ _ _ (by decide)]
    · simp only
      split_ifs
      · exact Or.inr (Or.inl rfl)
      · exact Or.inr (Or.inr rfl)
      · exact Or.inl rfl
  · obtain ⟨x, hx⟩ := analyse_each_turn_ready c d [t0, t1, t2, t3] g og res
    refine ⟨x, hx, ?_⟩
    simp only [analyse_each_turn, List.isEmpty_cons, Bool.false_eq_true, if_false] at hx
    obtain ⟨k, hk, hs, -, -⟩ := loop_eq_steps c d _ g og _ 0 _ res x hx
    exact re_entry_steps_frame c d g og res t0 t1 t2 t3 h0 h1 h2 h3 hp hb0 (k + 1) x
      (by simp only [List.length_cons, List.length_nil] at hk; omega) hs

/-- Witness of C19 (amended): the turn at `(1, 0)` of `re_entry_turns` met with
a union exit pending at `(1, 0)`, and the scan of `re_entry_a_front`. -/
theorem fake_re_entry_witness :
    (∃ x, turns_analyser.apply (example_collaborators (fun _ _ => []) fun _ => false) 0
        { pending_exit_analyser with
          m_exit_watcher := { pending_exit_analyser.m_exit_watcher with
            exit_id := some { seg_id := ⟨1, 0, -1, 0⟩, point := (1, 0) } } }
        result.init (re_entry_turns 0) 2 re_entry_a_front re_entry_b = some x ∧
      x.1.m_exit_watcher.exit_operation = operation_type.operation_none ∧
      x.2.cell (0 != 0) field.interior field.exterior =
        result.init.cell (0 != 0) field.interior field.exterior ∧
      x.2.cell (0 != 0) field.boundary field.exterior =
        result.init.cell (0 != 0) field.boundary field.exterior ∧
      (x.2 = update (fun _ => false) field.interior field.interior 1 (0 != 0) result.init ∨
        x.2 = update (fun _ => false) field.boundary field.boundary 0 (0 != 0)
          (update (fun _ => false) field.interior field.interior 1 (0 != 0) result.init) ∨
        x.2 = update (fun _ => false) field.boundary field.interior 0 (0 != 0)
          (update (fun _ => false) field.interior field.interior 1 (0 != 0) result.init))) ∧
    (∃ x, analyse_each_turn (example_collaborators (fun _ _ => []) fun _ => false) 0 result.init
        turns_analyser.init (re_entry_turns 0) re_entry_a_front re_entry_b = some x ∧
      x.2.cell (0 != 0) field.interior field.exterior =
        result.init.cell (0 != 0) field.interior field.exterior) :=
  ⟨(fake_re_entry (example_collaborators (fun _ _ => []) fun _ => false) 0 re_entry_a_front
      re_entry_b result.init).1 _ (re_entry_turns 0) 2 _
      { seg_id := ⟨1, 0, -1, 0⟩, point := (1, 0) } rfl rfl rfl rfl (by decide),
   (fake_re_entry (example_collaborators (fun _ _ => []) fun _ => false) 0 re_entry_a_front
      re_entry_b result.init).2 _ _ _ _ rfl rfl rfl rfl (by decide) (by decide) (by decide)⟩

/-! ### Intersection turns and the cell of the two interiors -/

theorem cell_interior (r : result) (tr : Bool) :
    r.cell tr field.interior field.interior = r.cells field.interior field.interior := by
  cases tr <;> rfl

theorem handle_possible_exit_frame (c : collaborators P) (tr : Bool) (ew : exit_watcher P)
    (res : result) (point : P) (op : operation_type) (y : exit_watcher P × result × Bool)
    (h : turns_analyser.handle_possible_exit c tr ew res point op = some y) :
    y.2.1 = res ∨ y.2.1 = update c.full field.interior field.exterior 1 tr res := by
  unfold turns_analyser.handle_possible_exit at h
  by_cases hu : ew.get_exit_operation = operation_type.operation_union
  · rw [if_pos hu] at h
    cases e : ew.get_exit_point with
    | none => rw [e] at h; cases h
    | some p =>
      rw [e] at h
      simp only at h
      split_ifs at h <;> cases h
      · exact Or.inr rfl
      · exact Or.inl rfl
      · exact Or.inl rfl
  · rw [if_neg hu] at h
    cases h
    exact Or.inl rfl

theorem on_intersection_interiors (c : collaborators P) (tr : Bool) (g og : geometry P)
    (point : P) (seg_id other_id : segment_identifier) (oop : operation_type) (fir fake : Bool)
    (ew : exit_watcher P) (res : result) :
    (turns_analyser.on_intersection c tr g og point seg_id other_id oop fir fake ew res).2.cell tr
        field.interior field.interior = (res.cell tr field.interior field.interior).upgrade 1 := by
  unfold turns_analyser.on_intersection
  simp only
  split_ifs <;> simp only <;>
    repeat first
      | rw [cell_update_same]
      | rw [cell_update_other _ _ _ _ _ _ _ _ (by decide)]

/-- The call on an intersection turn upgrades `(I,I)` to `'1'`. -/
theorem apply_intersection_interiors (c : collaborators P) (d : Nat) (st : turns_analyser P)
    (res : result) (ts : List (turn P)) (it : Nat) (g og : geometry P) (t : turn P)
    (x : turns_analyser P × result) (ht : ts[it]? = some t)
    (hop : (t.op d).operation = operation_type.operation_intersection)
    (hx : turns_analyser.apply c d st res ts it g og = some x) :
    x.2.cell (d != 0) field.interior field.interior =
      (res.cell (d != 0) field.interior field.interior).upgrade 1 := by
  unfold turns_analyser.apply at hx
  simp only [ht, if_neg (not_not_acted (Or.inr (Or.inl hop)))] at hx
  cases e1 : turns_analyser.handle_possible_exit c (d != 0) st.m_exit_watcher res t.point
      (t.op d).operation with
  | none => rw [e1] at hx; cases hx
  | some y =>
    obtain ⟨ew, r1, fk⟩ := y
    rw [e1] at hx
    simp only at hx
    have hr1 : r1.cell (d != 0) field.interior field.interior =
        res.cell (d != 0) field.interior field.interior := by
      rcases handle_possible_exit_frame c _ _ _ _ _ _ e1 with h | h
      · rw [show r1 = res from h]
      · rw [show r1 = _ from h, cell_update_other _ _ _ _ _ _ _ _ (by decide)]
    cases e2 : turns_analyser.check_previous_range c d (d != 0) ts it g
        (st.m_seg_watcher.update (t.op d).seg_id).1 fk st.m_last_union r1 with
    | none => rw [e2] at hx; cases hx
    | some r2 =>
      rw [e2] at hx
      simp only [if_pos hop, Option.some.injEq] at hx
      subst hx
      have hr2 : r2.cell (d != 0) field.interior field.interior =
          r1.cell (d != 0) field.interior field.interior := by
        rcases (check_previous_range_frame c d _ ts it g _ _ _ r1 r2 e2).1 with h | h
        · rw [h]
        · rw [h, cell_update_other _ _ _ _ _ _ _ _ (by decide)]
      simp only
      rw [on_intersection_interiors, hr2, hr1]

theorem steps_invariant (c : collaborators P) (d : Nat) (ts : List (turn P))
    (g og : geometry P) (I : result → Prop)
    (hI : ∀ u ∈ analyser_writes, ∀ r, I r → I (update c.full u.1 u.2.1 u.2.2 (d != 0) r))
    (k : Nat) : ∀ (it : Nat) (st : turns_analyser P) (res : result)
      (x : turns_analyser P × result), I res →
      analyse_each_turn.steps c d ts g og k it st res = some x → I x.2 := by
  induction k with
  | zero =>
    intro it st res x h hs
    simp only [analyse_each_turn.steps, Option.some.injEq] at hs
    subst hs
    exact h
  | succ k ih =>
    intro it st res x h hs
    rw [analyse_each_turn.steps] at hs
    cases e : turns_analyser.apply c d st res ts it g og with
    | none => rw [e] at hs; cases hs
    | some y =>
      rw [e] at hs
      exact ih _ _ _ _ (turns_analyser_apply_invariant c d ts g og st y.1 it I res y.2 hI h e) hs

theorem steps_add (c : collaborators P) (d : Nat) (ts : List (turn P)) (g og : geometry P)
    (m k : Nat) : ∀ (it : Nat) (a : turns_analyser P) (res : result),
      analyse_each_turn.steps c d ts g og (k + m) it a res =
        (analyse_each_turn.steps c d ts g og k it a res).bind fun w =>
          analyse_each_turn.steps c d ts g og m (it + k) w.1 w.2 := by
  induction k with
  | zero =>
    intro it a res
    simp [analyse_each_turn.steps]
  | succ k ih =>
    intro it a res
    rw [show k + 1 + m = (k + m) + 1 from by omega, analyse_each_turn.steps,
      analyse_each_turn.steps]
    cases e : turns_analyser.apply c d a res ts it g og with
    | none => rfl
    | some y =>
      simp only
      rw [ih (it + 1) y.1 y.2, show it + 1 + k = it + (k + 1) from by omega]

/-- A scan that calls the analyser on an intersection turn returns a matrix
with at least `'1'` in `(I,I)`. -/
theorem scan_intersection_interiors (c : collaborators P) (d : Nat) (ts : List (turn P))
    (g og : geometry P) (res : result) (x : turns_analyser P × result)
    (hx : analyse_each_turn c d res turns_analyser.init ts g og = some x)
    (hp : processes_intersection c d ts g og res) :
    3 ≤ (x.2.cells field.interior field.interior).rank := by
  obtain ⟨k, t, ht, hop, hprev⟩ := hp
  have hk : k < ts.length := by
    by_contra hc
    rw [List.getElem?_eq_none (Nat.le_of_not_lt hc)] at ht
    cases ht
  have hne : ts.isEmpty = false := by
    cases ts with
    | nil => simp at hk
    | cons a l => rfl
  simp only [analyse_each_turn, hne, Bool.false_eq_true, if_false] at hx
  obtain ⟨K, hK, hs, hint, -⟩ := loop_eq_steps c d ts g og _ 0 _ res x hx
  have hkK : k ≤ K := by
    by_contra hc
    obtain ⟨z, hz, hzi⟩ := hprev K (Nat.lt_of_not_le hc)
    rw [hs] at hz
    cases hz
    rw [hint (by omega)] at hzi
    cases hzi
  obtain ⟨m, rfl⟩ := Nat.exists_eq_add_of_le hkK
  rw [show k + m + 1 = (k + 1) + m from by omega, steps_add] at hs
  cases e : analyse_each_turn.steps c d ts g og (k + 1) 0 turns_analyser.init res with
  | none => rw [e] at hs; cases hs
  | some w =>
    rw [e] at hs
    simp only [Option.some_bind] at hs
    obtain ⟨y, -, hyw⟩ := steps_last_call c d ts g og k _ res w e
    have hw : 3 ≤ (w.2.cell (d != 0) field.interior field.interior).rank := by
      rw [apply_intersection_interiors c d y.1 y.2 ts k g og t w ht hop hyw, rank_upgrade]
      exact Nat.le_max_right _ _
    have hfin : 3 ≤ (x.2.cell (d != 0) field.interior field.interior).rank :=
      steps_invariant c d ts g og
        (fun r => 3 ≤ (r.cell (d != 0) field.interior field.interior).rank)
        (fun u _ r hr => Nat.le_trans hr (rank_cell_update_ge _ _ _ _ _ _ _ _)) m _ w.1 w.2 x hw hs
    rw [cell_interior] at hfin
    exact hfin

theorem interiors_le_update (full : (field → field → code) → Bool) :
    ∀ u ∈ scanner_writes ++ analyser_writes, ∀ (tr : Bool) (r : result),
      (r.cells field.interior field.interior).rank ≤ 3 →
      ((update full u.1 u.2.1 u.2.2 tr r).cells field.interior field.interior).rank ≤ 3 := by
  intro u hu tr r h
  have hd : ∀ v ∈ scanner_writes ++ analyser_writes, v.2.2 + 2 ≤ 3 := by decide
  rw [← cell_interior _ tr] at h ⊢
  exact rank_cell_update_le full _ _ _ _ _ tr r 3 (hd u hu) h

theorem scan_interiors_le (c : collaborators P) (d : Nat) (ts : List (turn P))
    (g og : geometry P) (res : result) (x : turns_analyser P × result)
    (hx : analyse_each_turn c d res turns_analyser.init ts g og = some x)
    (h : (res.cells field.interior field.interior).rank ≤ 3) :
    (x.2.cells field.interior field.interior).rank ≤ 3 :=
  analyse_each_turn_invariant c d ts g og
    (fun r => (r.cells field.interior field.interior).rank ≤ 3)
    (fun u hu r hr => interiors_le_update c.full u (List.mem_append_right _ hu) _ r hr)
    _ x.1 res x.2 h hx

theorem scan_interiors_ge (c : collaborators P) (d : Nat) (ts : List (turn P))
    (g og : geometry P) (res : result) (x : turns_analyser P × result)
    (hx : analyse_each_turn c d res turns_analyser.init ts g og = some x)
    (h : 3 ≤ (res.cells field.interior field.interior).rank) :
    3 ≤ (x.2.cells field.interior field.interior).rank :=
  analyse_each_turn_invariant c d ts g og
    (fun r => 3 ≤ (r.cells field.interior field.interior).rank)
    (fun _ _ r hr => Nat.le_trans hr (update_le c.full _ _ _ _ r _ _))
    _ x.1 res x.2 h hx

theorem apply_interiors_le (c : collaborators P) (g1 g2 : geometry P) (r : result)
    (hr : linear_linear.apply c g1 g2 = some r) :
    (r.cells field.interior field.interior).rank ≤ 3 :=
  linear_linear_apply_invariant c g1 g2
    (fun r => (r.cells field.interior field.interior).rank ≤ 3)
    (interiors_le_update c.full) (by simp [set, result.init, code.rank]) r hr

theorem code_eq_one_of_rank {x : code} (h1 : 3 ≤ x.rank) (h2 : x.rank ≤ 3) : x = code.dim 1 :=
  rank_injective (Nat.le_antisymm h2 h1)

/-- C20: a call of the analyser on a turn whose operation on side `d` is
intersection upgrades `(I,I)` to `'1'`; a scan that calls the analyser on such
a turn before any interrupt returns with at least `'1'` in `(I,I)`, and with
exactly `'1'` when the cell held at most `'1'` at the start; and when a scan of
`linear_linear::apply`, in direction 0 or in direction 1, calls the analyser on
such a turn, `apply` returns a matrix with `(I,I) = '1'`, for all collaborators. -/
theorem intersection_records_interiors (c : collaborators P) :
    (∀ (d : Nat) (st : turns_analyser P) (res : result) (ts : List (turn P)) (it : Nat)
      (g og : geometry P) (t : turn P) (x : turns_analyser P × result),
      ts[it]? = some t → (t.op d).operation = operation_type.operation_intersection →
      turns_analyser.apply c d st res ts it g og = some x →
      x.2.cells field.interior field.interior =
        (res.cells field.interior field.interior).upgrade 1) ∧
    (∀ (d : Nat) (ts : List (turn P)) (g og : geometry P) (res : result),
      processes_intersection c d ts g og res →
      ∃ x, analyse_each_turn c d res turns_analyser.init ts g og = some x ∧
        (code.dim 1).rank ≤ (x.2.cells field.interior field.interior).rank ∧
        ((res.cells field.interior field.interior).rank ≤ (code.dim 1).rank →
          x.2.cells field.interior field.interior = code.dim 1)) ∧
    (∀ (g1 g2 : geometry P) (x1 x2 : (disjoint_linestring_pred × result) × Bool),
      for_each_disjoint_linestring_if.apply 0 (c.get_turns g1 g2) g1
        (disjoint_linestring_pred.call c 0 g1 g2)
        (disjoint_linestring_pred.init,
          set field.exterior field.exterior (c.result_dimension g1) result.init) = some x1 →
      x1.1.2.interrupt = false →
      for_each_disjoint_linestring_if.apply 1 (c.get_turns g1 g2) g2
        (disjoint_linestring_pred.call c 1 g2 g1) (disjoint_linestring_pred.init, x1.1.2) =
          some x2 →
      x2.1.2.interrupt = false →
      (c.get_turns g1 g2).isEmpty = false →
      (processes_intersection c 0 (c.sort_less_seg_dist_op 0 (c.get_turns g1 g2)) g1 g2 x2.1.2 →
        ∃ r, linear_linear.apply c g1 g2 = some r ∧
          r.cells field.interior field.interior = code.dim 1) ∧
      (∀ x3 : turns_analyser P × result,
        analyse_each_turn c 0 x2.1.2 turns_analyser.init
          (c.sort_less_seg_dist_op 0 (c.get_turns g1 g2)) g1 g2 = some x3 →
        x3.2.interrupt = false →
        processes_intersection c 1
          (c.sort_less_seg_dist_op 1 (c.sort_less_seg_dist_op 0 (c.get_turns g1 g2))) g2 g1
          x3.2 →
        ∃ r, linear_linear.apply c g1 g2 = some r ∧
          r.cells field.interior field.interior = code.dim 1)) := by
  refine ⟨fun d st res ts it g og t x ht hop hx => ?_, fun d ts g og res hp => ?_,
    fun g1 g2 x1 x2 e1 f1 e2 f2 hne => ⟨fun hp => ?_, fun x3 e3 f3 hp => ?_⟩⟩
  · have := apply_intersection_interiors c d st res ts it g og t x ht hop hx
    rw [cell_interior, cell_interior] at this
    exact this
  · obtain ⟨x, hx⟩ := analyse_each_turn_ready c d ts g og res
    have h3 := scan_intersection_interiors c d ts g og res x hx hp
    exact ⟨x, hx, h3, fun hle => code_eq_one_of_rank h3 (scan_interiors_le c d ts g og res x hx hle)⟩
  · obtain ⟨x3, e3⟩ := analyse_each_turn_ready c 0
      (c.sort_less_seg_dist_op 0 (c.get_turns g1 g2)) g1 g2 x2.1.2
    have h3 := scan_intersection_interiors c 0 _ g1 g2 x2.1.2 x3 e3 hp
    by_cases f3 : x3.2.interrupt = true
    · have hr : linear_linear.apply c g1 g2 = some x3.2 := by
        unfold linear_linear.apply
        simp only [e1, f1, e2, f2, hne, e3, f3, Bool.false_eq_true, if_false, if_true]
      exact ⟨_, hr, code_eq_one_of_rank h3 (apply_interiors_le c g1 g2 _ hr)⟩
    · obtain ⟨x4, e4⟩ := analyse_each_turn_ready c 1
        (c.sort_less_seg_dist_op 1 (c.sort_less_seg_dist_op 0 (c.get_turns g1 g2))) g2 g1 x3.2
      have hr : linear_linear.apply c g1 g2 = some x4.2 := by
        unfold linear_linear.apply
        simp only [e1, f1, e2, f2, hne, e3, f3, e4, Bool.false_eq_true, if_false]
      exact ⟨_, hr, code_eq_one_of_rank (scan_interiors_ge c 1 _ g2 g1 x3.2 x4 e4 h3)
        (apply_interiors_le c g1 g2 _ hr)⟩
  · obtain ⟨x4, e4⟩ := analyse_each_turn_ready c 1
      (c.sort_less_seg_dist_op 1 (c.sort_less_seg_dist_op 0 (c.get_turns g1 g2))) g2 g1 x3.2
    have h4 := scan_intersection_interiors c 1 _ g2 g1 x3.2 x4 e4 hp
    have hr : linear_linear.apply c g1 g2 = some x4.2 := by
      unfold linear_linear.apply
      simp only [e1, f1, e2, f2, hne, e3, f3, e4, Bool.false_eq_true, if_false]
    exact ⟨_, hr, code_eq_one_of_rank h4 (apply_interiors_le c g1 g2 _ hr)⟩
/-- Witness of C20 on `A = B = [(0,0),(1,0)]`, whose first turn is an
intersection on both sides: the first call of direction 0, the scan of
direction 0 and the matrix `apply` returns, by the scan of either direction. -/
theorem intersection_records_interiors_witness :
    ((turns_analyser.apply
        (example_collaborators (fun _ _ => [equal_front_turn, equal_back_turn]) fun _ => false)
        0 turns_analyser.init result.init [equal_front_turn, equal_back_turn] 0
        (geometry.linestring [(0, 0), (1, 0)]) (geometry.linestring [(0, 0), (1, 0)])).get
        (by decide)).2.cells field.interior field.interior =
      (result.init.cells field.interior field.interior).upgrade 1 ∧
    (∃ x, analyse_each_turn
        (example_collaborators (fun _ _ => [equal_front_turn, equal_back_turn]) fun _ => false)
        0 result.init turns_analyser.init [equal_front_turn, equal_back_turn]
        (geometry.linestring [(0, 0), (1, 0)]) (geometry.linestring [(0, 0), (1, 0)]) = some x ∧
      (code.dim 1).rank ≤ (x.2.cells field.interior field.interior).rank ∧
      ((result.init.cells field.interior field.interior).rank ≤ (code.dim 1).rank →
        x.2.cells field.interior field.interior = code.dim 1)) ∧
    (∃ r, linear_linear.apply
        (example_collaborators (fun _ _ => [equal_front_turn, equal_back_turn]) fun _ => false)
        (geometry.linestring [(0, 0), (1, 0)]) (geometry.linestring [(0, 0), (1, 0)]) = some r ∧
      r.cells field.interior field.interior = code.dim 1) ∧
    (∃ r, linear_linear.apply
        (example_collaborators (fun _ _ => [equal_front_turn, equal_back_turn]) fun _ => false)
        (geometry.linestring [(0, 0), (1, 0)]) (geometry.linestring [(0, 0), (1, 0)]) = some r ∧
      r.cells field.interior field.interior = code.dim 1) :=
  ⟨(intersection_records_interiors
      (example_collaborators (fun _ _ => [equal_front_turn, equal_back_turn]) fun _ => false)).1
      0 turns_analyser.init result.init [equal_front_turn, equal_back_turn] 0
      (geometry.linestring [(0, 0), (1, 0)]) (geometry.linestring [(0, 0), (1, 0)])
      equal_front_turn _ rfl rfl (Option.some_get (by decide)).symm,
   (intersection_records_interiors
      (example_collaborators (fun _ _ => [equal_front_turn, equal_back_turn]) fun _ => false)).2.1
      0 [equal_front_turn, equal_back_turn]
      (geometry.linestring [(0, 0), (1, 0)]) (geometry.linestring [(0, 0), (1, 0)]) result.init
      ⟨0, equal_front_turn, rfl, rfl, fun j hj => absurd hj (Nat.not_lt_zero j)⟩,
   ((intersection_records_interiors
      (example_collaborators (fun _ _ => [equal_front_turn, equal_back_turn]) fun _ => false)).2.2
      (geometry.linestring [(0, 0), (1, 0)]) (geometry.linestring [(0, 0), (1, 0)]) _ _
      (Option.some_get (by decide)).symm rfl (Option.some_get (by decide)).symm rfl rfl).1
      ⟨0, equal_front_turn, rfl, rfl, fun j hj => absurd hj (Nat.not_lt_zero j)⟩,
   ((intersection_records_interiors
      (example_collaborators (fun _ _ => [equal_front_turn, equal_back_turn]) fun _ => false)).2.2
      (geometry.linestring [(0, 0), (1, 0)]) (geometry.linestring [(0, 0), (1, 0)]) _ _
      (Option.some_get (by decide)).symm rfl (Option.some_get (by decide)).symm rfl rfl).2 _
      (Option.some_get (by decide)).symm rfl
      ⟨0, equal_front_turn, rfl, rfl, fun j hj => absurd hj (Nat.not_lt_zero j)⟩⟩

/-! ### The branches of the analyser inside a call -/

/-- A call on an intersection turn runs the intersection branch on the watcher
and the matrix left by the two checks before it. -/
theorem apply_intersection_eq (c : collaborators P) (d : Nat) (st : turns_analyser P)
    (res : result) (ts : List (turn P)) (it : Nat) (g og : geometry P) (t : turn P)
    (ew : exit_watcher P) (r1 r2 : result) (fk : Bool) (ht : ts[it]? = some t)
    (hop : (t.op d).operation = operation_type.operation_intersection)
    (h1 : turns_analyser.handle_possible_exit c (d != 0) st.m_exit_watcher res t.point
      (t.op d).operation = some (ew, r1, fk))
    (h2 : turns_analyser.check_previous_range c d (d != 0) ts it g
      (st.m_seg_watcher.update (t.op d).seg_id).1 fk st.m_last_union r1 = some r2) :
    turns_analyser.apply c d st res ts it g og =
      some ({ m_exit_watcher := (ew.enter t.point (t.op ((d + 1) % 2)).seg_id).2,
              m_seg_watcher := (st.m_seg_watcher.update (t.op d).seg_id).2,
              m_last_union := false },
        (turns_analyser.on_intersection c (d != 0) g og t.point (t.op d).seg_id
          (t.op ((d + 1) % 2)).seg_id (t.op ((d + 1) % 2)).operation
          (st.m_seg_watcher.update (t.op d).seg_id).1 fk ew r2).2) := by
  unfold turns_analyser.apply
  simp only [ht, if_neg (not_not_acted (Or.inr (Or.inl hop))), h1, h2, if_pos hop,
    on_intersection_watcher]
  simp [hop]

/-- A call on a union or blocked turn runs the union/blocked branch on the
watcher and the matrix left by the two checks before it. -/
theorem apply_union_blocked_eq (c : collaborators P) (d : Nat) (st : turns_analyser P)
    (res : result) (ts : List (turn P)) (it : Nat) (g og : geometry P) (t : turn P)
    (ew : exit_watcher P) (r1 r2 : result) (fk : Bool) (ht : ts[it]? = some t)
    (hop : (t.op d).operation = operation_type.operation_union ∨
      (t.op d).operation = operation_type.operation_blocked)
    (h1 : turns_analyser.handle_possible_exit c (d != 0) st.m_exit_watcher res t.point
      (t.op d).operation = some (ew, r1, fk))
    (h2 : turns_analyser.check_previous_range c d (d != 0) ts it g
      (st.m_seg_watcher.update (t.op d).seg_id).1 fk st.m_last_union r1 = some r2) :
    turns_analyser.apply c d st res ts it g og =
      some ({ m_exit_watcher :=
                (ew.exit t.point (t.op ((d + 1) % 2)).seg_id (t.op d).operation).2,
              m_seg_watcher := (st.m_seg_watcher.update (t.op d).seg_id).2,
              m_last_union := decide ((t.op d).operation = operation_type.operation_union) },
        (turns_analyser.on_union_or_blocked c (d != 0) g og t.point t.method (t.op d).operation
          (t.op d).seg_id (t.op ((d + 1) % 2)).seg_id (t.op ((d + 1) % 2)).operation
          (st.m_seg_watcher.update (t.op d).seg_id).1 ew r2).2) := by
  have hni : (t.op d).operation ≠ operation_type.operation_intersection := by
    rcases hop with h | h <;> rw [h] <;> decide
  unfold turns_analyser.apply
  simp only [ht, if_neg (not_not_acted (hop.elim Or.inl fun h => Or.inr (Or.inr h))), h1, h2,
    if_neg hni, if_pos hop, on_union_or_blocked_watcher]

theorem isEmpty_eq_false_of_ne_nil {α : Type} {l : List α} (h : l ≠ []) : l.isEmpty = false := by
  cases l with
  | nil => exact absurd rfl h
  | cons a l => rfl

theorem exit_of_no_entry (ew : exit_watcher P) (point : P) (id : segment_identifier)
    (op : operation_type) (h : ew.other_entry_points = []) :
    ew.exit point id op = (true, ew) := by
  simp [exit_watcher.exit, h]

theorem exit_of_entry (ew : exit_watcher P) (point : P) (id : segment_identifier)
    (op : operation_type) (h : ew.other_entry_points ≠ []) :
    (ew.exit point id op).1 = false := by
  unfold exit_watcher.exit
  rw [isEmpty_eq_false_of_ne_nil h]
  simp only [Bool.false_eq_true, if_false]
  split_ifs <;> rfl

/-- C21: a call on an intersection turn whose point is a first boundary point
of this geometry writes, after `(I,I) = '1'`, exactly one of `(B,B) = '0'` and
`(B,I) = '0'` on the matrix left by the two checks before the branch: `(B,B)`
exactly when the point is on the boundary of the other geometry, which is
decided by `is_endpoint_boundary<boundary_back>` when the operation of the
other side is blocked and by `is_boundary<boundary_any>` otherwise; the branch
keeps `(I,E)` and `(B,E)`. -/
theorem intersection_on_boundary (c : collaborators P) (d : Nat) (st : turns_analyser P)
    (res : result) (ts : List (turn P)) (it : Nat) (g og : geometry P) (t : turn P)
    (ew : exit_watcher P) (r1 r2 : result) (fk : Bool) (ht : ts[it]? = some t)
    (hop : (t.op d).operation = operation_type.operation_intersection)
    (h1 : turns_analyser.handle_possible_exit c (d != 0) st.m_exit_watcher res t.point
      (t.op d).operation = some (ew, r1, fk))
    (h2 : turns_analyser.check_previous_range c d (d != 0) ts it g
      (st.m_seg_watcher.update (t.op d).seg_id).1 fk st.m_last_union r1 = some r2)
    (hb : c.is_boundary g boundary_query.boundary_front t.point (t.op d).seg_id = true) :
    ∃ x, turns_analyser.apply c d st res ts it g og = some x ∧
      x.2 =
        (if (if (t.op ((d + 1) % 2)).operation = operation_type.operation_blocked then
              c.is_endpoint_boundary og boundary_query.boundary_back t.point
            else c.is_boundary og boundary_query.boundary_any t.point
              (t.op ((d + 1) % 2)).seg_id) = true then
          update c.full field.boundary field.boundary 0 (d != 0)
            (update c.full field.interior field.interior 1 (d != 0) r2)
        else
          update c.full field.boundary field.interior 0 (d != 0)
            (update c.full field.interior field.interior 1 (d != 0) r2)) ∧
      x.2.cell (d != 0) field.interior field.exterior =
        r2.cell (d != 0) field.interior field.exterior ∧
      x.2.cell (d != 0) field.boundary field.exterior =
        r2.cell (d != 0) field.boundary field.exterior := by
  have hx := apply_intersection_eq c d st res ts it g og t ew r1 r2 fk ht hop h1 h2
  have hr : (turns_analyser.on_intersection c (d != 0) g og t.point (t.op d).seg_id
      (t.op ((d + 1) % 2)).seg_id (t.op ((d + 1) % 2)).operation
      (st.m_seg_watcher.update (t.op d).seg_id).1 fk ew r2).2 =
      (if (if (t.op ((d + 1) % 2)).operation = operation_type.operation_blocked then
            c.is_endpoint_boundary og boundary_query.boundary_back t.point
          else c.is_boundary og boundary_query.boundary_any t.point
            (t.op ((d + 1) % 2)).seg_id) = true then
        update c.full field.boundary field.boundary 0 (d != 0)
          (update c.full field.interior field.interior 1 (d != 0) r2)
      else
        update c.full field.boundary field.interior 0 (d != 0)
          (update c.full field.interior field.interior 1 (d != 0) r2)) := by
    unfold turns_analyser.on_intersection turns_analyser.other_b
    simp only [hb, if_true]
    split_ifs <;> rfl
  refine ⟨_, hx, hr, ?_, ?_⟩
  · simp only
    rw [hr]
    split_ifs <;>
      rw [cell_update_other _ _ _ _ _ _ _ _ (by decide),
        cell_update_other _ _ _ _ _ _ _ _ (by decide)]
  · simp only
    rw [hr]
    split_ifs <;>
      rw [cell_update_other _ _ _ _ _ _ _ _ (by decide),
        cell_update_other _ _ _ _ _ _ _ _ (by decide)]

/-- Witness of C21: the first turn of two equal curves, at the first point of
both. -/
theorem intersection_on_boundary_witness :
    ∃ x, turns_analyser.apply (example_collaborators (fun _ _ => []) fun _ => false) 0
        turns_analyser.init result.init [equal_front_turn, equal_back_turn] 0
        (geometry.linestring [(0, 0), (1, 0)]) (geometry.linestring [(0, 0), (1, 0)]) = some x ∧
      x.2 =
        (if (if (equal_front_turn.op ((0 + 1) % 2)).operation =
                operation_type.operation_blocked then
              (example_collaborators (fun _ _ => []) fun _ => false).is_endpoint_boundary
                (geometry.linestring [(0, 0), (1, 0)]) boundary_query.boundary_back
                equal_front_turn.point
            else (example_collaborators (fun _ _ => []) fun _ => false).is_boundary
              (geometry.linestring [(0, 0), (1, 0)]) boundary_query.boundary_any
              equal_front_turn.point (equal_front_turn.op ((0 + 1) % 2)).seg_id) = true then
          update (fun _ => false) field.boundary field.boundary 0 (0 != 0)
            (update (fun _ => false) field.interior field.interior 1 (0 != 0) result.init)
        else
          update (fun _ => false) field.boundary field.interior 0 (0 != 0)
            (update (fun _ => false) field.interior field.interior 1 (0 != 0) result.init)) ∧
      x.2.cell (0 != 0) field.interior field.exterior =
        result.init.cell (0 != 0) field.interior field.exterior ∧
      x.2.cell (0 != 0) field.boundary field.exterior =
        result.init.cell (0 != 0) field.boundary field.exterior :=
  intersection_on_boundary (example_collaborators (fun _ _ => []) fun _ => false) 0
    turns_analyser.init result.init [equal_front_turn, equal_back_turn] 0
    (geometry.linestring [(0, 0), (1, 0)]) (geometry.linestring [(0, 0), (1, 0)])
    equal_front_turn exit_watcher.init result.init result.init false rfl rfl rfl rfl (by decide)

/-- C22: a call on an intersection turn whose point is not a first boundary
point of this geometry writes, after `(I,I) = '1'`, `(I,E) = '1'` exactly when
`enter` met no pending entry and no fake entry was detected in the call, and
then `(B,E) = '0'` exactly when moreover the turn is first in its range and the
first point of the curve of the turn is an end-point boundary; the branch
keeps `(B,B)` and `(B,I)`. -/
theorem intersection_off_boundary (c : collaborators P) (d : Nat) (st : turns_analyser P)
    (res : result) (ts : List (turn P)) (it : Nat) (g og : geometry P) (t : turn P)
    (ew : exit_watcher P) (r1 r2 : result) (fk : Bool) (ht : ts[it]? = some t)
    (hop : (t.op d).operation = operation_type.operation_intersection)
    (h1 : turns_analyser.handle_possible_exit c (d != 0) st.m_exit_watcher res t.point
      (t.op d).operation = some (ew, r1, fk))
    (h2 : turns_analyser.check_previous_range c d (d != 0) ts it g
      (st.m_seg_watcher.update (t.op d).seg_id).1 fk st.m_last_union r1 = some r2)
    (hb : c.is_boundary g boundary_query.boundary_front t.point (t.op d).seg_id = false) :
    (ew.enter t.point (t.op ((d + 1) % 2)).seg_id).1 = ew.other_entry_points.isEmpty ∧
    ∃ x, turns_analyser.apply c d st res ts it g og = some x ∧
      x.2 =
        (if ew.other_entry_points.isEmpty = true ∧ fk = false then
          if (st.m_seg_watcher.update (t.op d).seg_id).1 = true ∧
              c.is_endpoint_boundary g boundary_query.boundary_front
                (range.front (sub_geometry.get g (t.op d).seg_id)) = true then
            update c.full field.boundary field.exterior 0 (d != 0)
              (update c.full field.interior field.exterior 1 (d != 0)
                (update c.full field.interior field.interior 1 (d != 0) r2))
          else
            update c.full field.interior field.exterior 1 (d != 0)
              (update c.full field.interior field.interior 1 (d != 0) r2)
        else update c.full field.interior field.interior 1 (d != 0) r2) ∧
      x.2.cell (d != 0) field.boundary field.boundary =
        r2.cell (d != 0) field.boundary field.boundary ∧
      x.2.cell (d != 0) field.boundary field.interior =
        r2.cell (d != 0) field.boundary field.interior := by
  have hx := apply_intersection_eq c d st res ts it g og t ew r1 r2 fk ht hop h1 h2
  have hr : (turns_analyser.on_intersection c (d != 0) g og t.point (t.op d).seg_id
      (t.op ((d + 1) % 2)).seg_id (t.op ((d + 1) % 2)).operation
      (st.m_seg_watcher.update (t.op d).seg_id).1 fk ew r2).2 =
      (if ew.other_entry_points.isEmpty = true ∧ fk = false then
        if (st.m_seg_watcher.update (t.op d).seg_id).1 = true ∧
            c.is_endpoint_boundary g boundary_query.boundary_front
              (range.front (sub_geometry.get g (t.op d).seg_id)) = true then
          update c.full field.boundary field.exterior 0 (d != 0)
            (update c.full field.interior field.exterior 1 (d != 0)
              (update c.full field.interior field.interior 1 (d != 0) r2))
        else
          update c.full field.interior field.exterior 1 (d != 0)
            (update c.full field.interior field.interior 1 (d != 0) r2)
      else update c.full field.interior field.interior 1 (d != 0) r2) := by
    unfold turns_analyser.on_intersection
    simp only [hb, Bool.false_eq_true, if_false, exit_watcher.enter]
    cases ew.other_entry_points.isEmpty <;> cases fk <;>
      cases (st.m_seg_watcher.update (t.op d).seg_id).1 <;>
      cases c.is_endpoint_boundary g boundary_query.boundary_front
        (range.front (sub_geometry.get g (t.op d).seg_id)) <;> simp
  refine ⟨rfl, _, hx, hr, ?_, ?_⟩
  · simp only
    rw [hr]
    split_ifs <;> repeat rw [cell_update_other _ _ _ _ _ _ _ _ (by decide)]
  · simp only
    rw [hr]
    split_ifs <;> repeat rw [cell_update_other _ _ _ _ _ _ _ _ (by decide)]

/-- Witness of C22: the first turn of `re_entry_turns` on `re_entry_a`, at an
inner vertex of the curve, whose first point is an end-point boundary. -/
theorem intersection_off_boundary_witness :
    ((exit_watcher.init : exit_watcher (Int × Int)).enter (0, 0) ⟨1, 0, -1, 0⟩).1 = true ∧
    ∃ x, turns_analyser.apply (example_collaborators (fun _ _ => []) fun _ => false) 0
        turns_analyser.init result.init (re_entry_turns 1) 0 re_entry_a re_entry_b = some x ∧
      x.2 = update (fun _ => false) field.boundary field.exterior 0 (0 != 0)
        (update (fun _ => false) field.interior field.exterior 1 (0 != 0)
          (update (fun _ => false) field.interior field.interior 1 (0 != 0) result.init)) ∧
      x.2.cell (0 != 0) field.boundary field.boundary =
        result.init.cell (0 != 0) field.boundary field.boundary ∧
      x.2.cell (0 != 0) field.boundary field.interior =
        result.init.cell (0 != 0) field.boundary field.interior :=
  intersection_off_boundary (example_collaborators (fun _ _ => []) fun _ => false) 0
    turns_analyser.init result.init (re_entry_turns 1) 0 re_entry_a re_entry_b
    { point := (0, 0), method := method_type.method_touch,
      operations := (⟨operation_type.operation_intersection, ⟨0, -1, -1, 1⟩⟩,
                     ⟨operation_type.operation_intersection, ⟨1, 0, -1, 0⟩⟩) }
    exit_watcher.init result.init result.init false rfl rfl rfl rfl (by decide)

theorem handle_possible_exit_entries (c : collaborators P) (tr : Bool) (ew : exit_watcher P)
    (res : result) (point : P) (op : operation_type) (y : exit_watcher P × result × Bool)
    (h : turns_analyser.handle_possible_exit c tr ew res point op = some y) :
    y.1.other_entry_points = ew.other_entry_points := by
  unfold turns_analyser.handle_possible_exit at h
  by_cases hu : ew.get_exit_operation = operation_type.operation_union
  · rw [if_pos hu] at h
    cases e : ew.get_exit_point with
    | none => rw [e] at h; cases h
    | some p =>
      rw [e] at h
      simp only at h
      split_ifs at h <;> cases h <;> rfl
  · rw [if_neg hu] at h
    cases h
    rfl

/-- The union/blocked branch met with no pending entry. -/
theorem on_union_or_blocked_outside (c : collaborators P) (tr : Bool) (g og : geometry P)
    (point : P) (m : method_type) (op : operation_type) (seg_id other_id : segment_identifier)
    (oop : operation_type) (fir : Bool) (ew : exit_watcher P) (res : result)
    (h : ew.other_entry_points = []) :
    (turns_analyser.on_union_or_blocked c tr g og point m op seg_id other_id oop fir ew res).2 =
      (if (fir = true ∧ (m = method_type.method_crosses ∨
              (if op = operation_type.operation_blocked then
                c.is_endpoint_boundary g boundary_query.boundary_back point
              else c.is_boundary g boundary_query.boundary_front point seg_id) = false ∨
              op = operation_type.operation_blocked)) ∧
            c.is_endpoint_boundary g boundary_query.boundary_front
              (range.front (sub_geometry.get g seg_id)) = true then
        update c.full field.boundary field.exterior 0 tr
          (if m = method_type.method_crosses ∨
              (if op = operation_type.operation_blocked then
                c.is_endpoint_boundary g boundary_query.boundary_back point
              else c.is_boundary g boundary_query.boundary_front point seg_id) = false then
            update c.full field.interior field.interior 0 tr
              (update c.full field.interior field.exterior 1 tr res)
          else if turns_analyser.other_b c og point oop other_id = true then
            update c.full field.boundary field.boundary 0 tr
              (update c.full field.interior field.exterior 1 tr res)
          else
            update c.full field.boundary field.interior 0 tr
              (update c.full field.interior field.exterior 1 tr res))
      else
        (if m = method_type.method_crosses ∨
            (if op = operation_type.operation_blocked then
              c.is_endpoint_boundary g boundary_query.boundary_back point
            else c.is_boundary g boundary_query.boundary_front point seg_id) = false then
          update c.full field.interior field.interior 0 tr
            (update c.full field.interior field.exterior 1 tr res)
        else if turns_analyser.other_b c og point oop other_id = true then
          update c.full field.boundary field.boundary 0 tr
            (update c.full field.interior field.exterior 1 tr res)
        else
          update c.full field.boundary field.interior 0 tr
            (update c.full field.interior field.exterior 1 tr res))) := by
  unfold turns_analyser.on_union_or_blocked
  simp only [exit_of_no_entry ew point other_id op h, Bool.not_true, Bool.false_eq_true, if_false]
  by_cases hm : m = method_type.method_crosses
  · simp only [hm, if_true, true_or, and_true]
    cases fir <;>
      cases c.is_endpoint_boundary g boundary_query.boundary_front
        (range.front (sub_geometry.get g seg_id)) <;> simp
  · simp only [hm, if_false, false_or]
    by_cases hb : op = operation_type.operation_blocked
    · simp only [hb, decide_True, if_true, Bool.and_true, or_true, and_true]
      cases fir <;>
        cases c.is_endpoint_boundary g boundary_query.boundary_back point <;>
        cases turns_analyser.other_b c og point oop other_id <;>
        cases c.is_endpoint_boundary g boundary_query.boundary_front
          (range.front (sub_geometry.get g seg_id)) <;> simp
    · simp only [hb, decide_False, if_false, Bool.and_false, or_false]
      cases fir <;>
        cases c.is_boundary g boundary_query.boundary_front point seg_id <;>
        cases turns_analyser.other_b c og point oop other_id <;>
        cases c.is_endpoint_boundary g boundary_query.boundary_front
          (range.front (sub_geometry.get g seg_id)) <;> simp

/-- The union/blocked branch met with a pending entry. -/
theorem on_union_or_blocked_inside (c : collaborators P) (tr : Bool) (g og : geometry P)
    (point : P) (m : method_type) (op : operation_type) (seg_id other_id : segment_identifier)
    (oop : operation_type) (fir : Bool) (ew : exit_watcher P) (res : result)
    (h : ew.other_entry_points ≠ []) :
    (turns_analyser.on_union_or_blocked c tr g og point m op seg_id other_id oop fir ew res).2 =
      (if op = operation_type.operation_blocked ∧
            c.is_endpoint_boundary g boundary_query.boundary_back point = true then
        if turns_analyser.other_b c og point oop other_id = true then
          update c.full field.boundary field.boundary 0 tr res
        else update c.full field.boundary field.interior 0 tr res
      else res) := by
  unfold turns_analyser.on_union_or_blocked
  simp only [exit_of_entry ew point other_id op h, Bool.not_false, if_true]
  by_cases hb : op = operation_type.operation_blocked
  · simp only [hb, decide_True, if_true, true_and]
    split_ifs <;> rfl
  · simp only [hb, decide_False, Bool.false_eq_true, if_false, false_and]

/-- C23: a call on a union or blocked turn met with no pending entry writes
`(I,E) = '1'` on the matrix left by the two checks before the branch, and then
exactly one of `(I,I) = '0'`, `(B,B) = '0'`, `(B,I) = '0'`: `(I,I)` when the
method is crosses or the point is not a boundary point of this geometry
(`is_endpoint_boundary<boundary_back>` for a blocked turn,
`is_boundary<boundary_front>` otherwise), else `(B,B)` or `(B,I)` by the
boundary test of the other geometry; a last update `(B,E) = '0'` for the first
point of the curve may follow. Off the boundary of this geometry the matrix
does not depend on the boundary test of the other geometry. -/
theorem union_or_blocked_outside (c : collaborators P) (d : Nat) (st : turns_analyser P)
    (res : result) (ts : List (turn P)) (it : Nat) (g og : geometry P) (t : turn P)
    (ew : exit_watcher P) (r1 r2 : result) (fk : Bool) (ht : ts[it]? = some t)
    (hop : (t.op d).operation = operation_type.operation_union ∨
      (t.op d).operation = operation_type.operation_blocked)
    (h1 : turns_analyser.handle_possible_exit c (d != 0) st.m_exit_watcher res t.point
      (t.op d).operation = some (ew, r1, fk))
    (h2 : turns_analyser.check_previous_range c d (d != 0) ts it g
      (st.m_seg_watcher.update (t.op d).seg_id).1 fk st.m_last_union r1 = some r2)
    (hout : st.m_exit_watcher.other_entry_points = []) :
    ∃ x main, turns_analyser.apply c d st res ts it g og = some x ∧
      main =
        (if t.method = method_type.method_crosses ∨
            (if (t.op d).operation = operation_type.operation_blocked then
              c.is_endpoint_boundary g boundary_query.boundary_back t.point
            else c.is_boundary g boundary_query.boundary_front t.point (t.op d).seg_id) =
              false then
          update c.full field.interior field.interior 0 (d != 0)
            (update c.full field.interior field.exterior 1 (d != 0) r2)
        else if turns_analyser.other_b c og t.point (t.op ((d + 1) % 2)).operation
            (t.op ((d + 1) % 2)).seg_id = true then
          update c.full field.boundary field.boundary 0 (d != 0)
            (update c.full field.interior field.exterior 1 (d != 0) r2)
        else
          update c.full field.boundary field.interior 0 (d != 0)
            (update c.full field.interior field.exterior 1 (d != 0) r2)) ∧
      (x.2 = main ∨ x.2 = update c.full field.boundary field.exterior 0 (d != 0) main) ∧
      ((if (t.op d).operation = operation_type.operation_blocked then
          c.is_endpoint_boundary g boundary_query.boundary_back t.point
        else c.is_boundary g boundary_query.boundary_front t.point (t.op d).seg_id) = false →
        main = update c.full field.interior field.interior 0 (d != 0)
          (update c.full field.interior field.exterior 1 (d != 0) r2)) := by
  have hx := apply_union_blocked_eq c d st res ts it g og t ew r1 r2 fk ht hop h1 h2
  have he : ew.other_entry_points = [] :=
    (handle_possible_exit_entries c _ _ _ _ _ _ h1).trans hout
  rw [on_union_or_blocked_outside c _ g og _ _ _ _ _ _ _ _ _ he] at hx
  refine ⟨_, _, hx, rfl, ?_, fun hb => ?_⟩
  · simp only
    split_ifs <;> first | exact Or.inl rfl | exact Or.inr rfl
  · rw [if_pos (Or.inr hb)]

/-- Witness of C23: a transversal crossing met by a fresh analyser. -/
theorem union_or_blocked_outside_witness :
    ∃ x, turns_analyser.apply (example_collaborators (fun _ _ => []) fun _ => false) 0
        turns_analyser.init result.init [crossing_turn] 0
        (geometry.linestring [(0, 0), (2, 0)]) (geometry.linestring [(1, 1), (1, -1)]) = some x ∧
      (x.2 = update (fun _ => false) field.interior field.interior 0 (0 != 0)
          (update (fun _ => false) field.interior field.exterior 1 (0 != 0) result.init) ∨
        x.2 = update (fun _ => false) field.boundary field.exterior 0 (0 != 0)
          (update (fun _ => false) field.interior field.interior 0 (0 != 0)
            (update (fun _ => false) field.interior field.exterior 1 (0 != 0) result.init))) := by
  obtain ⟨x, main, hx, hm, hx2, hi⟩ :=
    union_or_blocked_outside (example_collaborators (fun _ _ => []) fun _ => false) 0
      turns_analyser.init result.init [crossing_turn] 0
      (geometry.linestring [(0, 0), (2, 0)]) (geometry.linestring [(1, 1), (1, -1)])
      crossing_turn exit_watcher.init result.init result.init false rfl (Or.inl rfl) rfl rfl rfl
  have hmain := hi (by decide)
  rw [hmain] at hx2
  exact ⟨x, hx, hx2⟩

/-- C24: a call on a union or blocked turn met with a pending entry: a union
turn writes nothing in the branch, a blocked turn writes exactly one of
`(B,B) = '0'` and `(B,I) = '0'` when its point is an end-point boundary
(`boundary_back`) of this geometry and nothing otherwise; the branch keeps
`(I,E)`, `(I,I)` and `(B,E)`. -/
theorem union_or_blocked_inside (c : collaborators P) (d : Nat) (st : turns_analyser P)
    (res : result) (ts : List (turn P)) (it : Nat) (g og : geometry P) (t : turn P)
    (ew : exit_watcher P) (r1 r2 : result) (fk : Bool) (ht : ts[it]? = some t)
    (hop : (t.op d).operation = operation_type.operation_union ∨
      (t.op d).operation = operation_type.operation_blocked)
    (h1 : turns_analyser.handle_possible_exit c (d != 0) st.m_exit_watcher res t.point
      (t.op d).operation = some (ew, r1, fk))
    (h2 : turns_analyser.check_previous_range c d (d != 0) ts it g
      (st.m_seg_watcher.update (t.op d).seg_id).1 fk st.m_last_union r1 = some r2)
    (hin : st.m_exit_watcher.other_entry_points ≠ []) :
    ∃ x, turns_analyser.apply c d st res ts it g og = some x ∧
      ((t.op d).operation = operation_type.operation_union → x.2 = r2) ∧
      ((t.op d).operation = operation_type.operation_blocked →
        x.2 =
          (if c.is_endpoint_boundary g boundary_query.boundary_back t.point = true then
            if turns_analyser.other_b c og t.point (t.op ((d + 1) % 2)).operation
                (t.op ((d + 1) % 2)).seg_id = true then
              update c.full field.boundary field.boundary 0 (d != 0) r2
            else update c.full field.boundary field.interior 0 (d != 0) r2
          else r2)) ∧
      x.2.cell (d != 0) field.interior field.exterior =
        r2.cell (d != 0) field.interior field.exterior ∧
      x.2.cell (d != 0) field.interior field.interior =
        r2.cell (d != 0) field.interior field.interior ∧
      x.2.cell (d != 0) field.boundary field.exterior =
        r2.cell (d != 0) field.boundary field.exterior := by
  have hx := apply_union_blocked_eq c d st res ts it g og t ew r1 r2 fk ht hop h1 h2
  have he : ew.other_entry_points ≠ [] := by
    rw [handle_possible_exit_entries c _ _ _ _ _ _ h1]
    exact hin
  rw [on_union_or_blocked_inside c _ g og _ _ _ _ _ _ _ _ _ he] at hx
  refine ⟨_, hx, fun hu => ?_, fun hb => ?_, ?_, ?_, ?_⟩
  · have : ¬ ((t.op d).operation = operation_type.operation_blocked ∧
        c.is_endpoint_boundary g boundary_query.boundary_back t.point = true) := by
      rw [hu]
      exact fun h => absurd h.1 (by decide)
    simp only [if_neg this]
  · simp only [hb, true_and]
  all_goals
    simp only
    split_ifs <;> first
      | rfl
      | rw [cell_update_other _ _ _ _ _ _ _ _ (by decide)]

/-- Witness of C24: the turn at the last point of two equal curves, met after
the entry at their first point. -/
theorem union_or_blocked_inside_witness :
    ∃ x, turns_analyser.apply (example_collaborators (fun _ _ => []) fun _ => false) 0
        { m_exit_watcher :=
            { exit_operation := operation_type.operation_none, exit_id := none,
              other_entry_points := [{ seg_id := ⟨1, -1, -1, 0⟩, point := (0, 0) }] },
          m_seg_watcher := { m_seg_id_ptr := some ⟨0, -1, -1, 0⟩ },
          m_last_union := false }
        result.init [equal_front_turn, equal_back_turn] 1
        (geometry.linestring [(0, 0), (1, 0)]) (geometry.linestring [(0, 0), (1, 0)]) = some x ∧
      x.2 = update (fun _ => false) field.boundary field.boundary 0 (0 != 0) result.init := by
  obtain ⟨x, hx, -, hb, -⟩ :=
    union_or_blocked_inside (example_collaborators (fun _ _ => []) fun _ => false) 0
      { m_exit_watcher :=
          { exit_operation := operation_type.operation_none, exit_id := none,
            other_entry_points := [{ seg_id := ⟨1, -1, -1, 0⟩, point := (0, 0) }] },
        m_seg_watcher := { m_seg_id_ptr := some ⟨0, -1, -1, 0⟩ },
        m_last_union := false }
      result.init [equal_front_turn, equal_back_turn] 1
      (geometry.linestring [(0, 0), (1, 0)]) (geometry.linestring [(0, 0), (1, 0)])
      equal_back_turn _ result.init result.init false rfl (Or.inr rfl) rfl rfl
      (by simp)
  exact ⟨x, hx, hb rfl⟩

/-- C25: in the union/blocked branch, when the point is not a boundary point
of this geometry under the test of the general branch
(`is_endpoint_boundary<boundary_back>` for a blocked turn,
`is_boundary<boundary_front>` otherwise), the branch of method crosses returns
the watcher and the matrix that the general branch returns, under any other
method, for the same turn and state. -/
theorem crosses_shortcut (c : collaborators P) (tr : Bool) (g og : geometry P)
    (point : P) (m : method_type) (op : operation_type) (seg_id other_id : segment_identifier)
    (oop : operation_type) (fir : Bool) (ew : exit_watcher P) (res : result)
    (hm : m ≠ method_type.method_crosses)
    (hb : (if op = operation_type.operation_blocked then
        c.is_endpoint_boundary g boundary_query.boundary_back point
      else c.is_boundary g boundary_query.boundary_front point seg_id) = false) :
    turns_analyser.on_union_or_blocked c tr g og point method_type.method_crosses op seg_id
        other_id oop fir ew res =
      turns_analyser.on_union_or_blocked c tr g og point m op seg_id other_id oop fir ew res := by
  refine Prod.ext ?_ ?_
  · rw [on_union_or_blocked_watcher, on_union_or_blocked_watcher]
  · by_cases he : ew.other_entry_points = []
    · rw [on_union_or_blocked_outside c tr g og _ _ _ _ _ _ _ _ _ he,
        on_union_or_blocked_outside c tr g og _ _ _ _ _ _ _ _ _ he]
      simp only [hb, hm, true_or, or_true, false_or, if_true]
    · rw [on_union_or_blocked_inside c tr g og _ _ _ _ _ _ _ _ _ he,
        on_union_or_blocked_inside c tr g og _ _ _ _ _ _ _ _ _ he]

/-- Witness of C25: the crossing at `(1, 0)` handled as a touch. -/
theorem crosses_shortcut_witness :
    turns_analyser.on_union_or_blocked (example_collaborators (fun _ _ => []) fun _ => false)
        false (geometry.linestring [(0, 0), (2, 0)]) (geometry.linestring [(1, 1), (1, -1)])
        (1, 0) method_type.method_crosses operation_type.operation_union ⟨0, -1, -1, 0⟩
        ⟨1, -1, -1, 0⟩ operation_type.operation_union true exit_watcher.init result.init =
      turns_analyser.on_union_or_blocked (example_collaborators (fun _ _ => []) fun _ => false)
        false (geometry.linestring [(0, 0), (2, 0)]) (geometry.linestring [(1, 1), (1, -1)])
        (1, 0) method_type.method_touch operation_type.operation_union ⟨0, -1, -1, 0⟩
        ⟨1, -1, -1, 0⟩ operation_type.operation_union true exit_watcher.init result.init :=
  crosses_shortcut _ false _ _ (1, 0) method_type.method_touch operation_type.operation_union
    ⟨0, -1, -1, 0⟩ ⟨1, -1, -1, 0⟩ operation_type.operation_union true exit_watcher.init
    result.init (by decide) (by decide)

/-- C26 on `prev_turns`: at the third turn the check of the previous range
fires, the latest acted-on turn is the first one, on the curve that ends at
the end-point boundary `(4, 0)`, and the check tests the last point of the
curve of the turn before the third one in the list, which is not acted on:
the scan leaves `(B,E)` unset, and it writes `(B,E) = '0'` once the turn
without operation is taken out of the list. -/
theorem prev_is_vector_predecessor :
    (last_acted_on 0 (prev_turns.take 2)).map (fun t => (t.op 0).seg_id) =
      some ⟨0, 0, -1, 0⟩ ∧
    (example_collaborators (fun _ _ => []) fun _ => false).is_endpoint_boundary prev_a
      boundary_query.boundary_back (range.back (sub_geometry.get prev_a ⟨0, 0, -1, 0⟩)) = true ∧
    (analyse_each_turn.steps (example_collaborators (fun _ _ => []) fun _ => false) 0 prev_turns
        prev_a prev_b 2 0 turns_analyser.init result.init).map
      (fun y => ((y.1.m_seg_watcher.update ⟨0, 2, -1, 0⟩).1, y.1.m_last_union,
        y.1.m_exit_watcher.exit_operation)) =
      some (true, true, operation_type.operation_none) ∧
    ((analyse_each_turn.steps (example_collaborators (fun _ _ => []) fun _ => false) 0 prev_turns
        prev_a prev_b 2 0 turns_analyser.init result.init).bind fun y =>
      turns_analyser.check_previous_range (example_collaborators (fun _ _ => []) fun _ => false)
        0 (0 != 0) prev_turns 2 prev_a (y.1.m_seg_watcher.update ⟨0, 2, -1, 0⟩).1 false
        y.1.m_last_union y.2).map (fun r => r.cells field.boundary field.exterior) =
      some code.F ∧
    (analyse_each_turn (example_collaborators (fun _ _ => []) fun _ => false) 0 result.init
      turns_analyser.init prev_turns prev_a prev_b).map
        (fun x => x.2.cells field.boundary field.exterior) = some code.F ∧
    (analyse_each_turn (example_collaborators (fun _ _ => []) fun _ => false) 0 result.init
      turns_analyser.init (prev_turns.eraseIdx 1) prev_a prev_b).map
        (fun x => x.2.cells field.boundary field.exterior) = some (code.dim 0) := by
  refine ⟨rfl, by decide, by decide, by decide, by decide, by decide⟩

/-- C27 on `exit_turns`: after the union exit at `(1, 0)` the blocked turn at
the same point keeps the pending exit operation union and clears
`m_last_union`, so the call with `it == last` is made with a pending union
exit and `m_last_union` false, and it is this call that writes
`(B,E) = '0'`. -/
theorem pending_union_exit_without_last_union :
    (analyse_each_turn.steps (example_collaborators (fun _ _ => []) fun _ => false) 0 exit_turns
        exit_a exit_b 2 0 turns_analyser.init result.init).map
      (fun y => (y.1.m_exit_watcher.exit_operation, y.1.m_last_union)) =
      some (operation_type.operation_union, true) ∧
    (analyse_each_turn.steps (example_collaborators (fun _ _ => []) fun _ => false) 0 exit_turns
        exit_a exit_b 3 0 turns_analyser.init result.init).map
      (fun y => (y.1.m_exit_watcher.exit_operation, y.1.m_last_union,
        y.2.cells field.boundary field.exterior)) =
      some (operation_type.operation_union, false, code.F) ∧
    (analyse_each_turn (example_collaborators (fun _ _ => []) fun _ => false) 0 result.init
      turns_analyser.init exit_turns exit_a exit_b).map
        (fun x => x.2.cells field.boundary field.exterior) = some (code.dim 0) := by
  refine ⟨by decide, by decide, by decide⟩

/-! ### The assertions of a scan -/

theorem steps_ready (c : collaborators P) (d : Nat) (ts : List (turn P)) (g og : geometry P)
    (res : result) (hne : ts.isEmpty = false) (k : Nat) :
    ∃ y, analyse_each_turn.steps c d ts g og k 0 turns_analyser.init res = some y ∧
      analyser_ready y.1 k := by
  induction k with
  | zero => exact ⟨_, rfl, analyser_ready_init 0⟩
  | succ k ih =>
    obtain ⟨y, hy, hr⟩ := ih
    obtain ⟨x, hx, hxr⟩ := turns_analyser_apply_ready c d y.1 y.2 ts k g og hne hr
    refine ⟨x, ?_, hxr⟩
    rw [steps_succ, hy]
    simpa using hx

/-- Over a scan `m_last_union` tells whether the latest acted-on turn is a
union. -/
theorem steps_last_union (c : collaborators P) (d : Nat) (ts : List (turn P))
    (g og : geometry P) (res : result) (k : Nat) :
    ∀ y, analyse_each_turn.steps c d ts g og k 0 turns_analyser.init res = some y →
      y.1.m_last_union =
        ((last_acted_on d (ts.take k)).map fun t =>
          decide ((t.op d).operation = operation_type.operation_union)).getD false := by
  induction k with
  | zero =>
    intro y h
    simp only [analyse_each_turn.steps, Option.some.injEq] at h
    subst h
    rfl
  | succ k ih =>
    intro x h
    obtain ⟨y, hy, hyx⟩ := steps_last_call c d ts g og k _ res x h
    have hy' := ih y hy
    obtain ⟨h1, h2, h3⟩ := turns_analyser_apply_state c d y.1 y.2 ts k g og x hyx
    rw [take_succ_of_getElem?]
    cases et : ts[k]? with
    | none =>
      rw [h3 et]
      simpa using hy'
    | some t =>
      simp only [Option.toList_some, last_acted_on_snoc]
      cases ha : turn.acted_on d t with
      | true =>
        rw [(h1 t et ha).2]
        simp
      | false =>
        rw [h2 t et ha]
        simpa using hy'

theorem get_exit_point_eq_none (ew : exit_watcher P) :
    ew.get_exit_point = none ↔
      (ew.exit_operation = operation_type.operation_none ∨ ew.exit_id = none) := by
  unfold exit_watcher.get_exit_point
  by_cases h : ew.exit_operation = operation_type.operation_none
  · simp [h]
  · cases e : ew.exit_id <;> simp [h]

theorem check_previous_range_eq_none (c : collaborators P) (d : Nat) (tr : Bool)
    (ts : List (turn P)) (it : Nat) (g : geometry P) (fir fake lu : Bool) (res : result)
    (hit : it < ts.length) :
    turns_analyser.check_previous_range c d tr ts it g fir fake lu res = none ↔
      ((fir && !fake && lu) = true ∧ it = 0) := by
  unfold turns_analyser.check_previous_range
  by_cases hc : (fir && !fake && lu) = true
  · rw [if_pos hc]
    by_cases h0 : it = 0
    · simp [h0, hc]
    · rw [if_neg h0, List.getElem?_eq_getElem (by omega)]
      simp only
      split_ifs <;> simp [h0]
  · rw [if_neg hc]
    simp [hc]

theorem at_last_eq_none (c : collaborators P) (d : Nat) (tr : Bool) (st : turns_analyser P)
    (res : result) (ts : List (turn P)) (g : geometry P) :
    turns_analyser.at_last c d tr st res ts g = none ↔
      ((st.m_exit_watcher.exit_operation = operation_type.operation_union ∨
        st.m_last_union = true) ∧ ts = []) := by
  unfold turns_analyser.at_last
  cases ts with
  | nil =>
    simp only [exit_watcher.get_exit_operation, Bool.or_eq_true, decide_eq_true_eq,
      List.isEmpty_nil, if_true, and_true]
    split_ifs with h <;> simp [h]
  | cons a l =>
    simp only [exit_watcher.get_exit_operation, Bool.or_eq_true, decide_eq_true_eq,
      List.isEmpty_cons, Bool.false_eq_true, if_false, List.length_cons, Nat.add_sub_cancel]
    rw [List.getElem?_eq_getElem (by simp)]
    simp only
    split_ifs <;> simp

/-- C28: no assertion of the analyser fails in a scan from a fresh analyser.
The three assertions are the places where a call has no result:
`get_exit_point` without exit operation or exit point, the check of the
previous range firing at the first turn, and the call with `it == last` on an
empty list. `analyse_each_turn` returns for every turn list; an empty list is
returned without a call; and before every call of a scan `m_last_union`
implies an earlier turn, which is acted on and a union, and an exit operation
other than none implies a stored exit point. -/
theorem analyser_assertions_hold (c : collaborators P) (d : Nat) (g og : geometry P)
    (res : result) :
    (∀ ew : exit_watcher P, ew.get_exit_point = none ↔
      (ew.exit_operation = operation_type.operation_none ∨ ew.exit_id = none)) ∧
    (∀ (tr : Bool) (ts : List (turn P)) (it : Nat) (fir fake lu : Bool) (r : result),
      it < ts.length →
      (turns_analyser.check_previous_range c d tr ts it g fir fake lu r = none ↔
        ((fir && !fake && lu) = true ∧ it = 0))) ∧
    (∀ (tr : Bool) (st : turns_analyser P) (r : result) (ts : List (turn P)),
      turns_analyser.at_last c d tr st r ts g = none ↔
        ((st.m_exit_watcher.exit_operation = operation_type.operation_union ∨
          st.m_last_union = true) ∧ ts = [])) ∧
    (∀ ts : List (turn P), ∃ x, analyse_each_turn c d res turns_analyser.init ts g og = some x) ∧
    (∀ a : turns_analyser P, analyse_each_turn c d res a [] g og = some (a, res)) ∧
    (∀ ts : List (turn P), ts ≠ [] → ∀ k, ∃ y,
      analyse_each_turn.steps c d ts g og k 0 turns_analyser.init res = some y ∧
      (y.1.m_last_union = true → 0 < k ∧ ∃ t, last_acted_on d (ts.take k) = some t ∧
        (t.op d).operation = operation_type.operation_union) ∧
      (y.1.m_exit_watcher.exit_operation ≠ operation_type.operation_none →
        y.1.m_exit_watcher.exit_id.isSome = true)) := by
  refine ⟨get_exit_point_eq_none, fun tr ts it fir fake lu r hit =>
    check_previous_range_eq_none c d tr ts it g fir fake lu r hit,
    fun tr st r ts => at_last_eq_none c d tr st r ts g,
    fun ts => analyse_each_turn_ready c d ts g og res, fun a => rfl, fun ts hne k => ?_⟩
  obtain ⟨y, hy, hr1, hr2⟩ := steps_ready c d ts g og res (isEmpty_eq_false_of_ne_nil hne) k
  refine ⟨y, hy, fun hl => ⟨hr1 hl, ?_⟩, hr2⟩
  have hlu := steps_last_union c d ts g og res k y hy
  rw [hl] at hlu
  cases e : last_acted_on d (ts.take k) with
  | none =>
    rw [e] at hlu
    cases hlu
  | some t =>
    rw [e] at hlu
    refine ⟨t, rfl, ?_⟩
    simpa using hlu.symm

/-- Witness of C28 on `exit_turns`: the check of the previous range at the
second turn, and the state before the third call. -/
theorem analyser_assertions_hold_witness :
    (turns_analyser.check_previous_range (example_collaborators (fun _ _ => []) fun _ => false)
        0 false exit_turns 1 exit_a true false true result.init = none ↔
      ((true && !false && true) = true ∧ 1 = 0)) ∧
    ∃ y, analyse_each_turn.steps (example_collaborators (fun _ _ => []) fun _ => false) 0
        exit_turns exit_a exit_b 2 0 turns_analyser.init result.init = some y ∧
      (y.1.m_last_union = true → 0 < 2 ∧ ∃ t, last_acted_on 0 (exit_turns.take 2) = some t ∧
        (t.op 0).operation = operation_type.operation_union) ∧
      (y.1.m_exit_watcher.exit_operation ≠ operation_type.operation_none →
        y.1.m_exit_watcher.exit_id.isSome = true) :=
  ⟨(analyser_assertions_hold (example_collaborators (fun _ _ => []) fun _ => false) 0
      exit_a exit_b result.init).2.1 false exit_turns 1 true false true result.init
      (by decide),
   (analyser_assertions_hold (example_collaborators (fun _ _ => []) fun _ => false) 0
      exit_a exit_b result.init).2.2.2.2.2 exit_turns (by simp [exit_turns]) 2⟩

/-! ### The updates of the disjoint predicate -/

theorem call_logged_erase (c : collaborators P) (d : Nat) (bc og : geometry P)
    (s : disjoint_linestring_pred × result) (log : List (field × field × Nat)) (ls : List P) :
    ((disjoint_linestring_pred.call_logged c d bc og (s, log) ls).1.1,
      (disjoint_linestring_pred.call_logged c d bc og (s, log) ls).2) =
      disjoint_linestring_pred.call c d bc og s ls := by
  unfold disjoint_linestring_pred.call_logged disjoint_linestring_pred.call
  simp only
  split_ifs <;> rfl

/-- C29 as stated fails: in the pass of direction 0 over `twin_points_a` the
two single-point components `[(7, 7)]` and `[(8, 8)]` are both outside the
other geometry, and the update `(I,E) = '0'` is made for each of them. -/
theorem point_update_counterexample :
    check_linestring_kind (fun a b : Int × Int => decide (a = b)) [(7, 7)] =
      linestring_kind.linestring_point ∧
    check_linestring_kind (fun a b : Int × Int => decide (a = b)) [(8, 8)] =
      linestring_kind.linestring_point ∧
    (for_each_disjoint_linestring_if.apply 0 saturating_turns twin_points_a
      (disjoint_linestring_pred.call_logged
        (example_collaborators (fun _ _ => []) fun _ => false) 0 twin_points_a saturating_b)
      ((disjoint_linestring_pred.init, result.init), [])).map (fun x => x.1.2) =
      some [(field.interior, field.exterior, 0), (field.interior, field.exterior, 0)] := by
  refine ⟨by decide, by decide, by decide⟩
theorem call_logged_mask_full (c : collaborators P) (d : Nat) (bc og : geometry P)
    (log0 : List (field × field × Nat))
    (sl : (disjoint_linestring_pred × result) × List (field × field × Nat)) (ls : List P)
    (h : sl.1.1.m_detected_mask_point = 7 ∧
      sl.2.filter is_point_update = log0.filter is_point_update) :
    (disjoint_linestring_pred.call_logged c d bc og sl ls).1.1.1.m_detected_mask_point = 7 ∧
    (disjoint_linestring_pred.call_logged c d bc og sl ls).1.2.filter is_point_update =
      log0.filter is_point_update := by
  obtain ⟨hm, hl⟩ := h
  unfold disjoint_linestring_pred.call_logged
  simp only [hm, ne_eq, not_true_eq_false, if_false]
  split_ifs <;> simp [hm, hl, List.filter_append, is_point_update]

/-- C29 (amended): the updates of single-point components are gated by the
full mask only. The logged call is the call of the predicate with a record of
its updates; a single-point component handed to the predicate while the point
mask is not 7 adds the one update of its outcome to the record, whatever the
mask holds; with the mask at 7 it adds nothing and changes nothing; and in a
pass that starts with the mask at 7 the mask stays 7 and no update of a
single-point component is made. -/
theorem point_updates_until_mask_full (c : collaborators P) (d : Nat) (bc og : geometry P) :
    (∀ (s : disjoint_linestring_pred × result) (log : List (field × field × Nat))
      (ls : List P),
      ((disjoint_linestring_pred.call_logged c d bc og (s, log) ls).1.1,
        (disjoint_linestring_pred.call_logged c d bc og (s, log) ls).2) =
        disjoint_linestring_pred.call c d bc og s ls) ∧
    (∀ (s : disjoint_linestring_pred × result) (log : List (field × field × Nat))
      (ls : List P),
      check_linestring_kind c.equals_point_point ls = linestring_kind.linestring_point →
      s.1.m_detected_mask_point ≠ 7 →
      (disjoint_linestring_pred.call_logged c d bc og (s, log) ls).1.2 =
        log ++ [(field.interior,
          (if c.point_in_geometry (range.front ls) og > 0 then field.interior
            else if c.point_in_geometry (range.front ls) og = 0 then field.boundary
            else field.exterior), 0)]) ∧
    (∀ (s : disjoint_linestring_pred × result) (log : List (field × field × Nat))
      (ls : List P),
      check_linestring_kind c.equals_point_point ls = linestring_kind.linestring_point →
      s.1.m_detected_mask_point = 7 →
      (disjoint_linestring_pred.call_logged c d bc og (s, log) ls).1 = (s, log)) ∧
    (∀ (ts : List (turn P)) (g : geometry P) (s0 : disjoint_linestring_pred × result)
      (log0 : List (field × field × Nat))
      (x : ((disjoint_linestring_pred × result) × List (field × field × Nat)) × Bool),
      for_each_disjoint_linestring_if.apply d ts g
        (disjoint_linestring_pred.call_logged c d bc og) (s0, log0) = some x →
      s0.1.m_detected_mask_point = 7 →
      x.1.1.1.m_detected_mask_point = 7 ∧
      x.1.2.filter is_point_update = log0.filter is_point_update) := by
  refine ⟨call_logged_erase c d bc og, fun s log ls hk hm => ?_, fun s log ls hk hm => ?_,
    fun ts g s0 log0 x hx hm => ?_⟩
  · unfold disjoint_linestring_pred.call_logged
    simp only [hk, hm, ne_eq, not_false_eq_true, if_true]
    split_ifs <;> rfl
  · unfold disjoint_linestring_pred.call_logged
    simp only [hk, hm, ne_eq, not_true_eq_false, if_true, if_false]
  · exact for_each_apply_invariant
      (fun sl : (disjoint_linestring_pred × result) × List (field × field × Nat) =>
        sl.1.1.m_detected_mask_point = 7 ∧
        sl.2.filter is_point_update = log0.filter is_point_update)
      d ts g _ (fun sl ls h => call_logged_mask_full c d bc og log0 sl ls h) (s0, log0)
      ⟨hm, rfl⟩ x hx

/-- Witness of C29 (amended): the second point of `twin_points_a`, handed to
the predicate after the first one, and a pass that starts with the mask at 7. -/
theorem point_updates_until_mask_full_witness :
    (disjoint_linestring_pred.call_logged (example_collaborators (fun _ _ => []) fun _ => false)
        0 twin_points_a saturating_b
        (({ m_detected_mask_point := 4, m_detected_open_boundary := false }, result.init),
          [(field.interior, field.exterior, 0)]) [(8, 8)]).1.2 =
      [(field.interior, field.exterior, 0)] ++ [(field.interior,
        (if (example_collaborators (fun _ _ => []) fun _ => false).point_in_geometry
              (range.front [(8, 8)]) saturating_b > 0 then field.interior
          else if (example_collaborators (fun _ _ => []) fun _ => false).point_in_geometry
              (range.front [(8, 8)]) saturating_b = 0 then field.boundary
          else field.exterior), 0)] ∧
    (disjoint_linestring_pred.call_logged (example_collaborators (fun _ _ => []) fun _ => false)
        0 twin_points_a saturating_b
        (({ m_detected_mask_point := 7, m_detected_open_boundary := false }, result.init),
          []) [(8, 8)]).1 =
      (({ m_detected_mask_point := 7, m_detected_open_boundary := false }, result.init), []) ∧
    ((for_each_disjoint_linestring_if.apply 0 saturating_turns twin_points_a
        (disjoint_linestring_pred.call_logged
          (example_collaborators (fun _ _ => []) fun _ => false) 0 twin_points_a saturating_b)
        (({ m_detected_mask_point := 7, m_detected_open_boundary := false }, result.init),
          [])).get (by decide)).1.2.filter is_point_update =
      ([] : List (field × field × Nat)).filter is_point_update :=
  ⟨(point_updates_until_mask_full (example_collaborators (fun _ _ => []) fun _ => false) 0
      twin_points_a saturating_b).2.1 _ _ [(8, 8)] (by decide) (by decide),
   (point_updates_until_mask_full (example_collaborators (fun _ _ => []) fun _ => false) 0
      twin_points_a saturating_b).2.2.1 _ _ [(8, 8)] (by decide) rfl,
   ((point_updates_until_mask_full (example_collaborators (fun _ _ => []) fun _ => false) 0
      twin_points_a saturating_b).2.2.2 saturating_turns twin_points_a _ []
      _ (Option.some_get (by decide)).symm rfl).2⟩

/-! ### The scan of the components without turns -/

theorem getD_set_true (l : List Bool) : ∀ (idx i : Nat),
    (l.set idx true).getD i true = (l.getD i true || decide (idx = i)) := by
  induction l with
  | nil => intro idx i; simp
  | cons a l ih =>
    intro idx i
    cases idx with
    | zero =>
      cases i with
      | zero => simp
      | succ i => simp
    | succ idx =>
      cases i with
      | zero => simp
      | succ i =>
        show (l.set idx true).getD i true = (l.getD i true || decide (idx + 1 = i + 1))
        rw [ih idx i]
        simp

theorem getD_replicate_false (n : Nat) : ∀ i, i < n →
    (List.replicate n false).getD i true = false := by
  induction n with
  | zero => intro i h; exact absurd h (Nat.not_lt_zero i)
  | succ n ih =>
    intro i h
    cases i with
    | zero => simp [List.replicate_succ]
    | succ i =>
      show (List.replicate n false).getD i true = false
      exact ih i (Nat.lt_of_succ_lt_succ h)

/-- The first loop marks exactly the components that own a turn. -/
theorem mark_spec (OpId : Nat) (count : Nat) : ∀ (turns : List (turn P)) (det : List Bool),
    (∀ t ∈ turns, 0 ≤ (t.op OpId).seg_id.multi_index ∧
      (t.op OpId).seg_id.multi_index < (count : Int)) →
    det.length = count →
    ∃ det', for_each_disjoint_linestring_if.mark OpId count turns det = some det' ∧
      det'.length = count ∧
      ∀ i, det'.getD i true =
        (det.getD i true ||
          turns.any fun t => decide ((t.op OpId).seg_id.multi_index.toNat = i)) := by
  intro turns
  induction turns with
  | nil =>
    intro det _ hl
    exact ⟨det, rfl, hl, fun i => by simp⟩
  | cons t rest ih =>
    intro det h hl
    have ht := h t (List.mem_cons_self _ _)
    have h1 : (t.op OpId).seg_id.multi_index ≥ 0 := ht.1
    have h2 : (t.op OpId).seg_id.multi_index.toNat < count := by omega
    obtain ⟨det', hd, hlen, hget⟩ := ih (det.set (t.op OpId).seg_id.multi_index.toNat true)
      (fun u hu => h u (List.mem_cons_of_mem _ hu)) (by simpa using hl)
    refine ⟨det', ?_, hlen, fun i => ?_⟩
    · simp only [for_each_disjoint_linestring_if.mark, h1, h2, not_true_eq_false, if_false]
      exact hd
    · rw [hget i, getD_set_true, List.any_cons, Bool.or_assoc]

theorem scan_spec {σ : Type} (lss : List (List P)) (pred : σ → List P → σ × Bool) :
    ∀ (ds : List Bool) (i : Nat) (s : σ) (found : Bool),
      for_each_disjoint_linestring_if.scan lss pred ds i s found =
        (apply_until_false pred ((false_indices ds i).map fun j => lss.getD j []) s,
          found || !(false_indices ds i).isEmpty) := by
  intro ds
  induction ds with
  | nil => intro i s found; simp [for_each_disjoint_linestring_if.scan, false_indices,
      apply_until_false]
  | cons b ds ih =>
    intro i s found
    cases b with
    | true =>
      simp only [for_each_disjoint_linestring_if.scan, false_indices, Bool.true_eq_false,
        if_false]
      exact ih _ _ _
    | false =>
      simp only [for_each_disjoint_linestring_if.scan, false_indices, if_true, List.map_cons,
        apply_until_false, List.isEmpty_cons, Bool.not_false, Bool.or_true]
      cases hp : (pred s (lss.getD i [])).2 with
      | true =>
        simp only [Bool.not_true, Bool.false_eq_true, if_false, if_true]
        rw [ih]
        simp
      | false => simp

theorem false_indices_eq_filter : ∀ (ds : List Bool) (i : Nat),
    false_indices ds i =
      ((List.range ds.length).filter fun j => decide (ds.getD j true = false)).map (· + i) := by
  intro ds
  induction ds with
  | nil => intro i; simp [false_indices]
  | cons b ds ih =>
    intro i
    have hrest : (List.map (fun x => x + i) (List.map Nat.succ
        (List.filter ((fun j => decide ((b :: ds).getD j true = false)) ∘ Nat.succ)
          (List.range ds.length)))) = false_indices ds (i + 1) := by
      rw [ih (i + 1), List.map_map]
      apply congrArg₂
      · funext j
        simp only [Function.comp, Nat.succ_eq_add_one]
        omega
      · apply List.filter_congr
        intro j _
        rfl
    rw [List.length_cons, List.range_succ_eq_map, List.filter_cons, List.filter_map]
    cases b with
    | true =>
      rw [if_neg (by simp)]
      rw [hrest]
      simp [false_indices]
    | false =>
      rw [if_pos (by simp)]
      rw [List.map_cons, hrest]
      simp [false_indices]

theorem mem_disjoint_indices (OpId : Nat) (turns : List (turn P)) (n i : Nat) :
    i ∈ disjoint_indices OpId turns n ↔
      (i < n ∧ ∀ t ∈ turns, (t.op OpId).seg_id.multi_index ≠ (i : Int)) := by
  simp [disjoint_indices]

theorem call_returns_false_iff (c : collaborators P) (d : Nat) (bc og : geometry P)
    (st : disjoint_linestring_pred × result) (ls : List P) :
    (disjoint_linestring_pred.call c d bc og st ls).2 = false ↔
      (((disjoint_linestring_pred.call c d bc og st ls).1.1.m_detected_mask_point = 7 ∧
        (disjoint_linestring_pred.call c d bc og st ls).1.1.m_detected_open_boundary = true) ∨
      (disjoint_linestring_pred.call c d bc og st ls).1.2.interrupt = true) := by
  simp only [disjoint_linestring_pred.call]
  generalize (if check_linestring_kind c.equals_point_point ls =
    linestring_kind.linestring_point then _ else _ : disjoint_linestring_pred × result) = s1
  cases h : s1.2.interrupt <;> simp [h]

/-- C30: for a multi-curve geometry and a non-empty turn list whose component
indices on side `OpId` are indices of components,
`for_each_disjoint_linestring_if` applies the predicate to the components that
own no turn on side `OpId`, in increasing index order, each once, until the
first application that returns false, and returns whether there is such a
component; the indices are those below the number of components that are the
component index of no turn; and the disjoint predicate returns false exactly
when the mask is 7 and the boundary fact is detected, or the matrix is
interrupted. -/
theorem multi_disjoint_scan {σ : Type} (OpId : Nat) (turns : List (turn P))
    (lss : List (List P)) (pred : σ → List P → σ × Bool) (s : σ) (hne : turns ≠ [])
    (hidx : ∀ t ∈ turns, 0 ≤ (t.op OpId).seg_id.multi_index ∧
      (t.op OpId).seg_id.multi_index < (lss.length : Int)) :
    for_each_disjoint_linestring_if.apply OpId turns (geometry.multi_linestring lss) pred s =
      some (apply_until_false pred
          ((disjoint_indices OpId turns lss.length).map fun i => lss.getD i []) s,
        !(disjoint_indices OpId turns lss.length).isEmpty) ∧
    (disjoint_indices OpId turns lss.length).Pairwise (fun i j => i < j) ∧
    (∀ i, i ∈ disjoint_indices OpId turns lss.length ↔
      (i < lss.length ∧ ∀ t ∈ turns, (t.op OpId).seg_id.multi_index ≠ (i : Int))) ∧
    (∀ (l : List P) (ls : List (List P)) (s0 : σ),
      apply_until_false pred (l :: ls) s0 =
        if (pred s0 l).2 = true then apply_until_false pred ls (pred s0 l).1
        else (pred s0 l).1) ∧
    (∀ (c : collaborators P) (d : Nat) (bc og : geometry P)
      (st : disjoint_linestring_pred × result) (ls : List P),
      (disjoint_linestring_pred.call c d bc og st ls).2 = false ↔
        (((disjoint_linestring_pred.call c d bc og st ls).1.1.m_detected_mask_point = 7 ∧
          (disjoint_linestring_pred.call c d bc og st ls).1.1.m_detected_open_boundary = true) ∨
        (disjoint_linestring_pred.call c d bc og st ls).1.2.interrupt = true)) := by
  refine ⟨?_, ?_, mem_disjoint_indices OpId turns lss.length, fun l ls s0 => rfl,
    call_returns_false_iff⟩
  · obtain ⟨det, hd, hlen, hget⟩ := mark_spec OpId lss.length turns
      (List.replicate lss.length false) hidx (by simp)
    have hfilter : false_indices det 0 = disjoint_indices OpId turns lss.length := by
      rw [false_indices_eq_filter, hlen]
      simp only [Nat.add_zero, List.map_id_fun', id_eq, disjoint_indices]
      apply List.filter_congr
      intro j hj
      have hj' : j < lss.length := List.mem_range.1 hj
      rw [hget j, getD_replicate_false _ j hj', Bool.false_or, Bool.eq_iff_iff]
      simp only [decide_eq_true_eq, List.all_eq_true, List.any_eq_false, ne_eq]
      constructor
      · intro h t ht hc
        have := hidx t ht
        exact h t ht (by omega)
      · intro h t ht hc
        have := hidx t ht
        exact h t ht (by omega)
    simp only [for_each_disjoint_linestring_if.apply,
      for_each_disjoint_linestring_if.apply_multi, isEmpty_eq_false_of_ne_nil hne,
      Bool.false_eq_true, if_false, hd, scan_spec, hfilter, Bool.false_or]
  · unfold disjoint_indices
    exact List.Pairwise.filter _ (List.pairwise_lt_range _)

/-- Witness of C30: the pass of direction 0 over `twin_points_a`, whose second
component owns the turns. -/
theorem multi_disjoint_scan_witness :
    for_each_disjoint_linestring_if.apply 0 saturating_turns twin_points_a
        (disjoint_linestring_pred.call (example_collaborators (fun _ _ => []) fun _ => false)
          0 twin_points_a saturating_b) (disjoint_linestring_pred.init, result.init) =
      some (apply_until_false
          (disjoint_linestring_pred.call (example_collaborators (fun _ _ => []) fun _ => false)
            0 twin_points_a saturating_b)
          ((disjoint_indices 0 saturating_turns 3).map fun i =>
            [[(7, 7)], [(0, 0), (2, 0)], [(8, 8)]].getD i [])
          (disjoint_linestring_pred.init, result.init),
        !(disjoint_indices 0 saturating_turns 3).isEmpty) ∧
    disjoint_indices 0 saturating_turns 3 = [0, 2] :=
  ⟨(multi_disjoint_scan 0 saturating_turns [[(7, 7)], [(0, 0), (2, 0)], [(8, 8)]]
      (disjoint_linestring_pred.call (example_collaborators (fun _ _ => []) fun _ => false)
        0 twin_points_a saturating_b) (disjoint_linestring_pred.init, result.init)
      (by simp [saturating_turns]) (by decide)).1, by decide⟩

/-! ### The cells a direction writes -/

theorem update_keeps_cell (full : (field → field → code) → Bool) (u : field × field × Nat)
    (tr : Bool) (a b : field)
    (h : ¬ (a = (if tr = true then u.2.1 else u.1) ∧ b = (if tr = true then u.1 else u.2.1)))
    (r : result) : (update full u.1 u.2.1 u.2.2 tr r).cells a b = r.cells a b := by
  rw [update_cells, if_neg h]

theorem update_zero_keeps_cell (full : (field → field → code) → Bool)
    (u : field × field × Nat) (a b : field) (h : ¬ (u.1 = a ∧ u.2.1 = b)) (r : result) :
    (update full u.1 u.2.1 u.2.2 (0 != 0) r).cells a b = r.cells a b :=
  update_keeps_cell full u false a b (fun hc => h ⟨hc.1.symm, hc.2.symm⟩) r

theorem update_one_keeps_cell (full : (field → field → code) → Bool)
    (u : field × field × Nat) (a b : field) (h : ¬ (u.2.1 = a ∧ u.1 = b)) (r : result) :
    (update full u.1 u.2.1 u.2.2 (1 != 0) r).cells a b = r.cells a b :=
  update_keeps_cell full u true a b (fun hc => h ⟨hc.1.symm, hc.2.symm⟩) r

theorem writes_rows :
    ∀ u ∈ scanner_writes ++ analyser_writes, u.1 ≠ field.exterior := by
  decide

theorem analyser_writes_not_interior_boundary :
    ∀ u ∈ analyser_writes, ¬ (u.1 = field.interior ∧ u.2.1 = field.boundary) := by
  decide

theorem writes_not_exterior_exterior :
    ∀ u ∈ scanner_writes ++ analyser_writes, ¬ (u.1 = field.exterior ∧ u.2.1 = field.exterior) := by
  decide

/-- Every update of direction 0 keeps the row of the exterior. -/
theorem update_zero_keeps_row (full : (field → field → code) → Bool) (v : code) (f : field) :
    ∀ u ∈ scanner_writes ++ analyser_writes, ∀ r : result,
      r.cells field.exterior f = v →
      (update full u.1 u.2.1 u.2.2 (0 != 0) r).cells field.exterior f = v := by
  intro u hu r h
  rw [update_zero_keeps_cell full u _ _ (fun hc => writes_rows u hu hc.1)]
  exact h

/-- Every update of direction 1 keeps the column of the exterior. -/
theorem update_one_keeps_column (full : (field → field → code) → Bool) (v : code) (f : field) :
    ∀ u ∈ scanner_writes ++ analyser_writes, ∀ r : result,
      r.cells f field.exterior = v →
      (update full u.1 u.2.1 u.2.2 (1 != 0) r).cells f field.exterior = v := by
  intro u hu r h
  rw [update_one_keeps_cell full u _ _ (fun hc => writes_rows u hu hc.2)]
  exact h

/-- C31: the scanner pass and the analyser scan of direction 0, its call with
`it == last` included, keep the three cells of the exterior row, and the
analyser scan also keeps `(I,B)`; the scanner pass and the analyser scan of
direction 1 keep the three cells of the exterior column, and the analyser scan
also keeps `(B,I)`; and the cell `(E,E)` of the matrix `linear_linear::apply`
returns is the base dimension written by the initial `set`. -/
theorem direction_frames (c : collaborators P) :
    (∀ (ts : List (turn P)) (g bc og : geometry P) (s : disjoint_linestring_pred × result)
      (x : (disjoint_linestring_pred × result) × Bool),
      for_each_disjoint_linestring_if.apply 0 ts g (disjoint_linestring_pred.call c 0 bc og) s =
        some x →
      ∀ f, x.1.2.cells field.exterior f = s.2.cells field.exterior f) ∧
    (∀ (res : result) (st : turns_analyser P) (ts : List (turn P)) (g og : geometry P)
      (x : turns_analyser P × result),
      analyse_each_turn c 0 res st ts g og = some x →
      (∀ f, x.2.cells field.exterior f = res.cells field.exterior f) ∧
      x.2.cells field.interior field.boundary = res.cells field.interior field.boundary) ∧
    (∀ (ts : List (turn P)) (g bc og : geometry P) (s : disjoint_linestring_pred × result)
      (x : (disjoint_linestring_pred × result) × Bool),
      for_each_disjoint_linestring_if.apply 1 ts g (disjoint_linestring_pred.call c 1 bc og) s =
        some x →
      ∀ f, x.1.2.cells f field.exterior = s.2.cells f field.exterior) ∧
    (∀ (res : result) (st : turns_analyser P) (ts : List (turn P)) (g og : geometry P)
      (x : turns_analyser P × result),
      analyse_each_turn c 1 res st ts g og = some x →
      (∀ f, x.2.cells f field.exterior = res.cells f field.exterior) ∧
      x.2.cells field.boundary field.interior = res.cells field.boundary field.interior) ∧
    (∀ (g1 g2 : geometry P) (r : result), linear_linear.apply c g1 g2 = some r →
      r.cells field.exterior field.exterior = c.result_dimension g1) := by
  refine ⟨fun ts g bc og s x hx f => ?_, fun res st ts g og x hx => ⟨fun f => ?_, ?_⟩,
    fun ts g bc og s x hx f => ?_, fun res st ts g og x hx => ⟨fun f => ?_, ?_⟩,
    fun g1 g2 r hr => ?_⟩
  · exact for_each_apply_invariant
      (fun t : disjoint_linestring_pred × result =>
        t.2.cells field.exterior f = s.2.cells field.exterior f) 0 ts g _
      (fun t ls ht => disjoint_linestring_pred_call_invariant c 0 bc og
        (fun r => r.cells field.exterior f = s.2.cells field.exterior f)
        (fun u hu r hr => update_zero_keeps_row c.full _ f u (List.mem_append_left _ hu) r hr)
        t ls ht) s rfl x hx
  · exact analyse_each_turn_invariant c 0 ts g og
      (fun r => r.cells field.exterior f = res.cells field.exterior f)
      (fun u hu r hr => update_zero_keeps_row c.full _ f u (List.mem_append_right _ hu) r hr)
      st x.1 res x.2 rfl hx
  · exact analyse_each_turn_invariant c 0 ts g og
      (fun r => r.cells field.interior field.boundary = res.cells field.interior field.boundary)
      (fun u hu r hr =>
        (update_zero_keeps_cell c.full u _ _
          (fun hc => analyser_writes_not_interior_boundary u hu hc) r).trans hr)
      st x.1 res x.2 rfl hx
  · exact for_each_apply_invariant
      (fun t : disjoint_linestring_pred × result =>
        t.2.cells f field.exterior = s.2.cells f field.exterior) 1 ts g _
      (fun t ls ht => disjoint_linestring_pred_call_invariant c 1 bc og
        (fun r => r.cells f field.exterior = s.2.cells f field.exterior)
        (fun u hu r hr => update_one_keeps_column c.full _ f u (List.mem_append_left _ hu) r hr)
        t ls ht) s rfl x hx
  · exact analyse_each_turn_invariant c 1 ts g og
      (fun r => r.cells f field.exterior = res.cells f field.exterior)
      (fun u hu r hr => update_one_keeps_column c.full _ f u (List.mem_append_right _ hu) r hr)
      st x.1 res x.2 rfl hx
  · exact analyse_each_turn_invariant c 1 ts g og
      (fun r => r.cells field.boundary field.interior = res.cells field.boundary field.interior)
      (fun u hu r hr =>
        (update_one_keeps_cell c.full u _ _
          (fun hc => analyser_writes_not_interior_boundary u hu ⟨hc.2, hc.1⟩) r).trans hr)
      st x.1 res x.2 rfl hx
  · exact linear_linear_apply_invariant c g1 g2
      (fun r => r.cells field.exterior field.exterior = c.result_dimension g1)
      (fun u hu tr r h => by
        have hne : ¬ (field.exterior = (if tr = true then u.2.1 else u.1) ∧
            field.exterior = (if tr = true then u.1 else u.2.1)) := by
          cases tr
          · exact fun hc => writes_rows u hu hc.1.symm
          · exact fun hc => writes_rows u hu hc.2.symm
        exact (update_keeps_cell c.full u tr _ _ hne r).trans h)
      (by simp [set]) r hr
/-- Witness of C31: the scanner passes over `twin_points_a` and `saturating_b`,
the analyser scans of `exit_turns` in both directions, and the matrix returned
for two equal curves. -/
theorem direction_frames_witness :
    ((for_each_disjoint_linestring_if.apply 0 saturating_turns twin_points_a
        (disjoint_linestring_pred.call (example_collaborators (fun _ _ => []) fun _ => false)
          0 twin_points_a saturating_b) (disjoint_linestring_pred.init, result.init)).get
        (by decide)).1.2.cells field.exterior field.interior =
      result.init.cells field.exterior field.interior ∧
    (((analyse_each_turn (example_collaborators (fun _ _ => []) fun _ => false) 0 result.init
        turns_analyser.init exit_turns exit_a exit_b).get (by decide)).2.cells
        field.exterior field.boundary = result.init.cells field.exterior field.boundary ∧
      ((analyse_each_turn (example_collaborators (fun _ _ => []) fun _ => false) 0 result.init
        turns_analyser.init exit_turns exit_a exit_b).get (by decide)).2.cells
        field.interior field.boundary = result.init.cells field.interior field.boundary) ∧
    ((for_each_disjoint_linestring_if.apply 1 saturating_turns saturating_b
        (disjoint_linestring_pred.call (example_collaborators (fun _ _ => []) fun _ => false)
          1 saturating_b twin_points_a) (disjoint_linestring_pred.init, result.init)).get
        (by decide)).1.2.cells field.interior field.exterior =
      result.init.cells field.interior field.exterior ∧
    (((analyse_each_turn (example_collaborators (fun _ _ => []) fun _ => false) 1 result.init
        turns_analyser.init exit_turns exit_b exit_a).get (by decide)).2.cells
        field.boundary field.exterior = result.init.cells field.boundary field.exterior ∧
      ((analyse_each_turn (example_collaborators (fun _ _ => []) fun _ => false) 1 result.init
        turns_analyser.init exit_turns exit_b exit_a).get (by decide)).2.cells
        field.boundary field.interior = result.init.cells field.boundary field.interior) ∧
    ((linear_linear.apply
        (example_collaborators (fun _ _ => [equal_front_turn, equal_back_turn]) fun _ => false)
        (geometry.linestring [(0, 0), (1, 0)]) (geometry.linestring [(0, 0), (1, 0)])).get
        (by decide)).cells field.exterior field.exterior = code.dim 1 :=
  ⟨(direction_frames (example_collaborators (fun _ _ => []) fun _ => false)).1
      saturating_turns twin_points_a twin_points_a saturating_b
      (disjoint_linestring_pred.init, result.init) _ (Option.some_get (by decide)).symm
      field.interior,
   (fun h => ⟨h.1 field.boundary, h.2⟩)
     ((direction_frames (example_collaborators (fun _ _ => []) fun _ => false)).2.1
      result.init turns_analyser.init exit_turns exit_a exit_b _
      (Option.some_get (by decide)).symm),
   (direction_frames (example_collaborators (fun _ _ => []) fun _ => false)).2.2.1
      saturating_turns saturating_b saturating_b twin_points_a
      (disjoint_linestring_pred.init, result.init) _ (Option.some_get (by decide)).symm
      field.interior,
   (fun h => ⟨h.1 field.boundary, h.2⟩)
     ((direction_frames (example_collaborators (fun _ _ => []) fun _ => false)).2.2.2.1
      result.init turns_analyser.init exit_turns exit_b exit_a _
      (Option.some_get (by decide)).symm),
   (direction_frames
      (example_collaborators (fun _ _ => [equal_front_turn, equal_back_turn]) fun _ => false)).2.2.2.2
      (geometry.linestring [(0, 0), (1, 0)]) (geometry.linestring [(0, 0), (1, 0)]) _
      (Option.some_get (by decide)).symm⟩

end relate
